import Mathlib

/-! NearSnap signalling server: room registry and session gateway.

Shallow embedding of `server.js`.  The two process-wide maps (`rooms`, `userMap`)
and the part of Socket.IO the handlers rely on (the connected sockets and the
Socket.IO rooms each socket has joined) form the state; every `socket.on(...)`
handler is a function from a state to a new state and the list of messages it
delivers.
-/

namespace NearSnap

/-! ## Data model -/

abbrev SocketId := String

abbrev RoomId := String

/-- Value stored in `rooms`: `{ users: Set, host, locked }`.  The `Set` is kept as the
list of its elements in insertion order, the order in which `Array.from` lists it. -/
structure Room where
  users : List SocketId
  host : SocketId
  locked : Bool
deriving DecidableEq

/-- Value stored in `userMap`: `{ roomId, nickname, timezone }`. -/
structure User where
  roomId : RoomId
  nickname : String
  timezone : String
deriving DecidableEq

/-- Server state: `rooms`, `userMap`, the connected sockets (`io.sockets.sockets`) and,
for each socket, the Socket.IO rooms it entered with `socket.join`. -/
structure State where
  rooms : RoomId → Option Room
  userMap : SocketId → Option User
  sockets : List SocketId
  sioRooms : SocketId → List RoomId

inductive JoinErrorType where
  | roomFull
  | roomLocked
deriving DecidableEq

/-- One element of the `users` array of `room-info`. -/
structure MemberInfo where
  socketId : SocketId
  nickname : String
  timezone : String
deriving DecidableEq

/-- Signalling payload as the client builds it (`type`, `sdp`, `candidate`); the server
never looks inside. -/
structure Signal where
  type : Option String
  sdp : Option String
  candidate : Option String
deriving DecidableEq

/-- Messages the server emits, one constructor per event name. -/
inductive Msg where
  | joinError (type : JoinErrorType) (message : String)
  | existingUsers (users : List SocketId)
  | userJoined (socketId : SocketId) (nickname : String) (timezone : String)
  | roomInfo (roomId : RoomId) (host : SocketId) (isHost : Bool) (locked : Bool)
      (users : List MemberInfo)
  | signal (sender : SocketId) (signal : Signal)
  | chatMessage (sender : SocketId) (nickname : String) (message : String) (timestamp : String)
  | playSound (sound : String) (nickname : String)
  | userTyping (socketId : SocketId) (nickname : String)
  | userStopTyping (socketId : SocketId) (nickname : String)
  | error (message : String)
  | kicked (reason : String) (hostNickname : String)
  | adminMuteAll (hostNickname : String)
  | roomStatus (locked : Bool) (hostNickname : String)
  | nudge (hostNickname : String)
  | newHost (hostId : SocketId) (hostNickname : String)
  | userLeft (socketId : SocketId) (nickname : String)
deriving DecidableEq

/-- A message together with the socket it is delivered to. -/
abbrev Delivery := SocketId × Msg

/-- Payload of `join-room`; the reconnect path of the client sends no timezone. -/
structure JoinData where
  roomId : RoomId
  nickname : String
  timezone : Option String
deriving DecidableEq

/-- Payload of `signal`: the fields `to` and `signal`. -/
structure SignalData where
  toId : String
  signal : Signal
deriving DecidableEq

/-- The `action` field of `admin-action`, as the `switch` distinguishes it. -/
inductive AdminKind where
  | kick
  | muteAll
  | roomLock
  | nudgeAll
  | other (name : String)
deriving DecidableEq

/-- Payload of `admin-action`. -/
structure AdminData where
  action : AdminKind
  targetId : SocketId
  reason : Option String
  locked : Bool
deriving DecidableEq

/-- Events the server reacts to. -/
inductive Event where
  | connection (c : SocketId)
  | joinRoom (c : SocketId) (data : JoinData)
  | signal (c : SocketId) (data : SignalData)
  | chatMessage (c : SocketId) (message : String) (now : String)
  | playSound (c : SocketId) (sound : String)
  | userTyping (c : SocketId) (roomId : RoomId)
  | userStopTyping (c : SocketId) (roomId : RoomId)
  | kickUser (c : SocketId) (targetId : SocketId)
  | adminAction (c : SocketId) (data : AdminData)
  | disconnect (c : SocketId)
deriving DecidableEq

/-! ## JavaScript helpers -/

/-- JavaScript `a || b` on strings: the empty string is falsy. -/
def strOr (a b : String) : String :=
  if a = "" then b else a

/-- JavaScript `a || b` when `a` may be `undefined`. -/
def optOr (a : Option String) (b : String) : String :=
  match a with
  | some v => strOr v b
  | none => b

/-- The method `Set.prototype.add`: a new element goes to the end, a present one stays put. -/
def setAdd (xs : List String) (x : String) : List String :=
  if x ∈ xs then xs else xs ++ [x]

/-- The method `Set.prototype.delete`. -/
def setDelete (xs : List String) (x : String) : List String :=
  xs.filter (fun y => y ≠ x)

/-- The method `Map.prototype.set`. -/
def mapSet {β : Type} (m : String → Option β) (k : String) (v : β) : String → Option β :=
  fun x => if x = k then some v else m x

/-- The method `Map.prototype.delete`. -/
def mapDelete {β : Type} (m : String → Option β) (k : String) : String → Option β :=
  fun x => if x = k then none else m x

/-! ## Socket.IO delivery -/

/-- Membership of socket `x` in Socket.IO room `r`: every socket is in the room named by
its own id, and in the rooms it joined. -/
def inRoom (s : State) (r : RoomId) (x : SocketId) : Bool :=
  decide (x = r) || decide (r ∈ s.sioRooms x)

/-- Connected sockets in Socket.IO room `r`. -/
def roomSockets (s : State) (r : RoomId) : List SocketId :=
  s.sockets.filter (inRoom s r)

/-- Broadcast `io.to(r).emit(m)`. -/
def ioTo (s : State) (r : RoomId) (m : Msg) : List Delivery :=
  (roomSockets s r).map (fun x => (x, m))

/-- Broadcast `socket.to(r).emit(m)` from socket `c`: the sender is left out. -/
def socketTo (s : State) (c : SocketId) (r : RoomId) (m : Msg) : List Delivery :=
  ((roomSockets s r).filter (fun x => x ≠ c)).map (fun x => (x, m))

/-! ## Handlers -/

/-- The constant `parseInt(process.env.MAX_PARTICIPANTS) || 6`; `env` is the result of
`parseInt`, with `none` for `NaN`. -/
def MAX_PARTICIPANTS (env : Option Int) : Int :=
  match env with
  | none => 6
  | some n => if n = 0 then 6 else n

/-- The expression `userMap.get(userId)?.nickname || 'Unknown'`. -/
def nicknameOf (userMap : SocketId → Option User) (userId : SocketId) : String :=
  match userMap userId with
  | some u => strOr u.nickname "Unknown"
  | none => "Unknown"

/-- The expression `userMap.get(userId)?.timezone || 'UTC'`. -/
def timezoneOf (userMap : SocketId → Option User) (userId : SocketId) : String :=
  match userMap userId with
  | some u => strOr u.timezone "UTC"
  | none => "UTC"

/-- The callback mapped over `room.users` to build the `users` array of `room-info`. -/
def memberInfo (userMap : SocketId → Option User) (userId : SocketId) : MemberInfo :=
  { socketId := userId, nickname := nicknameOf userMap userId,
    timezone := timezoneOf userMap userId }

/-- Text of the `room-full` error. -/
def roomFullMessage (MAX : Int) : String :=
  "Комната переполнена. Максимум участников: " ++ toString MAX

/-- Text of the `room-locked` error. -/
def roomLockedMessage : String :=
  "Комната заблокирована для новых участников"

/-- Handler of `join-room` from the lookup `rooms.get(roomId)` on: `room` is the entry of
`data.roomId` in `s.rooms`. -/
def joinLookedUp (env : Option Int) (s : State) (c : SocketId) (data : JoinData)
    (room : Room) : State × List Delivery :=
  if room.locked = true ∧ c ∉ room.users then
    (s, [(c, Msg.joinError JoinErrorType.roomLocked roomLockedMessage)])
  else if MAX_PARTICIPANTS env ≤ (room.users.length : Int) ∧ c ∉ room.users then
    (s, [(c, Msg.joinError JoinErrorType.roomFull (roomFullMessage (MAX_PARTICIPANTS env)))])
  else
    let existingUsers := room.users
    let room1 : Room := { room with users := setAdd room.users c }
    let tz := optOr data.timezone "UTC"
    let s1 : State :=
      { rooms := mapSet s.rooms data.roomId room1
        userMap := mapSet s.userMap c
          { roomId := data.roomId, nickname := data.nickname, timezone := tz }
        sockets := s.sockets
        sioRooms := fun x => if x = c then setAdd (s.sioRooms c) data.roomId else s.sioRooms x }
    (s1,
      [(c, Msg.existingUsers existingUsers)]
        ++ socketTo s1 c data.roomId (Msg.userJoined c data.nickname tz)
        ++ [(c, Msg.roomInfo data.roomId room1.host (decide (c = room1.host))
              (room1.locked || false) (room1.users.map (memberInfo s1.userMap)))])

/-- Handler of `join-room`. -/
def joinRoom (env : Option Int) (s : State) (c : SocketId) (data : JoinData) :
    State × List Delivery :=
  match s.rooms data.roomId with
  | some room => joinLookedUp env s c data room
  | none =>
    let room : Room := { users := [], host := c, locked := false }
    joinLookedUp env { s with rooms := mapSet s.rooms data.roomId room } c data room

/-- Handler of `signal`. -/
def signal (s : State) (c : SocketId) (data : SignalData) : State × List Delivery :=
  (s, socketTo s c data.toId (Msg.signal c data.signal))

/-- Handler of `chat-message`; `now` is `new Date().toISOString()`. -/
def chatMessage (s : State) (c : SocketId) (message : String) (now : String) :
    State × List Delivery :=
  match s.userMap c with
  | some user => (s, ioTo s user.roomId (Msg.chatMessage c user.nickname message now))
  | none => (s, [])

/-- Handler of `play-sound`. -/
def playSound (s : State) (c : SocketId) (sound : String) : State × List Delivery :=
  match s.userMap c with
  | some user => (s, socketTo s c user.roomId (Msg.playSound sound user.nickname))
  | none => (s, [])

/-- Handler of `user-typing`. -/
def userTyping (s : State) (c : SocketId) (roomId : RoomId) : State × List Delivery :=
  match s.userMap c with
  | some user =>
    if user.roomId = roomId then (s, socketTo s c user.roomId (Msg.userTyping c user.nickname))
    else (s, [])
  | none => (s, [])

/-- Handler of `user-stop-typing`. -/
def userStopTyping (s : State) (c : SocketId) (roomId : RoomId) : State × List Delivery :=
  match s.userMap c with
  | some user =>
    if user.roomId = roomId then
      (s, socketTo s c user.roomId (Msg.userStopTyping c user.nickname))
    else (s, [])
  | none => (s, [])

/-- The new host chosen by the `disconnect` handler, if any: `room` is the entry after
`room.users.delete(socket.id)`; the guard is `room.host === socket.id && room.users.size > 0`
and the choice is `Array.from(room.users)[0]`. -/
def newHostOf (room : Room) (c : SocketId) : Option SocketId :=
  if room.host = c then room.users.head? else none

/-- Registry entry of the room of socket `c` once the `disconnect` handler has run
`room.users.delete(socket.id)` and, when a new host was chosen, `room.host = newHost`. -/
def afterLeave (room : Room) (c : SocketId) : Room :=
  match newHostOf { room with users := setDelete room.users c } c with
  | some newHost => { users := setDelete room.users c, host := newHost, locked := room.locked }
  | none => { room with users := setDelete room.users c }

/-- What Socket.IO does to its own records before it emits `disconnect` on socket `c`:
the socket leaves all its rooms and is taken out of `io.sockets.sockets`. -/
def detach (s : State) (c : SocketId) : State :=
  { rooms := s.rooms
    userMap := s.userMap
    sockets := s.sockets.filter (fun x => x ≠ c)
    sioRooms := fun x => if x = c then [] else s.sioRooms x }

/-- Handler of `disconnect`, run for socket `c` once Socket.IO has taken the socket out of
its rooms and out of `io.sockets.sockets`. -/
def disconnect (s0 : State) (c : SocketId) : State × List Delivery :=
  let s : State := detach s0 c
  match s.userMap c with
  | none => (s, [])
  | some user =>
    match s.rooms user.roomId with
    | none => ({ s with userMap := mapDelete s.userMap c }, [])
    | some room =>
      let room2 : Room := afterLeave room c
      let out1 : List Delivery :=
        match newHostOf { room with users := setDelete room.users c } c with
        | some newHost =>
          ioTo s user.roomId (Msg.newHost newHost (nicknameOf s.userMap newHost))
        | none => []
      if room2.users.length = 0 then
        ({ s with rooms := mapDelete s.rooms user.roomId, userMap := mapDelete s.userMap c },
          out1)
      else
        ({ s with rooms := mapSet s.rooms user.roomId room2, userMap := mapDelete s.userMap c },
          out1 ++ socketTo s c user.roomId (Msg.userLeft c user.nickname))

/-- The calls `targetSocket.emit('kicked', ...)` and `targetSocket.disconnect()`, the
latter running the `disconnect` handler of the target at once. -/
def kickTarget (s : State) (targetId : SocketId) (reason : String) (hostNickname : String) :
    State × List Delivery :=
  if targetId ∈ s.sockets then
    ((disconnect s targetId).1,
      (targetId, Msg.kicked reason hostNickname) :: (disconnect s targetId).2)
  else (s, [])

/-- Handler of `kick-user`. -/
def kickUser (s : State) (c : SocketId) (targetId : SocketId) : State × List Delivery :=
  match s.userMap c with
  | none => (s, [])
  | some user =>
    match s.rooms user.roomId with
    | none => (s, [])
    | some room =>
      if room.host ≠ c then
        (s, [(c, Msg.error "У вас нет прав для этого действия")])
      else
        kickTarget s targetId "Вы были исключены из комнаты хостом" user.nickname

/-- Handler of `admin-action`. -/
def adminAction (s : State) (c : SocketId) (data : AdminData) : State × List Delivery :=
  match s.userMap c with
  | none => (s, [])
  | some user =>
    match s.rooms user.roomId with
    | none => (s, [(c, Msg.error "У вас нет прав администратора")])
    | some room =>
      if room.host ≠ c then
        (s, [(c, Msg.error "У вас нет прав администратора")])
      else
        match data.action with
        | AdminKind.kick =>
          kickTarget s data.targetId
            (optOr data.reason "Вы были исключены из комнаты администратором") user.nickname
        | AdminKind.muteAll =>
          (s, socketTo s c user.roomId (Msg.adminMuteAll user.nickname))
        | AdminKind.roomLock =>
          ({ s with rooms := mapSet s.rooms user.roomId { room with locked := data.locked } },
            ioTo s user.roomId (Msg.roomStatus data.locked user.nickname))
        | AdminKind.nudgeAll =>
          (s, socketTo s c user.roomId (Msg.nudge user.nickname))
        | AdminKind.other _ =>
          (s, [(c, Msg.error "Неизвестное админ-действие")])

/-! ## Runs -/

/-- The state at start-up: both maps empty, nobody connected. -/
def empty : State :=
  { rooms := fun _ => none, userMap := fun _ => none, sockets := [], sioRooms := fun _ => [] }

/-- One server event, run to completion.  A `connection` registers a socket that is not
connected yet; every other event reaches its handler only on a connected socket. -/
def step (env : Option Int) (s : State) (e : Event) : State × List Delivery :=
  match e with
  | Event.connection c =>
    if c ∈ s.sockets then (s, [])
    else
      ({ s with sockets := s.sockets ++ [c]
                sioRooms := fun x => if x = c then [] else s.sioRooms x }, [])
  | Event.joinRoom c data => if c ∈ s.sockets then joinRoom env s c data else (s, [])
  | Event.signal c data => if c ∈ s.sockets then signal s c data else (s, [])
  | Event.chatMessage c message now =>
    if c ∈ s.sockets then chatMessage s c message now else (s, [])
  | Event.playSound c sound => if c ∈ s.sockets then playSound s c sound else (s, [])
  | Event.userTyping c roomId => if c ∈ s.sockets then userTyping s c roomId else (s, [])
  | Event.userStopTyping c roomId =>
    if c ∈ s.sockets then userStopTyping s c roomId else (s, [])
  | Event.kickUser c targetId => if c ∈ s.sockets then kickUser s c targetId else (s, [])
  | Event.adminAction c data => if c ∈ s.sockets then adminAction s c data else (s, [])
  | Event.disconnect c => if c ∈ s.sockets then disconnect s c else (s, [])

/-- State after a sequence of events. -/
def run (env : Option Int) (s : State) (events : List Event) : State :=
  events.foldl (fun st e => (step env st e).1) s

/-- Member list of a registry entry, empty when there is no entry. -/
def usersOf (o : Option Room) : List SocketId :=
  match o with
  | some room => room.users
  | none => []

/-- Member set of room `r`, empty when the registry has no such room. -/
def members (s : State) (r : RoomId) : List SocketId :=
  usersOf (s.rooms r)

/-! ## Join times -/

/-- A state together with the number of events run so far and, for every room id and
connection, the index of the event at which the connection last entered the member set
of that room (`0` if it never did). -/
structure Timed where
  state : State
  clock : Nat
  joinedAt : RoomId → SocketId → Nat

/-- One event on a timed state: the state moves by `step`; a connection that is in the
member set of a room after the event and was not before gets the index of this event as
its join time for the room. -/
def stepTimed (env : Option Int) (t : Timed) (e : Event) : Timed :=
  { state := (step env t.state e).1
    clock := t.clock + 1
    joinedAt := fun r m =>
      if m ∈ members (step env t.state e).1 r ∧ m ∉ members t.state r then t.clock
      else t.joinedAt r m }

/-- Timed state after a sequence of events. -/
def runTimed (env : Option Int) (t : Timed) (events : List Event) : Timed :=
  events.foldl (stepTimed env) t

/-- The timed state at start-up. -/
def emptyTimed : Timed :=
  { state := empty, clock := 0, joinedAt := fun _ _ => 0 }

/-- Join times are strictly increasing along the member list of every room, and all lie
in the past. -/
def TimedInv (t : Timed) : Prop :=
  ∀ r, (members t.state r).Pairwise (fun a b => t.joinedAt r a < t.joinedAt r b) ∧
    ∀ m ∈ members t.state r, t.joinedAt r m < t.clock

/-! ## Sample states -/

/-- Room `"A"` holding `"a"` (host) and `"b"`, with `"c"` connected and in no room. -/
def sampleAB : State :=
  run none empty
    [Event.connection "a", Event.joinRoom "a" ⟨"A", "Ann", some "Europe/Paris"⟩,
     Event.connection "b", Event.joinRoom "b" ⟨"A", "Bob", none⟩,
     Event.connection "c"]

/-- The state `sampleAB` after the host has locked room `"A"`. -/
def sampleLocked : State :=
  run none sampleAB [Event.adminAction "a" ⟨AdminKind.roomLock, "", none, true⟩]

/-! ## Per-room transitions -/

/-- Ways in which one event can change the registry entry of one room id, `MAX` being the
value of `MAX_PARTICIPANTS`. -/
inductive RoomStep (MAX : Int) : Option Room → Option Room → Prop where
  | same (o : Option Room) : RoomStep MAX o o
  | created (c : SocketId) : MAX ≤ 0 → RoomStep MAX none (some ⟨[], c, false⟩)
  | joinedNew (c : SocketId) : 0 < MAX → RoomStep MAX none (some ⟨[c], c, false⟩)
  | joined (room : Room) (c : SocketId) : c ∉ room.users → (room.users.length : Int) < MAX →
      RoomStep MAX (some room) (some ⟨room.users ++ [c], room.host, room.locked⟩)
  | evicted (room : Room) (c : SocketId) : setDelete room.users c = [] →
      RoomStep MAX (some room) none
  | left (room : Room) (c newHost : SocketId) : (room.host ≠ c → newHost = room.host) →
      (room.host = c → (setDelete room.users c).head? = some newHost) →
      setDelete room.users c ≠ [] →
      RoomStep MAX (some room) (some ⟨setDelete room.users c, newHost, room.locked⟩)
  | locked (room : Room) (b : Bool) :
      RoomStep MAX (some room) (some ⟨room.users, room.host, b⟩)

/-- Three joins to room `"A"`: `"a"` and `"b"` enter, `"c"` arrives when the room is full
for `MAX_PARTICIPANTS = 2`. -/
def sampleJoins : List Event :=
  [Event.connection "a", Event.joinRoom "a" ⟨"A", "Ann", some "Europe/Paris"⟩,
   Event.connection "b", Event.joinRoom "b" ⟨"A", "Bob", none⟩,
   Event.connection "c", Event.joinRoom "c" ⟨"A", "Cy", none⟩]

/-- Socket `"a"` joined room `"A"`, then room `"B"`, then disconnected; `"b"` is connected
and in no room. -/
def sampleGhost : State :=
  run none empty
    [Event.connection "a", Event.joinRoom "a" ⟨"A", "Ann", none⟩,
     Event.joinRoom "a" ⟨"B", "Ann", none⟩, Event.disconnect "a", Event.connection "b"]

/-- Room `"A"` with host `"h"` (joined first), then `"m"` who joined with an empty
nickname, then `"n"`. -/
def sampleNameless : List Event :=
  [Event.connection "h", Event.joinRoom "h" ⟨"A", "Hana", none⟩,
   Event.connection "m", Event.joinRoom "m" ⟨"A", "", none⟩,
   Event.connection "n", Event.joinRoom "n" ⟨"A", "Nora", none⟩]

/-- Room `"A"` with host `"h"`, then `"m"` and `"n"`, all with nicknames. -/
def sampleThree : List Event :=
  [Event.connection "h", Event.joinRoom "h" ⟨"A", "Hana", none⟩,
   Event.connection "m", Event.joinRoom "m" ⟨"A", "Mia", none⟩,
   Event.connection "n", Event.joinRoom "n" ⟨"A", "Nora", none⟩]

/-- Sockets `"a"` and `"b"` connected, nobody in any room. -/
def sampleIdle : State :=
  run none empty [Event.connection "a", Event.connection "b"]

/-- Socket `"a"` alone in room `"A"`, which it has locked. -/
def sampleAlone : State :=
  run none empty
    [Event.connection "a", Event.joinRoom "a" ⟨"A", "Ann", none⟩,
     Event.adminAction "a" ⟨AdminKind.roomLock, "", none, true⟩, Event.connection "b"]

/-- Socket `"b"` has entered a room whose id is the socket id `"a"`; `"a"` and `"c"` are
connected and in no room of the registry. -/
def sampleTap : State :=
  run none empty
    [Event.connection "a", Event.connection "b", Event.connection "c",
     Event.joinRoom "b" ⟨"a", "Bob", none⟩]

/-- Room `"A"` with `"a"` (host) and `"g"`; then `"g"` joins room `"B"` on the same
socket. -/
def sampleTwoRooms : List Event :=
  [Event.connection "a", Event.joinRoom "a" ⟨"A", "Ann", none⟩,
   Event.connection "g", Event.joinRoom "g" ⟨"A", "Gus", none⟩,
   Event.joinRoom "g" ⟨"B", "Gus", none⟩]

/-- A payload for `signal`. -/
def sampleOffer : Signal :=
  { type := some "offer", sdp := some "v=0", candidate := none }

/-! ## Client: peer connections of `WebRTCManager`

The browser's `RTCPeerConnection` is not code of the repository; its operations are
modelled as WebRTC 1.0 defines them, as far as signalling goes: a session description is
accepted only in the signalling states that allow its type, and a remote candidate only
once a remote description is present.  Descriptions and candidates are taken to be
well-formed, and the text the browser generates for an offer or an answer comes with the
event.  Handlers are `async` in the source; each one is run here to completion. -/

/-- Signalling state of an `RTCPeerConnection` (this client uses no provisional answers). -/
inductive SignalingState where
  | stable
  | haveLocalOffer
  | haveRemoteOffer
  | closed
deriving DecidableEq

/-- An `RTCPeerConnection` made by `createPeerConnection`, with the two variables its
callbacks close over: `socketId` (here `remoteId`) and `isInitiator`. -/
structure Peer where
  remoteId : SocketId
  isInitiator : Bool
  signalingState : SignalingState
  remoteDescription : Option Signal
  remoteCandidates : List Signal
deriving DecidableEq

/-- Browser: `peer.setRemoteDescription(d)`; `none` is a rejected promise.  A remote offer
that meets a pending local offer rolls the local offer back. -/
def Peer.setRemoteDescription (p : Peer) (d : Signal) : Option Peer :=
  if d.type = some "offer" then
    match p.signalingState with
    | SignalingState.closed => none
    | _ => some { p with signalingState := SignalingState.haveRemoteOffer
                         remoteDescription := some d }
  else if d.type = some "answer" then
    match p.signalingState with
    | SignalingState.haveLocalOffer =>
      some { p with signalingState := SignalingState.stable, remoteDescription := some d }
    | _ => none
  else none

/-- Browser: `peer.createAnswer()`, the generated text being `sdp`. -/
def Peer.createAnswer (p : Peer) (sdp : String) : Option Signal :=
  if p.signalingState = SignalingState.haveRemoteOffer then
    some { type := some "answer", sdp := some sdp, candidate := none }
  else none

/-- Browser: `peer.createOffer()`, the generated text being `sdp`. -/
def Peer.createOffer (p : Peer) (sdp : String) : Option Signal :=
  if p.signalingState = SignalingState.closed then none
  else some { type := some "offer", sdp := some sdp, candidate := none }

/-- Browser: `peer.setLocalDescription(d)`. -/
def Peer.setLocalDescription (p : Peer) (d : Signal) : Option Peer :=
  if d.type = some "offer" then
    match p.signalingState with
    | SignalingState.stable => some { p with signalingState := SignalingState.haveLocalOffer }
    | SignalingState.haveLocalOffer => some p
    | _ => none
  else if d.type = some "answer" then
    match p.signalingState with
    | SignalingState.haveRemoteOffer => some { p with signalingState := SignalingState.stable }
    | _ => none
  else none

/-- Browser: `peer.addIceCandidate(c)`; rejected while there is no remote description. -/
def Peer.addIceCandidate (p : Peer) (c : Signal) : Option Peer :=
  if p.signalingState = SignalingState.closed then none
  else
    match p.remoteDescription with
    | none => none
    | some _ => some { p with remoteCandidates := p.remoteCandidates ++ [c] }

/-- Browser: `peer.close()`. -/
def Peer.close (p : Peer) : Peer :=
  { p with signalingState := SignalingState.closed }

/-- A local candidate as the `icecandidate` event hands it over: it has a `candidate`
field and no `type`. -/
def candidateSignal (c : String) : Signal :=
  { type := none, sdp := none, candidate := some c }

/-- JavaScript truthiness of a string field that may be missing. -/
def truthy (o : Option String) : Bool :=
  match o with
  | some v => decide (v ≠ "")
  | none => false

/-- Lookup `obj[k]` in a JavaScript object kept as its list of entries. -/
def objGet (o : List (String × Nat)) (k : String) : Option Nat :=
  match o with
  | [] => none
  | e :: rest => if e.1 = k then some e.2 else objGet rest k

/-- Assignment `obj[k] = v`: an existing entry is overwritten in place, a new one is
appended. -/
def objSet (o : List (String × Nat)) (k : String) (v : Nat) : List (String × Nat) :=
  match o with
  | [] => [(k, v)]
  | e :: rest => if e.1 = k then (k, v) :: rest else e :: objSet rest k v

/-- Statement `delete obj[k]`. -/
def objDelete (o : List (String × Nat)) (k : String) : List (String × Nat) :=
  o.filter (fun e => e.1 ≠ k)

/-- State of `WebRTCManager` as far as signalling goes: every `RTCPeerConnection` created
so far, in creation order, and `this.peers`, which maps a socket id to one of them (by
position in `conns`). -/
structure Client where
  conns : List Peer
  peers : List (SocketId × Nat)
deriving DecidableEq

/-- A `socket.emit('signal', data)` together with the connection whose handler sent it. -/
structure Emit where
  conn : Nat
  data : SignalData
deriving DecidableEq

/-- Events the manager reacts to: the four server messages, the three callbacks of a
connection (named by its position in `conns`), and `cleanup`. -/
inductive ClientEvent where
  | existingUsers (users : List SocketId)
  | userJoined (socketId : SocketId)
  | userLeft (socketId : SocketId)
  | signal (sender : SocketId) (signal : Signal) (sdp : String)
  | negotiationNeeded (conn : Nat) (sdp : String)
  | iceCandidate (conn : Nat) (candidate : Option String)
  | connectionStateChange (conn : Nat) (connectionState : String)
  | cleanup
deriving DecidableEq

/-- Apply `f` to the connection at position `i`. -/
def updateConn (conns : List Peer) (i : Nat) (f : Peer → Peer) : List Peer :=
  match conns[i]? with
  | some p => conns.set i (f p)
  | none => conns

/-- Method `createPeerConnection(socketId, isInitiator)`: a new connection is made and
stored under `socketId`, whatever was stored there before. -/
def createPeerConnection (w : Client) (socketId : SocketId) (isInitiator : Bool) : Client :=
  { conns := w.conns ++
      [{ remoteId := socketId, isInitiator := isInitiator,
         signalingState := SignalingState.stable, remoteDescription := none,
         remoteCandidates := [] }]
    peers := objSet w.peers socketId w.conns.length }

/-- Method `removePeer(socketId)`. -/
def removePeer (w : Client) (socketId : SocketId) : Client :=
  match objGet w.peers socketId with
  | some i => { conns := updateConn w.conns i Peer.close, peers := objDelete w.peers socketId }
  | none => w

/-- Method `cleanup()`, as far as connections go: every stored connection is closed and
`this.peers` is emptied. -/
def cleanup (w : Client) : Client :=
  { conns := w.peers.foldl (fun cs e => updateConn cs e.2 Peer.close) w.conns
    peers := [] }

/-- Handler of `existing-users`. -/
def onExistingUsers (w : Client) (users : List SocketId) : Client :=
  users.foldl (fun st userId => createPeerConnection st userId true) w

/-- Handler of `user-joined`. -/
def onUserJoined (w : Client) (socketId : SocketId) : Client :=
  createPeerConnection w socketId false

/-- Handler of `user-left`. -/
def onUserLeft (w : Client) (socketId : SocketId) : Client :=
  removePeer w socketId

/-- Handler of an inbound `signal`; a rejected browser call lands in the `catch` block,
which only logs. -/
def onSignal (w : Client) (sender : SocketId) (signal : Signal) (sdp : String) :
    Client × List Emit :=
  match objGet w.peers sender with
  | none => (w, [])
  | some i =>
    match w.conns[i]? with
    | none => (w, [])
    | some peer =>
      if signal.type = some "offer" then
        match peer.setRemoteDescription signal with
        | none => (w, [])
        | some p1 =>
          match p1.createAnswer sdp with
          | none => ({ w with conns := w.conns.set i p1 }, [])
          | some answer =>
            match p1.setLocalDescription answer with
            | none => ({ w with conns := w.conns.set i p1 }, [])
            | some p2 =>
              ({ w with conns := w.conns.set i p2 }, [⟨i, ⟨sender, answer⟩⟩])
      else if signal.type = some "answer" then
        match peer.setRemoteDescription signal with
        | none => (w, [])
        | some p1 => ({ w with conns := w.conns.set i p1 }, [])
      else if truthy signal.candidate = true then
        match peer.addIceCandidate signal with
        | none => (w, [])
        | some p1 => ({ w with conns := w.conns.set i p1 }, [])
      else (w, [])

/-- Callback `peer.onnegotiationneeded`, installed only when `isInitiator` holds. -/
def onnegotiationneeded (w : Client) (i : Nat) (sdp : String) : Client × List Emit :=
  match w.conns[i]? with
  | none => (w, [])
  | some peer =>
    if peer.isInitiator = true then
      match peer.createOffer sdp with
      | none => (w, [])
      | some offer =>
        match peer.setLocalDescription offer with
        | none => (w, [])
        | some p1 => ({ w with conns := w.conns.set i p1 }, [⟨i, ⟨peer.remoteId, offer⟩⟩])
    else (w, [])

/-- Callback `peer.onicecandidate`; `candidate` is `event.candidate`, `none` for `null`. -/
def onicecandidate (w : Client) (i : Nat) (candidate : Option String) : Client × List Emit :=
  match w.conns[i]? with
  | none => (w, [])
  | some peer =>
    match candidate with
    | some c => (w, [⟨i, ⟨peer.remoteId, candidateSignal c⟩⟩])
    | none => (w, [])

/-- Callback `peer.onconnectionstatechange`; `connectionState` is `peer.connectionState`. -/
def onconnectionstatechange (w : Client) (i : Nat) (connectionState : String) :
    Client × List Emit :=
  match w.conns[i]? with
  | none => (w, [])
  | some peer =>
    if connectionState = "failed" ∨ connectionState = "disconnected" then
      (removePeer w peer.remoteId, [])
    else (w, [])

/-- The manager right after construction. -/
def emptyClient : Client :=
  { conns := [], peers := [] }

/-- One client event, run to completion. -/
def clientStep (w : Client) (e : ClientEvent) : Client × List Emit :=
  match e with
  | ClientEvent.existingUsers users => (onExistingUsers w users, [])
  | ClientEvent.userJoined socketId => (onUserJoined w socketId, [])
  | ClientEvent.userLeft socketId => (onUserLeft w socketId, [])
  | ClientEvent.signal sender signal sdp => onSignal w sender signal sdp
  | ClientEvent.negotiationNeeded i sdp => onnegotiationneeded w i sdp
  | ClientEvent.iceCandidate i candidate => onicecandidate w i candidate
  | ClientEvent.connectionStateChange i connectionState =>
    onconnectionstatechange w i connectionState
  | ClientEvent.cleanup => (cleanup w, [])

/-- Client state after a sequence of events. -/
def clientRun (w : Client) (events : List ClientEvent) : Client :=
  events.foldl (fun st e => (clientStep st e).1) w

/-- Signals sent during a sequence of events, each with the event that caused it. -/
def clientTrace (w : Client) (events : List ClientEvent) : List (ClientEvent × Emit) :=
  match events with
  | [] => []
  | e :: es => (clientStep w e).2.map (fun m => (e, m)) ++ clientTrace (clientStep w e).1 es

/-- A client that has learnt of peer `"x"` through `user-joined`. -/
def sampleResponder : Client :=
  clientRun emptyClient [ClientEvent.userJoined "x"]

/-- A client that has learnt of peer `"x"` through `existing-users` and has sent its
offer. -/
def sampleOfferer : Client :=
  clientRun emptyClient
    [ClientEvent.existingUsers ["x"], ClientEvent.negotiationNeeded 0 "v=0 offer"]

/-- An answer as it arrives in a `signal` message. -/
def sampleAnswer : Signal :=
  { type := some "answer", sdp := some "v=0 answer", candidate := none }

/-- Every connection of `cs` is still at its position in `cs'`, with the same remote id
and the same `isInitiator`. -/
def KeepsRoles (cs cs' : List Peer) : Prop :=
  ∀ (i : Nat) (p : Peer), cs[i]? = some p →
    ∃ p', cs'[i]? = some p' ∧ p'.isInitiator = p.isInitiator ∧ p'.remoteId = p.remoteId

/-- Messages delivered by each event of a sequence, in order. -/
def outputs (env : Option Int) (s : State) (events : List Event) : List (List Delivery) :=
  match events with
  | [] => []
  | e :: es => (step env s e).2 :: outputs env (step env s e).1 es

/-- Alice, then Bob, then Carol ask for room `"ABC12"`; then Alice and Bob disconnect. -/
def scenario : List Event :=
  [Event.connection "alice", Event.joinRoom "alice" ⟨"ABC12", "Alice", some "Europe/Riga"⟩,
   Event.connection "bob", Event.joinRoom "bob" ⟨"ABC12", "Bob", some "Asia/Tokyo"⟩,
   Event.connection "carol", Event.joinRoom "carol" ⟨"ABC12", "Carol", none⟩,
   Event.disconnect "alice", Event.disconnect "bob"]

/-- Room `"A"` with host `"a"` alone; room `"B"` with host `"c"` and member `"d"`. -/
def sampleTwoHosts : State :=
  run none empty
    [Event.connection "a", Event.joinRoom "a" ⟨"A", "Ann", none⟩,
     Event.connection "c", Event.joinRoom "c" ⟨"B", "Cy", none⟩,
     Event.connection "d", Event.joinRoom "d" ⟨"B", "Dee", none⟩]

/-- JavaScript `!v` on a boolean field that may be `undefined`. -/
def jsNot (v : Option Bool) : Bool :=
  match v with
  | some b => !b
  | none => true

/-- Fields of `App` that the room handlers read or write (`roomId`, `nickname`, `isHost`),
the field `roomLocked` of its `WindowManager`, which `toggleRoomLock` reads and no
statement of the source assigns, and the `WebRTCManager`. -/
structure App where
  roomId : Option String
  nickname : Option String
  isHost : Bool
  roomLocked : Option Bool
  rtc : Client
deriving DecidableEq

/-- The application right after construction. -/
def newApp : App :=
  { roomId := none, nickname := none, isHost := false, roomLocked := none, rtc := emptyClient }

/-- Handler of `reconnect` in `App.initEvents`: the `join-room` requests it emits.  No
field is written and `rtc` is not touched. -/
def onReconnect (a : App) : App × List JoinData :=
  match a.roomId, a.nickname with
  | some roomId, some nickname =>
    if roomId ≠ "" ∧ nickname ≠ "" then
      (a, [{ roomId := roomId, nickname := nickname, timezone := none }])
    else (a, [])
  | _, _ => (a, [])

/-- Method `handleRoomInfo` of `WindowManager`, as far as the fields of `App` go. -/
def handleRoomInfo (a : App) (roomId : RoomId) (isHost : Bool) : App :=
  { a with roomId := some roomId, isHost := isHost }

/-- Method `handleNewHost` of `WindowManager`; `self` is `socket.id`. -/
def handleNewHost (a : App) (self : SocketId) (hostId : SocketId) : App :=
  { a with isHost := decide (hostId = self) }

/-- Handler of `room-status` in `App.initEvents`: it shows a notification and writes no
field. -/
def onRoomStatus (a : App) (_locked : Bool) (_hostNickname : String) : App :=
  a

/-- Method `toggleRoomLock` of `WindowManager`: the `admin-action` requests it emits. -/
def toggleRoomLock (a : App) : List AdminData :=
  if a.isHost = true then
    [{ action := AdminKind.roomLock, targetId := "", reason := none,
       locked := jsNot a.roomLocked }]
  else []

/-- The application of `"a"` in `sampleAB` once its `room-info` has arrived. -/
def sampleHostApp : App :=
  handleRoomInfo { newApp with nickname := some "Ann", roomId := some "A" } "A" true

/-- An application in room `"A"` whose manager holds connections toward `"x"` and `"y"`. -/
def sampleApp : App :=
  { roomId := some "A", nickname := some "Ann", isHost := false, roomLocked := none,
    rtc := clientRun emptyClient [ClientEvent.existingUsers ["x", "y"]] }

/-- Every user-map entry names a room of the registry that has the connection in its
member set. -/
def Consistent (s : State) : Prop :=
  ∀ (c : SocketId) (user : User), s.userMap c = some user →
    ∃ room, s.rooms user.roomId = some room ∧ c ∈ room.users

/-- The ids of the `connection` events of a sequence, in order. -/
def connectionIds (events : List Event) : List SocketId :=
  events.filterMap (fun e =>
    match e with
    | Event.connection c => some c
    | _ => none)

/-- Socket.IO gives every connection an id of its own: no id is connected twice. -/
def FreshIds (events : List Event) : Prop :=
  (connectionIds events).Nodup

/-- Every connected socket and every member of a room is among the ids `seen`, and a
member that is connected is in the Socket.IO room of its room. -/
def Live (s : State) (seen : List SocketId) : Prop :=
  (∀ x ∈ s.sockets, x ∈ seen) ∧
  ∀ (r : RoomId) (room : Room) (x : SocketId), s.rooms r = some room → x ∈ room.users →
    x ∈ seen ∧ (x ∈ s.sockets → r ∈ s.sioRooms x)

/-- Handlers of `WebRTCManager.setupSocketEvents` for the three membership messages
(`existing-users`, `user-joined`, `user-left`); no other message of the server creates or
removes a connection (`signal` is handled by `onSignal`). -/
def onMembership (w : Client) (m : Msg) : Client :=
  match m with
  | Msg.existingUsers users => onExistingUsers w users
  | Msg.userJoined socketId _ _ => onUserJoined w socketId
  | Msg.userLeft socketId _ => onUserLeft w socketId
  | _ => w

/-- The messages among `ds` that are delivered to socket `x`, in order. -/
def inbox (ds : List Delivery) (x : SocketId) : List Msg :=
  (ds.filter (fun d => decide (d.1 = x))).map (fun d => d.2)

/-- The managers of all clients, by socket id, after the deliveries `ds` of one server
event: each client handles the messages delivered to it, in order. -/
def deliver (clients : SocketId → Client) (ds : List Delivery) : SocketId → Client :=
  fun x => (inbox ds x).foldl onMembership (clients x)

/-- Socket `"a"` alone in room `"A"`, and `"b"` connected. -/
def sampleHostAlone : List Event :=
  [Event.connection "a", Event.joinRoom "a" ⟨"A", "Ann", none⟩, Event.connection "b"]

/-- Socket `"a"` joins room `"A"`, of which it is the only member, and then room `"B"`;
`"b"` is connected and in no room. -/
def sampleSoleMember : List Event :=
  [Event.connection "a", Event.joinRoom "a" ⟨"A", "Ann", none⟩,
   Event.joinRoom "a" ⟨"B", "Ann", none⟩, Event.connection "b"]

/-- The events of `sampleSoleMember`, with `"a"` locking room `"A"` before it joins
`"B"`. -/
def sampleSoleMemberLocked : List Event :=
  [Event.connection "a", Event.joinRoom "a" ⟨"A", "Ann", none⟩,
   Event.adminAction "a" ⟨AdminKind.roomLock, "", none, true⟩,
   Event.joinRoom "a" ⟨"B", "Ann", none⟩, Event.connection "b"]

/-! ## Basic facts about the helpers -/

theorem mem_setAdd (xs : List String) (x y : String) :
    y ∈ setAdd xs x ↔ y ∈ xs ∨ y = x := by
  unfold setAdd
  split
  · constructor
    · intro h; exact Or.inl h
    · rintro (h | h)
      · exact h
      · subst h; assumption
  · simp

theorem setAdd_of_mem (xs : List String) (x : String) (h : x ∈ xs) : setAdd xs x = xs := by
  simp [setAdd, h]

theorem setAdd_of_not_mem (xs : List String) (x : String) (h : x ∉ xs) :
    setAdd xs x = xs ++ [x] := by
  simp [setAdd, h]

theorem mem_setDelete (xs : List String) (x y : String) :
    y ∈ setDelete xs x ↔ y ∈ xs ∧ y ≠ x := by
  simp [setDelete]

theorem mapSet_same {β : Type} (m : String → Option β) (k : String) (v : β) :
    mapSet m k v k = some v := by
  simp [mapSet]

theorem mapSet_other {β : Type} (m : String → Option β) (k x : String) (v : β) (h : x ≠ k) :
    mapSet m k v x = m x := by
  simp [mapSet, h]

theorem mapSet_of_get {β : Type} (m : String → Option β) (k : String) (v : β)
    (h : m k = some v) : mapSet m k v = m := by
  funext x
  unfold mapSet
  split
  · next hx => rw [hx, h]
  · rfl

/-! ## Delivery lemmas -/

theorem mem_socketTo (s : State) (c : SocketId) (r : RoomId) (m : Msg) (d : Delivery) :
    d ∈ socketTo s c r m ↔ d.1 ∈ roomSockets s r ∧ d.1 ≠ c ∧ d.2 = m := by
  obtain ⟨x, y⟩ := d
  simp only [socketTo, List.mem_map, List.mem_filter, Prod.mk.injEq, decide_eq_true_eq]
  constructor
  · rintro ⟨a, ⟨h1, h2⟩, rfl, rfl⟩
    exact ⟨h1, h2, rfl⟩
  · rintro ⟨h1, h2, rfl⟩
    exact ⟨x, ⟨h1, h2⟩, rfl, rfl⟩

theorem mem_ioTo (s : State) (r : RoomId) (m : Msg) (d : Delivery) :
    d ∈ ioTo s r m ↔ d.1 ∈ roomSockets s r ∧ d.2 = m := by
  obtain ⟨x, y⟩ := d
  simp only [ioTo, List.mem_map, Prod.mk.injEq]
  constructor
  · rintro ⟨a, h1, rfl, rfl⟩
    exact ⟨h1, rfl⟩
  · rintro ⟨h1, rfl⟩
    exact ⟨x, h1, rfl, rfl⟩

/-- State reached by a `join-room` that passes both admission checks. -/
theorem joinLookedUp_pass (env : Option Int) (s : State) (c : SocketId) (data : JoinData)
    (room : Room) (h1 : ¬ (room.locked = true ∧ c ∉ room.users))
    (h2 : ¬ (MAX_PARTICIPANTS env ≤ (room.users.length : Int) ∧ c ∉ room.users)) :
    joinLookedUp env s c data room =
      (({ rooms := mapSet s.rooms data.roomId { room with users := setAdd room.users c }
          userMap := mapSet s.userMap c
            { roomId := data.roomId, nickname := data.nickname,
              timezone := optOr data.timezone "UTC" }
          sockets := s.sockets
          sioRooms := fun x =>
            if x = c then setAdd (s.sioRooms c) data.roomId else s.sioRooms x } : State),
        [(c, Msg.existingUsers room.users)]
          ++ socketTo
              { rooms := mapSet s.rooms data.roomId { room with users := setAdd room.users c }
                userMap := mapSet s.userMap c
                  { roomId := data.roomId, nickname := data.nickname,
                    timezone := optOr data.timezone "UTC" }
                sockets := s.sockets
                sioRooms := fun x =>
                  if x = c then setAdd (s.sioRooms c) data.roomId else s.sioRooms x }
              c data.roomId (Msg.userJoined c data.nickname (optOr data.timezone "UTC"))
          ++ [(c, Msg.roomInfo data.roomId room.host (decide (c = room.host))
                (room.locked || false)
                ((setAdd room.users c).map (memberInfo (mapSet s.userMap c
                  { roomId := data.roomId, nickname := data.nickname,
                    timezone := optOr data.timezone "UTC" }))))]) := by
  unfold joinLookedUp
  rw [if_neg h1, if_neg h2]

/-- A `join-room` that passes both admission checks delivers no `join-error`. -/
theorem joinLookedUp_pass_no_error (env : Option Int) (s : State) (c : SocketId)
    (data : JoinData) (room : Room) (h1 : ¬ (room.locked = true ∧ c ∉ room.users))
    (h2 : ¬ (MAX_PARTICIPANTS env ≤ (room.users.length : Int) ∧ c ∉ room.users)) :
    ∀ d ∈ (joinLookedUp env s c data room).2, ∀ t m, d.2 ≠ Msg.joinError t m := by
  rw [joinLookedUp_pass env s c data room h1 h2]
  intro d hd t m
  simp only [List.mem_append, List.mem_singleton] at hd
  rcases hd with (h | h) | h
  · rw [h]; exact fun e => Msg.noConfusion e
  · rw [mem_socketTo] at h
    rw [h.2.2]; exact fun e => Msg.noConfusion e
  · rw [h]; exact fun e => Msg.noConfusion e

/-! ## Admission: handler-level contracts of `join-room` -/

/-- C4 (room-full rejection): when the target room is in the registry, is not locked, holds
at least `MAX_PARTICIPANTS` members and the requester is not one of them, `join-room`
delivers exactly one message, `join-error` of type `room-full` to the requester, and
returns the state it was given (so `rooms` and `userMap` are as before). -/
theorem joinRoom_room_full (env : Option Int) (s : State) (c : SocketId) (data : JoinData)
    (room : Room) (hroom : s.rooms data.roomId = some room) (hmem : c ∉ room.users)
    (hfull : MAX_PARTICIPANTS env ≤ (room.users.length : Int))
    (hlock : room.locked = false) :
    joinRoom env s c data =
      (s, [(c, Msg.joinError JoinErrorType.roomFull
              (roomFullMessage (MAX_PARTICIPANTS env)))]) := by
  simp [joinRoom, hroom, joinLookedUp, hlock, hfull, hmem]

theorem joinRoom_room_full_witness :
    joinRoom (some 2) sampleAB "c" ⟨"A", "Cy", none⟩ =
      (sampleAB, [("c", Msg.joinError JoinErrorType.roomFull
              (roomFullMessage (MAX_PARTICIPANTS (some 2))))]) :=
  joinRoom_room_full (some 2) sampleAB "c" ⟨"A", "Cy", none⟩ ⟨["a", "b"], "a", false⟩
    (by decide) (by decide) (by decide) rfl

/-- C5 (locked-room rejection): when the target room is in the registry with its locked
flag set and the requester is not a member, whatever the number of members, `join-room`
delivers exactly one message, `join-error` of type `room-locked` to the requester, and
returns the state it was given. -/
theorem joinRoom_room_locked (env : Option Int) (s : State) (c : SocketId) (data : JoinData)
    (room : Room) (hroom : s.rooms data.roomId = some room) (hmem : c ∉ room.users)
    (hlock : room.locked = true) :
    joinRoom env s c data =
      (s, [(c, Msg.joinError JoinErrorType.roomLocked roomLockedMessage)]) := by
  simp [joinRoom, hroom, joinLookedUp, hlock, hmem]

theorem joinRoom_room_locked_witness :
    joinRoom (some 2) sampleLocked "c" ⟨"A", "Cy", none⟩ =
      (sampleLocked, [("c", Msg.joinError JoinErrorType.roomLocked roomLockedMessage)]) :=
  joinRoom_room_locked (some 2) sampleLocked "c" ⟨"A", "Cy", none⟩ ⟨["a", "b"], "a", true⟩
    (by decide) (by decide) rfl

/-- C6 (existing-member re-admission): a `join-room` from a connection that is already in
the member set of the target room passes both admission checks, whatever the locked flag
and the number of members: no `join-error` is delivered, the requester receives
`existing-users` and `room-info`, and the `rooms` map (hence the member set, host and
locked flag of the room) is the same after the join as before. -/
theorem joinRoom_existing_member (env : Option Int) (s : State) (c : SocketId)
    (data : JoinData) (room : Room) (hroom : s.rooms data.roomId = some room)
    (hmem : c ∈ room.users) :
    (joinRoom env s c data).1.rooms = s.rooms ∧
    (joinRoom env s c data).1.rooms data.roomId = some room ∧
    (∀ d ∈ (joinRoom env s c data).2, ∀ t m, d.2 ≠ Msg.joinError t m) ∧
    (c, Msg.existingUsers room.users) ∈ (joinRoom env s c data).2 ∧
    (c, Msg.roomInfo data.roomId room.host (decide (c = room.host)) room.locked
          (room.users.map (memberInfo (joinRoom env s c data).1.userMap)))
      ∈ (joinRoom env s c data).2 := by
  have h1 : ¬ (room.locked = true ∧ c ∉ room.users) := fun h => h.2 hmem
  have h2 : ¬ (MAX_PARTICIPANTS env ≤ (room.users.length : Int) ∧ c ∉ room.users) :=
    fun h => h.2 hmem
  have hset : mapSet s.rooms data.roomId { room with users := setAdd room.users c } = s.rooms := by
    rw [setAdd_of_mem _ _ hmem]
    exact mapSet_of_get _ _ _ hroom
  have hj : joinRoom env s c data = joinLookedUp env s c data room := by
    simp only [joinRoom, hroom]
  refine ⟨?_, ?_, ?_, ?_, ?_⟩
  · rw [hj, joinLookedUp_pass env s c data room h1 h2]
    exact hset
  · rw [hj, joinLookedUp_pass env s c data room h1 h2]
    show mapSet s.rooms data.roomId _ data.roomId = some room
    rw [hset]; exact hroom
  · rw [hj]
    exact joinLookedUp_pass_no_error env s c data room h1 h2
  · rw [hj, joinLookedUp_pass env s c data room h1 h2]
    simp
  · rw [hj, joinLookedUp_pass env s c data room h1 h2]
    simp [setAdd_of_mem _ _ hmem]

theorem joinRoom_existing_member_witness :
    (joinRoom (some 2) sampleLocked "b" ⟨"A", "Bobby", none⟩).1.rooms = sampleLocked.rooms ∧
    (joinRoom (some 2) sampleLocked "b" ⟨"A", "Bobby", none⟩).1.rooms "A"
      = some ⟨["a", "b"], "a", true⟩ ∧
    (∀ d ∈ (joinRoom (some 2) sampleLocked "b" ⟨"A", "Bobby", none⟩).2,
      ∀ t m, d.2 ≠ Msg.joinError t m) ∧
    ("b", Msg.existingUsers ["a", "b"])
      ∈ (joinRoom (some 2) sampleLocked "b" ⟨"A", "Bobby", none⟩).2 ∧
    ("b", Msg.roomInfo "A" "a" (decide ("b" = "a")) true
          (["a", "b"].map
            (memberInfo (joinRoom (some 2) sampleLocked "b" ⟨"A", "Bobby", none⟩).1.userMap)))
      ∈ (joinRoom (some 2) sampleLocked "b" ⟨"A", "Bobby", none⟩).2 :=
  joinRoom_existing_member (some 2) sampleLocked "b" ⟨"A", "Bobby", none⟩
    ⟨["a", "b"], "a", true⟩ (by decide) (by decide)

/-- C7 (first member becomes host): with `MAX_PARTICIPANTS ≥ 1`, a `join-room` by `c` for a
room id that is not in the registry leaves the registry holding that room with member set
`[c]`, host `c` and `locked = false`; `c` receives `existing-users` with the empty list and
`room-info` with `host = c`, `isHost = true`, `locked = false` and `c` as the only listed
member. -/
theorem joinRoom_first_member (env : Option Int) (s : State) (c : SocketId) (data : JoinData)
    (hnone : s.rooms data.roomId = none) (hmax : 1 ≤ MAX_PARTICIPANTS env) :
    (joinRoom env s c data).1.rooms data.roomId
      = some { users := [c], host := c, locked := false } ∧
    (c, Msg.existingUsers []) ∈ (joinRoom env s c data).2 ∧
    (c, Msg.roomInfo data.roomId c true false
          [memberInfo (joinRoom env s c data).1.userMap c]) ∈ (joinRoom env s c data).2 ∧
    (∀ d ∈ (joinRoom env s c data).2, ∀ t m, d.2 ≠ Msg.joinError t m) := by
  have h1 : ¬ ((⟨[], c, false⟩ : Room).locked = true ∧ c ∉ (⟨[], c, false⟩ : Room).users) := by
    simp
  have h2 : ¬ (MAX_PARTICIPANTS env ≤ (((⟨[], c, false⟩ : Room).users.length : Nat) : Int)
      ∧ c ∉ (⟨[], c, false⟩ : Room).users) := by
    simp only [List.length_nil, Nat.cast_zero]
    omega
  have hj : joinRoom env s c data =
      joinLookedUp env { s with rooms := mapSet s.rooms data.roomId ⟨[], c, false⟩ } c data
        ⟨[], c, false⟩ := by
    simp only [joinRoom, hnone]
  rw [hj]
  refine ⟨?_, ?_, ?_, joinLookedUp_pass_no_error env _ c data _ h1 h2⟩
  · rw [joinLookedUp_pass env _ c data _ h1 h2]
    simp [mapSet, setAdd]
  · rw [joinLookedUp_pass env _ c data _ h1 h2]
    simp
  · rw [joinLookedUp_pass env _ c data _ h1 h2]
    simp [setAdd]

theorem joinRoom_first_member_witness :
    (joinRoom none sampleAB "c" ⟨"B", "Cy", none⟩).1.rooms "B"
      = some { users := ["c"], host := "c", locked := false } ∧
    ("c", Msg.existingUsers []) ∈ (joinRoom none sampleAB "c" ⟨"B", "Cy", none⟩).2 ∧
    ("c", Msg.roomInfo "B" "c" true false
          [memberInfo (joinRoom none sampleAB "c" ⟨"B", "Cy", none⟩).1.userMap "c"])
      ∈ (joinRoom none sampleAB "c" ⟨"B", "Cy", none⟩).2 ∧
    (∀ d ∈ (joinRoom none sampleAB "c" ⟨"B", "Cy", none⟩).2,
      ∀ t m, d.2 ≠ Msg.joinError t m) :=
  joinRoom_first_member none sampleAB "c" ⟨"B", "Cy", none⟩ (by decide) (by decide)

/-! ## Every event changes each registry entry by a `RoomStep` -/

theorem joinLookedUp_roomStep (env : Option Int) (s : State) (c : SocketId) (data : JoinData)
    (room : Room) (hroom : s.rooms data.roomId = some room) (r : RoomId) :
    RoomStep (MAX_PARTICIPANTS env) (s.rooms r) ((joinLookedUp env s c data room).1.rooms r) := by
  by_cases h1 : room.locked = true ∧ c ∉ room.users
  · simp only [joinLookedUp, if_pos h1]
    exact RoomStep.same _
  by_cases h2 : MAX_PARTICIPANTS env ≤ (room.users.length : Int) ∧ c ∉ room.users
  · simp only [joinLookedUp, if_neg h1, if_pos h2]
    exact RoomStep.same _
  rw [joinLookedUp_pass env s c data room h1 h2]
  show RoomStep _ (s.rooms r) (mapSet s.rooms data.roomId _ r)
  by_cases hr : r = data.roomId
  · subst hr
    rw [mapSet_same, hroom]
    by_cases hc : c ∈ room.users
    · rw [setAdd_of_mem _ _ hc]
      exact RoomStep.same _
    · rw [setAdd_of_not_mem _ _ hc]
      have hlt : (room.users.length : Int) < MAX_PARTICIPANTS env := by
        by_contra hge
        exact h2 ⟨not_lt.mp hge, hc⟩
      exact RoomStep.joined room c hc hlt
  · rw [mapSet_other _ _ _ _ hr]
    exact RoomStep.same _

theorem joinRoom_roomStep (env : Option Int) (s : State) (c : SocketId) (data : JoinData)
    (r : RoomId) :
    RoomStep (MAX_PARTICIPANTS env) (s.rooms r) ((joinRoom env s c data).1.rooms r) := by
  cases hroom : s.rooms data.roomId with
  | some room =>
    simp only [joinRoom, hroom]
    exact joinLookedUp_roomStep env s c data room hroom r
  | none =>
    have hj : joinRoom env s c data =
        joinLookedUp env { s with rooms := mapSet s.rooms data.roomId ⟨[], c, false⟩ } c data
          ⟨[], c, false⟩ := by
      simp only [joinRoom, hroom]
    rw [hj]
    have h1 : ¬ ((⟨[], c, false⟩ : Room).locked = true ∧ c ∉ (⟨[], c, false⟩ : Room).users) := by
      simp
    by_cases h2 : MAX_PARTICIPANTS env ≤ (((⟨[], c, false⟩ : Room).users.length : Nat) : Int)
        ∧ c ∉ (⟨[], c, false⟩ : Room).users
    · simp only [joinLookedUp, if_neg h1, if_pos h2]
      by_cases hr : r = data.roomId
      · subst hr
        rw [mapSet_same, hroom]
        exact RoomStep.created c (by simpa using h2.1)
      · rw [mapSet_other _ _ _ _ hr]
        exact RoomStep.same _
    · rw [joinLookedUp_pass env _ c data _ h1 h2]
      show RoomStep _ (s.rooms r) (mapSet (mapSet s.rooms data.roomId _) data.roomId _ r)
      by_cases hr : r = data.roomId
      · subst hr
        rw [mapSet_same, hroom]
        have hpos : 0 < MAX_PARTICIPANTS env := by
          by_contra hle
          exact h2 ⟨by simpa using not_lt.mp hle, by simp⟩
        exact RoomStep.joinedNew c hpos
      · rw [mapSet_other _ _ _ _ hr, mapSet_other _ _ _ _ hr]
        exact RoomStep.same _

theorem afterLeave_users (room : Room) (c : SocketId) :
    (afterLeave room c).users = setDelete room.users c := by
  unfold afterLeave
  split <;> rfl

theorem afterLeave_locked (room : Room) (c : SocketId) :
    (afterLeave room c).locked = room.locked := by
  unfold afterLeave
  split <;> rfl

theorem afterLeave_host_of_ne (room : Room) (c : SocketId) (h : room.host ≠ c) :
    (afterLeave room c).host = room.host := by
  simp [afterLeave, newHostOf, h]

theorem afterLeave_host_of_eq (room : Room) (c x : SocketId) (xs : List SocketId)
    (h : room.host = c) (hx : setDelete room.users c = x :: xs) :
    (afterLeave room c).host = x := by
  simp [afterLeave, newHostOf, h, hx]

theorem detach_rooms (s : State) (c : SocketId) : (detach s c).rooms = s.rooms := rfl

theorem detach_userMap (s : State) (c : SocketId) : (detach s c).userMap = s.userMap := rfl

/-- The `rooms` map after `disconnect`. -/
theorem disconnect_rooms (s : State) (c : SocketId) :
    (disconnect s c).1.rooms =
      match s.userMap c with
      | none => s.rooms
      | some user =>
        match s.rooms user.roomId with
        | none => s.rooms
        | some room =>
          if setDelete room.users c = [] then mapDelete s.rooms user.roomId
          else mapSet s.rooms user.roomId (afterLeave room c) := by
  unfold disconnect
  simp only [detach_rooms, detach_userMap]
  cases hu : s.userMap c with
  | none => rfl
  | some user =>
    simp only
    cases hroom : s.rooms user.roomId with
    | none => rfl
    | some room =>
      simp only [afterLeave_users, List.length_eq_zero]
      split <;> rfl

theorem disconnect_roomStep (MAX : Int) (s : State) (c : SocketId) (r : RoomId) :
    RoomStep MAX (s.rooms r) ((disconnect s c).1.rooms r) := by
  rw [disconnect_rooms]
  cases hu : s.userMap c with
  | none => exact RoomStep.same _
  | some user =>
    simp only
    cases hroom : s.rooms user.roomId with
    | none => exact RoomStep.same _
    | some room =>
      simp only
      by_cases hz : setDelete room.users c = []
      · rw [if_pos hz]
        by_cases hr : r = user.roomId
        · subst hr
          simp only [mapDelete, if_true, hroom]
          exact RoomStep.evicted room c hz
        · simp only [mapDelete, if_neg hr]
          exact RoomStep.same _
      · rw [if_neg hz]
        by_cases hr : r = user.roomId
        · subst hr
          rw [mapSet_same, hroom]
          have hroom2 : afterLeave room c
              = ⟨setDelete room.users c, (afterLeave room c).host, room.locked⟩ := by
            rw [← afterLeave_users room c, ← afterLeave_locked room c]
          rw [hroom2]
          refine RoomStep.left room c _ (afterLeave_host_of_ne room c) ?_ hz
          intro hh
          obtain ⟨x, xs, hx⟩ := List.exists_cons_of_ne_nil hz
          rw [afterLeave_host_of_eq room c x xs hh hx, hx]
          rfl
        · rw [mapSet_other _ _ _ _ hr]
          exact RoomStep.same _

theorem kickTarget_roomStep (MAX : Int) (s : State) (t : SocketId) (reason nick : String)
    (r : RoomId) : RoomStep MAX (s.rooms r) ((kickTarget s t reason nick).1.rooms r) := by
  unfold kickTarget
  split
  · exact disconnect_roomStep MAX s t r
  · exact RoomStep.same _

theorem kickUser_roomStep (MAX : Int) (s : State) (c t : SocketId) (r : RoomId) :
    RoomStep MAX (s.rooms r) ((kickUser s c t).1.rooms r) := by
  unfold kickUser
  split
  · exact RoomStep.same _
  · split
    · exact RoomStep.same _
    · split
      · exact RoomStep.same _
      · exact kickTarget_roomStep MAX s t _ _ r

theorem adminAction_roomStep (MAX : Int) (s : State) (c : SocketId) (data : AdminData)
    (r : RoomId) : RoomStep MAX (s.rooms r) ((adminAction s c data).1.rooms r) := by
  unfold adminAction
  split
  · exact RoomStep.same _
  · next user hu =>
    split
    · exact RoomStep.same _
    · next room hroom =>
      split
      · exact RoomStep.same _
      · split
        · exact kickTarget_roomStep MAX s _ _ _ r
        · exact RoomStep.same _
        · show RoomStep MAX (s.rooms r) (mapSet s.rooms user.roomId _ r)
          by_cases hr : r = user.roomId
          · subst hr
            rw [mapSet_same, hroom]
            exact RoomStep.locked room data.locked
          · rw [mapSet_other _ _ _ _ hr]
            exact RoomStep.same _
        · exact RoomStep.same _
        · exact RoomStep.same _

theorem step_roomStep (env : Option Int) (s : State) (e : Event) (r : RoomId) :
    RoomStep (MAX_PARTICIPANTS env) (s.rooms r) ((step env s e).1.rooms r) := by
  cases e with
  | connection c =>
    simp only [step]
    split <;> exact RoomStep.same _
  | joinRoom c data =>
    simp only [step]
    split
    · exact joinRoom_roomStep env s c data r
    · exact RoomStep.same _
  | signal c data =>
    simp only [step, signal]
    split <;> exact RoomStep.same _
  | chatMessage c message now =>
    simp only [step, chatMessage]
    split
    · split <;> exact RoomStep.same _
    · exact RoomStep.same _
  | playSound c sound =>
    simp only [step, playSound]
    split
    · split <;> exact RoomStep.same _
    · exact RoomStep.same _
  | userTyping c roomId =>
    simp only [step, userTyping]
    split
    · split
      · split <;> exact RoomStep.same _
      · exact RoomStep.same _
    · exact RoomStep.same _
  | userStopTyping c roomId =>
    simp only [step, userStopTyping]
    split
    · split
      · split <;> exact RoomStep.same _
      · exact RoomStep.same _
    · exact RoomStep.same _
  | kickUser c targetId =>
    simp only [step]
    split
    · exact kickUser_roomStep _ s c targetId r
    · exact RoomStep.same _
  | adminAction c data =>
    simp only [step]
    split
    · exact adminAction_roomStep _ s c data r
    · exact RoomStep.same _
  | disconnect c =>
    simp only [step]
    split
    · exact disconnect_roomStep _ s c r
    · exact RoomStep.same _

/-- Induction over runs: what holds at the start and survives every event holds after
every sequence of events. -/
theorem run_induction (env : Option Int) (P : State → Prop)
    (hstep : ∀ s e, P s → P (step env s e).1) :
    ∀ (events : List Event) (s : State), P s → P (run env s events) := by
  intro events
  induction events with
  | nil => intro s hs; exact hs
  | cons e es ih =>
    intro s hs
    exact ih _ (hstep s e hs)

/-! ## Registry invariants -/

theorem setDelete_nodup (xs : List String) (x : String) (h : xs.Nodup) :
    (setDelete xs x).Nodup :=
  List.Nodup.filter _ h

theorem setDelete_length_le (xs : List String) (x : String) :
    (setDelete xs x).length ≤ xs.length :=
  List.length_filter_le _ _

theorem roomStep_capacity {MAX : Int} (hmax : 1 ≤ MAX) {o o' : Option Room}
    (h : RoomStep MAX o o')
    (hinv : ∀ room, o = some room → room.users.Nodup ∧ (room.users.length : Int) ≤ MAX) :
    ∀ room, o' = some room → room.users.Nodup ∧ (room.users.length : Int) ≤ MAX := by
  intro room' hroom'
  cases h with
  | same => exact hinv room' hroom'
  | created c hle => omega
  | joinedNew c hpos =>
    cases hroom'
    exact ⟨List.nodup_singleton c, by simpa using hmax⟩
  | joined room c hc hlt =>
    cases hroom'
    obtain ⟨hnd, _⟩ := hinv room rfl
    refine ⟨?_, ?_⟩
    · rw [List.nodup_append]
      refine ⟨hnd, List.nodup_singleton c, ?_⟩
      intro a ha hb
      rw [List.mem_singleton] at hb
      subst hb
      exact hc ha
    · simp only [List.length_append, List.length_singleton, Nat.cast_add, Nat.cast_one]
      omega
  | evicted room c hz => cases hroom'
  | left room c newHost h1 h2 hz =>
    cases hroom'
    obtain ⟨hnd, hlen⟩ := hinv room rfl
    refine ⟨setDelete_nodup _ _ hnd, ?_⟩
    have := setDelete_length_le room.users c
    show ((setDelete room.users c).length : Int) ≤ MAX
    omega
  | locked room b =>
    cases hroom'
    exact hinv room rfl

theorem roomStep_host {MAX : Int} {o o' : Option Room} (h : RoomStep MAX o o')
    (hinv : ∀ room, o = some room → (room.users = [] ∧ MAX ≤ 0) ∨ room.host ∈ room.users) :
    ∀ room, o' = some room → (room.users = [] ∧ MAX ≤ 0) ∨ room.host ∈ room.users := by
  intro room' hroom'
  cases h with
  | same => exact hinv room' hroom'
  | created c hle =>
    cases hroom'
    exact Or.inl ⟨rfl, hle⟩
  | joinedNew c hpos =>
    cases hroom'
    exact Or.inr (List.mem_singleton.mpr rfl)
  | joined room c hc hlt =>
    cases hroom'
    rcases hinv room rfl with ⟨he, hle⟩ | hmem
    · rw [he] at hlt
      simp only [List.length_nil, Nat.cast_zero] at hlt
      omega
    · exact Or.inr (List.mem_append_left _ hmem)
  | evicted room c hz => cases hroom'
  | left room c newHost h1 h2 hz =>
    cases hroom'
    right
    show newHost ∈ setDelete room.users c
    by_cases hh : room.host = c
    · exact List.mem_of_mem_head? (h2 hh)
    · rw [h1 hh, mem_setDelete]
      refine ⟨?_, hh⟩
      rcases hinv room rfl with ⟨he, _⟩ | hmem
      · rw [he] at hz
        exact absurd rfl hz
      · exact hmem
  | locked room b =>
    cases hroom'
    exact hinv room rfl

theorem roomStep_nonempty {MAX : Int} (hmax : 1 ≤ MAX) {o o' : Option Room}
    (h : RoomStep MAX o o') (hinv : ∀ room, o = some room → room.users ≠ []) :
    ∀ room, o' = some room → room.users ≠ [] := by
  intro room' hroom'
  cases h with
  | same => exact hinv room' hroom'
  | created c hle => omega
  | joinedNew c hpos =>
    cases hroom'
    exact List.cons_ne_nil _ _
  | joined room c hc hlt =>
    cases hroom'
    simp
  | evicted room c hz => cases hroom'
  | left room c newHost h1 h2 hz =>
    cases hroom'
    exact hz
  | locked room b =>
    cases hroom'
    exact hinv room rfl

/-- C1 (capacity invariant): with `MAX_PARTICIPANTS ≥ 1`, after every finite sequence of
server events run from the empty registry, every room in the registry has a duplicate-free
member list of at most `MAX_PARTICIPANTS` elements. -/
theorem capacity_invariant (env : Option Int) (hmax : 1 ≤ MAX_PARTICIPANTS env)
    (events : List Event) (r : RoomId) (room : Room)
    (hroom : (run env empty events).rooms r = some room) :
    room.users.Nodup ∧ (room.users.length : Int) ≤ MAX_PARTICIPANTS env := by
  have key := run_induction env
    (fun s => ∀ r room, s.rooms r = some room →
      room.users.Nodup ∧ (room.users.length : Int) ≤ MAX_PARTICIPANTS env)
    (fun s e hs r => roomStep_capacity hmax (step_roomStep env s e r) (hs r))
    events empty (fun r room h => by simp [empty] at h)
  exact key r room hroom

theorem capacity_invariant_witness :
    (run (some 2) empty sampleJoins).rooms "A" = some ⟨["a", "b"], "a", false⟩ ∧
    (["a", "b"] : List SocketId).Nodup ∧
    (((["a", "b"] : List SocketId).length : Nat) : Int) ≤ MAX_PARTICIPANTS (some 2) :=
  ⟨by decide,
    capacity_invariant (some 2) (by decide) sampleJoins "A" ⟨["a", "b"], "a", false⟩
      (by decide)⟩

/-- C2 (host invariant): after every finite sequence of server events run from the empty
registry, for every value of `MAX_PARTICIPANTS`, every room in the registry whose member
set is non-empty has its host in its member set. -/
theorem host_invariant (env : Option Int) (events : List Event) (r : RoomId) (room : Room)
    (hroom : (run env empty events).rooms r = some room) (hne : room.users ≠ []) :
    room.host ∈ room.users := by
  have key := run_induction env
    (fun s => ∀ r room, s.rooms r = some room →
      (room.users = [] ∧ MAX_PARTICIPANTS env ≤ 0) ∨ room.host ∈ room.users)
    (fun s e hs r => roomStep_host (step_roomStep env s e r) (hs r))
    events empty (fun r room h => by simp [empty] at h)
  rcases key r room hroom with ⟨he, _⟩ | hmem
  · exact absurd he hne
  · exact hmem

theorem host_invariant_witness :
    (run none empty (sampleJoins ++ [Event.disconnect "a"])).rooms "A"
      = some ⟨["b", "c"], "b", false⟩ ∧
    "b" ∈ (["b", "c"] : List SocketId) :=
  ⟨by decide,
    host_invariant none (sampleJoins ++ [Event.disconnect "a"]) "A" ⟨["b", "c"], "b", false⟩
      (by decide) (by decide)⟩

/-- C3, as stated, fails: with `MAX_PARTICIPANTS = -1` (the environment value `-1` passes
`parseInt(...) || 6` unchanged) the first `join-room` for room `"A"` puts the room into the
registry, is then rejected with `join-error` of type `room-full`, and leaves the room in
the registry with an empty member set. -/
theorem rejected_join_leaves_empty_room :
    (run (some (-1)) empty [Event.connection "a", Event.joinRoom "a" ⟨"A", "Ann", none⟩]).rooms "A"
      = some ⟨[], "a", false⟩ ∧
    (step (some (-1)) (run (some (-1)) empty [Event.connection "a"])
        (Event.joinRoom "a" ⟨"A", "Ann", none⟩)).2
      = [("a", Msg.joinError JoinErrorType.roomFull (roomFullMessage (-1)))] := by
  constructor
  · decide
  · rfl

/-- C3 (no empty room), amended: with `MAX_PARTICIPANTS ≥ 1`, after every finite sequence
of server events run from the empty registry (rejected `join-room` requests included), the
registry contains no room whose member set is empty. -/
theorem no_empty_room (env : Option Int) (hmax : 1 ≤ MAX_PARTICIPANTS env)
    (events : List Event) (r : RoomId) (room : Room)
    (hroom : (run env empty events).rooms r = some room) :
    room.users ≠ [] := by
  have key := run_induction env
    (fun s => ∀ r room, s.rooms r = some room → room.users ≠ [])
    (fun s e hs r => roomStep_nonempty hmax (step_roomStep env s e r) (hs r))
    events empty (fun r room h => by simp [empty] at h)
  exact key r room hroom

theorem no_empty_room_witness :
    1 ≤ MAX_PARTICIPANTS (some 2) ∧
    (run (some 2) empty sampleJoins).rooms "A" = some ⟨["a", "b"], "a", false⟩ ∧
    (["a", "b"] : List SocketId) ≠ [] :=
  ⟨by decide, by decide,
    no_empty_room (some 2) (by decide) sampleJoins "A" ⟨["a", "b"], "a", false⟩ (by decide)⟩

/-! ## Join snapshot and fan-out -/

/-- C8, as stated, fails.  First input: the member `"a"` of room `"A"` joined room `"B"`
afterwards and disconnected, which removed it from `"B"` only; when `"b"` then joins `"A"`
the snapshot names `"a"`, yet `user-joined` is delivered to nobody.  Second input: `"b"`
joins a room whose id is the socket id of the connected socket `"a"`; the room has no
member, yet `"a"` receives `user-joined`. -/
theorem userJoined_not_exactly_previous_members :
    (members sampleGhost "A" = ["a"] ∧
      (joinRoom none sampleGhost "b" ⟨"A", "Bob", none⟩).2
        = [("b", Msg.existingUsers ["a"]),
           ("b", Msg.roomInfo "A" "a" false false
              [⟨"a", "Unknown", "UTC"⟩, ⟨"b", "Bob", "UTC"⟩])]) ∧
    (members sampleIdle "a" = [] ∧
      (joinRoom none sampleIdle "b" ⟨"a", "Bob", none⟩).2
        = [("b", Msg.existingUsers []),
           ("a", Msg.userJoined "b" "Bob" "UTC"),
           ("b", Msg.roomInfo "a" "b" true false [⟨"b", "Bob", "UTC"⟩])]) := by
  decide

theorem roomSockets_join (s : State) (c : SocketId) (r : RoomId) (rooms : RoomId → Option Room)
    (userMap : SocketId → Option User) (x : SocketId) (hx : x ≠ c) :
    x ∈ roomSockets
        { rooms := rooms, userMap := userMap, sockets := s.sockets
          sioRooms := fun y => if y = c then setAdd (s.sioRooms c) r else s.sioRooms y } r
      ↔ x ∈ roomSockets s r := by
  simp [roomSockets, inRoom, hx]

/-- C8 (join snapshot and fan-out), amended: for every `join-room` by a connection `c` that
is not a member of a room `R` of the registry and passes both admission checks (`R` is not
locked and has fewer than `MAX_PARTICIPANTS` members), the `existing-users` list sent to
`c` is the member list of `R` before the join and no other `existing-users` is sent;
`user-joined`, carrying `c`'s id and the nickname and timezone recorded for `c` in the user
map, is delivered to exactly the connected sockets other than `c` that are in the
Socket.IO room `R`, and these are exactly the previous members whenever the previous
members are exactly the sockets in that Socket.IO room; afterwards the member list is the
previous list followed by `c`, and host and locked flag of `R` are unchanged. -/
theorem joinRoom_snapshot_fanout (env : Option Int) (s : State) (c : SocketId)
    (data : JoinData) (room : Room) (hroom : s.rooms data.roomId = some room)
    (hmem : c ∉ room.users) (hlock : room.locked = false)
    (hcap : (room.users.length : Int) < MAX_PARTICIPANTS env) :
    (c, Msg.existingUsers room.users) ∈ (joinRoom env s c data).2 ∧
    (∀ d ∈ (joinRoom env s c data).2, ∀ us, d.2 = Msg.existingUsers us →
      d = (c, Msg.existingUsers room.users)) ∧
    (joinRoom env s c data).1.userMap c
      = some ⟨data.roomId, data.nickname, optOr data.timezone "UTC"⟩ ∧
    (∀ x, (x, Msg.userJoined c data.nickname (optOr data.timezone "UTC"))
        ∈ (joinRoom env s c data).2 ↔ x ∈ roomSockets s data.roomId ∧ x ≠ c) ∧
    (∀ d ∈ (joinRoom env s c data).2, ∀ i n z, d.2 = Msg.userJoined i n z →
      d.2 = Msg.userJoined c data.nickname (optOr data.timezone "UTC")) ∧
    ((∀ x, x ∈ room.users ↔ x ∈ roomSockets s data.roomId) →
      ∀ x, (x, Msg.userJoined c data.nickname (optOr data.timezone "UTC"))
        ∈ (joinRoom env s c data).2 ↔ x ∈ room.users) ∧
    (joinRoom env s c data).1.rooms data.roomId
      = some ⟨room.users ++ [c], room.host, room.locked⟩ := by
  have h1 : ¬ (room.locked = true ∧ c ∉ room.users) := by simp [hlock]
  have h2 : ¬ (MAX_PARTICIPANTS env ≤ (room.users.length : Int) ∧ c ∉ room.users) := by
    intro h; omega
  have hj : joinRoom env s c data = joinLookedUp env s c data room := by
    simp only [joinRoom, hroom]
  rw [hj, joinLookedUp_pass env s c data room h1 h2]
  have hrec : ∀ x, (x, Msg.userJoined c data.nickname (optOr data.timezone "UTC"))
      ∈ ([(c, Msg.existingUsers room.users)]
          ++ socketTo
              { rooms := mapSet s.rooms data.roomId { room with users := setAdd room.users c }
                userMap := mapSet s.userMap c
                  { roomId := data.roomId, nickname := data.nickname,
                    timezone := optOr data.timezone "UTC" }
                sockets := s.sockets
                sioRooms := fun x =>
                  if x = c then setAdd (s.sioRooms c) data.roomId else s.sioRooms x }
              c data.roomId (Msg.userJoined c data.nickname (optOr data.timezone "UTC"))
          ++ [(c, Msg.roomInfo data.roomId room.host (decide (c = room.host))
                (room.locked || false)
                ((setAdd room.users c).map (memberInfo (mapSet s.userMap c
                  { roomId := data.roomId, nickname := data.nickname,
                    timezone := optOr data.timezone "UTC" }))))])
        ↔ x ∈ roomSockets s data.roomId ∧ x ≠ c := by
    intro x
    simp only [List.mem_append, List.mem_singleton, Prod.mk.injEq, mem_socketTo, reduceCtorEq,
      and_false, false_or, or_false, and_true]
    constructor
    · rintro ⟨hx, hne⟩
      exact ⟨(roomSockets_join s c data.roomId _ _ x hne).mp hx, hne⟩
    · rintro ⟨hx, hne⟩
      exact ⟨(roomSockets_join s c data.roomId _ _ x hne).mpr hx, hne⟩
  refine ⟨by simp, ?_, by simp [mapSet], hrec, ?_, ?_, ?_⟩
  · intro d hd us hus
    simp only [List.mem_append, List.mem_singleton] at hd
    rcases hd with (h | h) | h
    · exact h
    · rw [mem_socketTo] at h
      rw [h.2.2] at hus
      exact Msg.noConfusion hus
    · rw [h] at hus
      exact Msg.noConfusion hus
  · intro d hd i n z hd2
    simp only [List.mem_append, List.mem_singleton] at hd
    rcases hd with (h | h) | h
    · rw [h] at hd2
      exact Msg.noConfusion hd2
    · rw [mem_socketTo] at h
      exact h.2.2
    · rw [h] at hd2
      exact Msg.noConfusion hd2
  · intro hcons x
    rw [hrec x, ← hcons x]
    constructor
    · exact fun h => h.1
    · intro hx
      exact ⟨hx, fun e => hmem (e ▸ hx)⟩
  · show mapSet s.rooms data.roomId _ data.roomId = _
    rw [mapSet_same, setAdd_of_not_mem _ _ hmem]

theorem joinRoom_snapshot_fanout_witness :
    ("c", Msg.existingUsers ["a", "b"]) ∈ (joinRoom none sampleAB "c" ⟨"A", "Cy", none⟩).2 ∧
    (joinRoom none sampleAB "c" ⟨"A", "Cy", none⟩).1.userMap "c" = some ⟨"A", "Cy", "UTC"⟩ ∧
    (∀ x, (x, Msg.userJoined "c" "Cy" "UTC") ∈ (joinRoom none sampleAB "c" ⟨"A", "Cy", none⟩).2
      ↔ x ∈ ["a", "b"]) ∧
    (joinRoom none sampleAB "c" ⟨"A", "Cy", none⟩).1.rooms "A"
      = some ⟨["a", "b", "c"], "a", false⟩ :=
  have h := joinRoom_snapshot_fanout none sampleAB "c" ⟨"A", "Cy", none⟩ ⟨["a", "b"], "a", false⟩
    (by decide) (by decide) rfl (by decide)
  ⟨h.1, h.2.2.1,
    h.2.2.2.2.2.1 (fun x => by
      show x ∈ ["a", "b"] ↔ x ∈ roomSockets sampleAB "A"
      rw [show roomSockets sampleAB "A" = ["a", "b"] from by decide]),
    h.2.2.2.2.2.2⟩

/-! ## Leaving -/

/-- The `userMap` after `disconnect`: the entry of the socket is gone. -/
theorem disconnect_userMap (s : State) (c : SocketId) :
    (disconnect s c).1.userMap = mapDelete s.userMap c := by
  unfold disconnect
  simp only [detach_rooms, detach_userMap]
  cases hu : s.userMap c with
  | none =>
    funext x
    simp only [mapDelete]
    split
    · next hx => rw [hx]; exact hu
    · rfl
  | some user =>
    simp only
    cases hroom : s.rooms user.roomId with
    | none => rfl
    | some room =>
      simp only
      split <;> rfl

/-- A `join-room` for a room id that is not in the registry creates the room unlocked with
the requester as host; the requester is its only member unless `MAX_PARTICIPANTS ≤ 0`. -/
theorem joinRoom_absent (env : Option Int) (s : State) (c : SocketId) (data : JoinData)
    (hnone : s.rooms data.roomId = none) :
    (joinRoom env s c data).1.rooms data.roomId
      = some ⟨if 1 ≤ MAX_PARTICIPANTS env then [c] else [], c, false⟩ := by
  have h1 : ¬ ((⟨[], c, false⟩ : Room).locked = true ∧ c ∉ (⟨[], c, false⟩ : Room).users) := by
    simp
  have hj : joinRoom env s c data =
      joinLookedUp env { s with rooms := mapSet s.rooms data.roomId ⟨[], c, false⟩ } c data
        ⟨[], c, false⟩ := by
    simp only [joinRoom, hnone]
  rw [hj]
  by_cases hmax : 1 ≤ MAX_PARTICIPANTS env
  · have h2 : ¬ (MAX_PARTICIPANTS env ≤ (((⟨[], c, false⟩ : Room).users.length : Nat) : Int)
        ∧ c ∉ (⟨[], c, false⟩ : Room).users) := by
      simp only [List.length_nil, Nat.cast_zero]
      omega
    rw [joinLookedUp_pass env _ c data _ h1 h2, if_pos hmax]
    simp [mapSet, setAdd]
  · have h2 : MAX_PARTICIPANTS env ≤ (((⟨[], c, false⟩ : Room).users.length : Nat) : Int)
        ∧ c ∉ (⟨[], c, false⟩ : Room).users := by
      simp only [List.length_nil, Nat.cast_zero, List.not_mem_nil, not_false_eq_true, and_true]
      omega
    simp only [joinLookedUp, if_neg h1, if_pos h2, if_neg hmax]
    simp [mapSet]

/-- Eviction on last leave, for a connection whose user-map entry names the room: when
such a connection is the only member of that room and disconnects, the room is removed
from the registry and the user-map entry of the connection is removed; and in every state
whose registry lacks that room id (the state after the disconnect is one), a `join-room`
with that room id creates the room afresh: unlocked, with the joiner as host and (for
`MAX_PARTICIPANTS ≥ 1`) as only member. -/
theorem disconnect_last_member (s : State) (c : SocketId) (user : User) (room : Room)
    (hu : s.userMap c = some user) (hroom : s.rooms user.roomId = some room)
    (honly : room.users = [c]) :
    (disconnect s c).1.rooms user.roomId = none ∧
    (disconnect s c).1.userMap c = none ∧
    (∀ (env : Option Int) (s2 : State) (d : SocketId) (data : JoinData),
      s2.rooms user.roomId = none → data.roomId = user.roomId →
      (joinRoom env s2 d data).1.rooms user.roomId
        = some ⟨if 1 ≤ MAX_PARTICIPANTS env then [d] else [], d, false⟩) := by
  have hz : setDelete room.users c = [] := by
    rw [honly]
    simp [setDelete]
  have hgone : (disconnect s c).1.rooms user.roomId = none := by
    rw [disconnect_rooms]
    simp only [hu, hroom, hz, if_true]
    simp [mapDelete]
  refine ⟨hgone, ?_, ?_⟩
  · rw [disconnect_userMap]
    simp [mapDelete]
  · intro env s2 d data hs2 hd
    rw [← hd] at hs2 ⊢
    exact joinRoom_absent env s2 d data hs2

theorem disconnect_last_member_witness :
    sampleAlone.rooms "A" = some ⟨["a"], "a", true⟩ ∧
    (disconnect sampleAlone "a").1.rooms "A" = none ∧
    (disconnect sampleAlone "a").1.userMap "a" = none ∧
    (joinRoom none (disconnect sampleAlone "a").1 "b" ⟨"A", "Bob", none⟩).1.rooms "A"
      = some ⟨["b"], "b", false⟩ :=
  have h := disconnect_last_member sampleAlone "a" ⟨"A", "Ann", "UTC"⟩ ⟨["a"], "a", true⟩
    (by decide) (by decide) rfl
  ⟨by decide, h.1, h.2.1, h.2.2 none (disconnect sampleAlone "a").1 "b" ⟨"A", "Bob", none⟩ h.1 rfl⟩

/-! ## Host succession -/

theorem roomStep_users {MAX : Int} {o o' : Option Room} (h : RoomStep MAX o o') :
    usersOf o' = usersOf o ∨ (∃ c, c ∉ usersOf o ∧ usersOf o' = usersOf o ++ [c]) ∨
      (∃ c, usersOf o' = setDelete (usersOf o) c) := by
  cases h with
  | same => exact Or.inl rfl
  | created c hle => exact Or.inl rfl
  | joinedNew c hpos => exact Or.inr (Or.inl ⟨c, List.not_mem_nil c, rfl⟩)
  | joined room c hc hlt => exact Or.inr (Or.inl ⟨c, hc, rfl⟩)
  | evicted room c hz => exact Or.inr (Or.inr ⟨c, hz.symm⟩)
  | left room c newHost h1 h2 hz => exact Or.inr (Or.inr ⟨c, rfl⟩)
  | locked room b => exact Or.inl rfl

/-- One event changes the member list of a room by nothing, by one connection appended at
the end, or by one connection removed. -/
theorem step_members (env : Option Int) (s : State) (e : Event) (r : RoomId) :
    members (step env s e).1 r = members s r ∨
      (∃ c, c ∉ members s r ∧ members (step env s e).1 r = members s r ++ [c]) ∨
      (∃ c, members (step env s e).1 r = setDelete (members s r) c) :=
  roomStep_users (step_roomStep env s e r)

theorem stepTimed_inv (env : Option Int) (t : Timed) (e : Event) (hinv : TimedInv t) :
    TimedInv (stepTimed env t e) := by
  intro r
  obtain ⟨hp, hc⟩ := hinv r
  have hkeep : ∀ m ∈ members t.state r,
      (stepTimed env t e).joinedAt r m = t.joinedAt r m := by
    intro m hm
    simp [stepTimed, hm]
  show (members (step env t.state e).1 r).Pairwise
      (fun a b => (stepTimed env t e).joinedAt r a < (stepTimed env t e).joinedAt r b) ∧
    ∀ m ∈ members (step env t.state e).1 r, (stepTimed env t e).joinedAt r m < t.clock + 1
  rcases step_members env t.state e r with heq | ⟨c, hcn, happ⟩ | ⟨c, hdel⟩
  · rw [heq]
    refine ⟨?_, ?_⟩
    · refine List.Pairwise.imp_of_mem ?_ hp
      intro a b ha hb hab
      rw [hkeep a ha, hkeep b hb]
      exact hab
    · intro m hm
      rw [hkeep m hm]
      exact Nat.lt_succ_of_lt (hc m hm)
  · have hnew : (stepTimed env t e).joinedAt r c = t.clock := by
      have hin : c ∈ members (step env t.state e).1 r := by
        rw [happ]; simp
      simp [stepTimed, hin, hcn]
    rw [happ]
    refine ⟨?_, ?_⟩
    · rw [List.pairwise_append]
      refine ⟨?_, List.pairwise_singleton _ _, ?_⟩
      · refine List.Pairwise.imp_of_mem ?_ hp
        intro a b ha hb hab
        rw [hkeep a ha, hkeep b hb]
        exact hab
      · intro a ha b hb
        rw [List.mem_singleton] at hb
        subst hb
        rw [hkeep a ha, hnew]
        exact hc a ha
    · intro m hm
      rw [List.mem_append, List.mem_singleton] at hm
      rcases hm with hm | hm
      · rw [hkeep m hm]
        exact Nat.lt_succ_of_lt (hc m hm)
      · subst hm
        rw [hnew]
        exact Nat.lt_succ_self _
  · rw [hdel]
    have hsub : ∀ m ∈ setDelete (members t.state r) c, m ∈ members t.state r :=
      fun m hm => ((mem_setDelete _ _ _).mp hm).1
    refine ⟨?_, ?_⟩
    · have hp2 : (setDelete (members t.state r) c).Pairwise
          (fun a b => t.joinedAt r a < t.joinedAt r b) :=
        List.Pairwise.sublist (List.filter_sublist _) hp
      refine List.Pairwise.imp_of_mem ?_ hp2
      intro a b ha hb hab
      rw [hkeep a (hsub a ha), hkeep b (hsub b hb)]
      exact hab
    · intro m hm
      rw [hkeep m (hsub m hm)]
      exact Nat.lt_succ_of_lt (hc m (hsub m hm))

theorem runTimed_inv (env : Option Int) (events : List Event) :
    ∀ t, TimedInv t → TimedInv (runTimed env t events) := by
  induction events with
  | nil => intro t ht; exact ht
  | cons e es ih =>
    intro t ht
    exact ih _ (stepTimed_inv env t e ht)

theorem emptyTimed_inv : TimedInv emptyTimed := by
  intro r
  exact ⟨List.Pairwise.nil, fun m hm => by simp [emptyTimed, members, empty, usersOf] at hm⟩

/-- The state of a timed run is the state of the plain run. -/
theorem runTimed_state (env : Option Int) (events : List Event) :
    ∀ t, (runTimed env t events).state = run env t.state events := by
  induction events with
  | nil => intro t; rfl
  | cons e es ih =>
    intro t
    exact ih (stepTimed env t e)

/-- Messages of a `disconnect` that hands the host role over. -/
theorem disconnect_out_newHost (s : State) (c : SocketId) (user : User) (room : Room)
    (x : SocketId) (xs : List SocketId) (hu : s.userMap c = some user)
    (hroom : s.rooms user.roomId = some room) (hhost : room.host = c)
    (hx : setDelete room.users c = x :: xs) :
    (disconnect s c).2 =
      ioTo (detach s c) user.roomId (Msg.newHost x (nicknameOf s.userMap x))
        ++ socketTo (detach s c) c user.roomId (Msg.userLeft c user.nickname) := by
  have hn : newHostOf { room with users := setDelete room.users c } c = some x := by
    simp [newHostOf, hhost, hx]
  rw [hx] at hn
  unfold disconnect
  simp only [detach_rooms, detach_userMap, hu, hroom, afterLeave_users, hx, hn,
    List.length_cons, Nat.succ_ne_zero, if_false]

theorem mem_roomSockets_detach (s : State) (c : SocketId) (r : RoomId) (x : SocketId) :
    x ∈ roomSockets (detach s c) r ↔ x ∈ roomSockets s r ∧ x ≠ c := by
  simp only [roomSockets, detach, inRoom, List.mem_filter, decide_eq_true_eq, Bool.or_eq_true]
  constructor
  · rintro ⟨⟨h1, h2⟩, h3⟩
    rw [if_neg h2] at h3
    exact ⟨⟨h1, h3⟩, h2⟩
  · rintro ⟨⟨h1, h3⟩, h2⟩
    rw [if_neg h2]
    exact ⟨⟨h1, h2⟩, h3⟩

/-- C9, as stated, fails on the nickname: `"m"` joined room `"A"` with an empty nickname,
which is what the user map records for it; when the host `"h"` disconnects, `"m"` is the
new host and the `new-host` message carries `'Unknown'` as its nickname. -/
theorem newHost_nickname_placeholder :
    (run none empty sampleNameless).userMap "m" = some ⟨"A", "", "UTC"⟩ ∧
    (disconnect (run none empty sampleNameless) "h").1.rooms "A"
      = some ⟨["m", "n"], "m", false⟩ ∧
    (disconnect (run none empty sampleNameless) "h").2
      = [("m", Msg.newHost "m" "Unknown"), ("n", Msg.newHost "m" "Unknown"),
         ("m", Msg.userLeft "h" "Hana"), ("n", Msg.userLeft "h" "Hana")] := by
  decide

/-- C9 (host succession), amended: in every state reached from the empty registry, when a
connection `h` disconnects whose user-map entry names a room `R` of which it is the host,
and at least one other member remains, the new host of `R` is the remaining member whose
join time (the event at which it entered the member set) is strictly earlier than that of
every other remaining member; every `new-host` message delivered carries the id of that
member together with its user-map nickname, or `'Unknown'` when that nickname is empty or
the member has no user-map entry, and every connected socket of the Socket.IO room `R`
receives it. -/
theorem host_succession (env : Option Int) (events : List Event) (h : SocketId) (user : User)
    (room : Room)
    (hu : (runTimed env emptyTimed events).state.userMap h = some user)
    (hroom : (runTimed env emptyTimed events).state.rooms user.roomId = some room)
    (hhost : room.host = h) (hrem : setDelete room.users h ≠ []) :
    ∃ newHost : SocketId,
      (disconnect (runTimed env emptyTimed events).state h).1.rooms user.roomId
        = some ⟨setDelete room.users h, newHost, room.locked⟩ ∧
      newHost ∈ room.users ∧ newHost ≠ h ∧
      (∀ m ∈ room.users, m ≠ h → m ≠ newHost →
        (runTimed env emptyTimed events).joinedAt user.roomId newHost
          < (runTimed env emptyTimed events).joinedAt user.roomId m) ∧
      (∀ d ∈ (disconnect (runTimed env emptyTimed events).state h).2, ∀ i n,
        d.2 = Msg.newHost i n →
          i = newHost ∧
          n = nicknameOf (runTimed env emptyTimed events).state.userMap newHost) ∧
      (∀ x ∈ roomSockets (runTimed env emptyTimed events).state user.roomId, x ≠ h →
        (x, Msg.newHost newHost
              (nicknameOf (runTimed env emptyTimed events).state.userMap newHost))
          ∈ (disconnect (runTimed env emptyTimed events).state h).2) ∧
      (∀ u, (runTimed env emptyTimed events).state.userMap newHost = some u →
        u.nickname ≠ "" →
        nicknameOf (runTimed env emptyTimed events).state.userMap newHost = u.nickname) := by
  have hinv := runTimed_inv env events emptyTimed emptyTimed_inv
  generalize runTimed env emptyTimed events = t at hu hroom hinv ⊢
  obtain ⟨x, xs, hx⟩ := List.exists_cons_of_ne_nil hrem
  have hxmem : x ∈ setDelete room.users h := by rw [hx]; simp
  have hxin := (mem_setDelete _ _ _).mp hxmem
  have hmem : members t.state user.roomId = room.users := by
    simp [members, hroom, usersOf]
  refine ⟨x, ?_, hxin.1, hxin.2, ?_, ?_, ?_, ?_⟩
  · rw [disconnect_rooms]
    simp only [hu, hroom, hrem, if_false]
    rw [mapSet_same]
    have hroom2 : afterLeave room h
        = ⟨(afterLeave room h).users, (afterLeave room h).host, (afterLeave room h).locked⟩ :=
      rfl
    rw [hroom2, afterLeave_users, afterLeave_locked, afterLeave_host_of_eq room h x xs hhost hx]
  · intro m hm hmh hmx
    have hp := (hinv user.roomId).1
    rw [hmem] at hp
    have hp2 : (setDelete room.users h).Pairwise
        (fun a b => t.joinedAt user.roomId a < t.joinedAt user.roomId b) :=
      List.Pairwise.sublist (List.filter_sublist _) hp
    rw [hx, List.pairwise_cons] at hp2
    have hm2 : m ∈ setDelete room.users h := (mem_setDelete _ _ _).mpr ⟨hm, hmh⟩
    rw [hx, List.mem_cons] at hm2
    rcases hm2 with hm2 | hm2
    · exact absurd hm2 hmx
    · exact hp2.1 m hm2
  · intro d hd i n hdn
    rw [disconnect_out_newHost t.state h user room x xs hu hroom hhost hx, List.mem_append] at hd
    rcases hd with hd | hd
    · rw [mem_ioTo] at hd
      rw [hd.2] at hdn
      cases hdn
      exact ⟨rfl, rfl⟩
    · rw [mem_socketTo] at hd
      rw [hd.2.2] at hdn
      exact Msg.noConfusion hdn
  · intro y hy hyh
    rw [disconnect_out_newHost t.state h user room x xs hu hroom hhost hx, List.mem_append]
    left
    rw [mem_ioTo]
    exact ⟨(mem_roomSockets_detach _ _ _ _).mpr ⟨hy, hyh⟩, rfl⟩
  · intro u hu2 hne
    simp [nicknameOf, hu2, strOr, hne]

theorem host_succession_witness :
    (runTimed none emptyTimed sampleThree).state.rooms "A" = some ⟨["h", "m", "n"], "h", false⟩ ∧
    ∃ newHost : SocketId,
      (disconnect (runTimed none emptyTimed sampleThree).state "h").1.rooms "A"
        = some ⟨setDelete ["h", "m", "n"] "h", newHost, false⟩ ∧
      newHost ∈ ["h", "m", "n"] ∧ newHost ≠ "h" ∧
      (∀ m ∈ ["h", "m", "n"], m ≠ "h" → m ≠ newHost →
        (runTimed none emptyTimed sampleThree).joinedAt "A" newHost
          < (runTimed none emptyTimed sampleThree).joinedAt "A" m) :=
  ⟨by decide,
    Exists.elim
      (host_succession none sampleThree "h" ⟨"A", "Hana", "UTC"⟩ ⟨["h", "m", "n"], "h", false⟩
        (by decide) (by decide) rfl (by decide))
      (fun x hx => ⟨x, hx.1, hx.2.1, hx.2.2.1, hx.2.2.2.1⟩)⟩

/-! ## Authorisation of host-only requests -/

/-- C12 (unauthorised kick): when the requester has a user-map entry naming a room of the
registry whose host is another connection, both kick requests (`kick-user`, and
`admin-action` with action `kick`) return the state they were given, so nobody is
disconnected and `rooms` and `userMap` are unchanged, and deliver exactly one message: an
`error` to the requester ("no rights"); in particular no `kicked` message is sent. -/
theorem unauthorized_kick (s : State) (c : SocketId) (user : User) (room : Room)
    (targetId : SocketId) (reason : Option String) (locked : Bool)
    (hu : s.userMap c = some user) (hroom : s.rooms user.roomId = some room)
    (hhost : room.host ≠ c) :
    kickUser s c targetId = (s, [(c, Msg.error "У вас нет прав для этого действия")]) ∧
    adminAction s c ⟨AdminKind.kick, targetId, reason, locked⟩
      = (s, [(c, Msg.error "У вас нет прав администратора")]) := by
  constructor
  · simp [kickUser, hu, hroom, hhost]
  · simp [adminAction, hu, hroom, hhost]

theorem unauthorized_kick_witness :
    kickUser sampleAB "b" "a" = (sampleAB, [("b", Msg.error "У вас нет прав для этого действия")]) ∧
    adminAction sampleAB "b" ⟨AdminKind.kick, "a", some "bye", false⟩
      = (sampleAB, [("b", Msg.error "У вас нет прав администратора")]) :=
  unauthorized_kick sampleAB "b" ⟨"A", "Bob", "UTC"⟩ ⟨["a", "b"], "a", false⟩ "a" (some "bye")
    false (by decide) (by decide) (by decide)

/-- C14 (host-only admin actions): when the requester has a user-map entry naming a room
of the registry whose host is another connection, every `admin-action`, whatever its
action (`kick`, `mute-all`, `room-lock`, `nudge-all` or anything else), returns the state
it was given (locked flag and membership included) and delivers exactly one message, an
`error` to the requester; so no `admin-mute-all`, `room-status`, `nudge` or `kicked` is
sent to anyone. -/
theorem admin_action_not_host (s : State) (c : SocketId) (user : User) (room : Room)
    (data : AdminData) (hu : s.userMap c = some user)
    (hroom : s.rooms user.roomId = some room) (hhost : room.host ≠ c) :
    adminAction s c data = (s, [(c, Msg.error "У вас нет прав администратора")]) := by
  simp [adminAction, hu, hroom, hhost]

theorem admin_action_not_host_witness :
    adminAction sampleAB "b" ⟨AdminKind.roomLock, "", none, true⟩
      = (sampleAB, [("b", Msg.error "У вас нет прав администратора")]) :=
  admin_action_not_host sampleAB "b" ⟨"A", "Bob", "UTC"⟩ ⟨["a", "b"], "a", false⟩
    ⟨AdminKind.roomLock, "", none, true⟩ (by decide) (by decide) (by decide)

/-! ## Effects of admin actions -/

/-- The `room-lock` action of the host stores the requested flag in its room. -/
theorem adminAction_roomLock (s : State) (c : SocketId) (user : User) (room : Room)
    (targetId : SocketId) (reason : Option String) (b : Bool)
    (hu : s.userMap c = some user) (hroom : s.rooms user.roomId = some room)
    (hhost : room.host = c) :
    adminAction s c ⟨AdminKind.roomLock, targetId, reason, b⟩ =
      ({ s with rooms := mapSet s.rooms user.roomId ⟨room.users, room.host, b⟩ },
        ioTo s user.roomId (Msg.roomStatus b user.nickname)) := by
  simp [adminAction, hu, hroom, hhost]

/-- C15 (admin-action effects): a `room-lock` action by the host of a room replaces the
registry entry of that room by one with the same members and host and the requested
locked flag, and changes no other entry of `rooms` and nothing in `userMap`; a `join-room`
for that room by a non-member handled next is answered with `join-error` of type
`room-locked` exactly when the requested flag is `true` (and then nothing else is sent and
the state stays as it is); `mute-all` and `nudge-all` by the host return the state they
were given. -/
theorem admin_action_effects (s : State) (c : SocketId) (user : User) (room : Room)
    (targetId : SocketId) (reason : Option String) (b : Bool)
    (hu : s.userMap c = some user) (hroom : s.rooms user.roomId = some room)
    (hhost : room.host = c) :
    (adminAction s c ⟨AdminKind.roomLock, targetId, reason, b⟩).1.rooms
      = mapSet s.rooms user.roomId ⟨room.users, room.host, b⟩ ∧
    (adminAction s c ⟨AdminKind.roomLock, targetId, reason, b⟩).1.userMap = s.userMap ∧
    (∀ (env : Option Int) (d : SocketId) (data : JoinData),
      data.roomId = user.roomId → d ∉ room.users →
      ((∃ m, (d, Msg.joinError JoinErrorType.roomLocked m)
          ∈ (joinRoom env (adminAction s c ⟨AdminKind.roomLock, targetId, reason, b⟩).1
              d data).2) ↔ b = true) ∧
      (b = true →
        joinRoom env (adminAction s c ⟨AdminKind.roomLock, targetId, reason, b⟩).1 d data
          = ((adminAction s c ⟨AdminKind.roomLock, targetId, reason, b⟩).1,
              [(d, Msg.joinError JoinErrorType.roomLocked roomLockedMessage)]))) ∧
    (adminAction s c ⟨AdminKind.muteAll, targetId, reason, b⟩).1 = s ∧
    (adminAction s c ⟨AdminKind.nudgeAll, targetId, reason, b⟩).1 = s := by
  rw [adminAction_roomLock s c user room targetId reason b hu hroom hhost]
  refine ⟨rfl, rfl, ?_, by simp [adminAction, hu, hroom, hhost],
    by simp [adminAction, hu, hroom, hhost]⟩
  intro env d data hd hmem
  have hget : (mapSet s.rooms user.roomId ⟨room.users, room.host, b⟩) data.roomId
      = some ⟨room.users, room.host, b⟩ := by
    rw [hd, mapSet_same]
  have hj : ∀ s2 : State, s2.rooms data.roomId = some ⟨room.users, room.host, b⟩ →
      joinRoom env s2 d data = joinLookedUp env s2 d data ⟨room.users, room.host, b⟩ := by
    intro s2 h2
    simp only [joinRoom, h2]
  have htrue : b = true →
      joinRoom env { s with rooms := mapSet s.rooms user.roomId ⟨room.users, room.host, b⟩ }
          d data
        = ({ s with rooms := mapSet s.rooms user.roomId ⟨room.users, room.host, b⟩ },
            [(d, Msg.joinError JoinErrorType.roomLocked roomLockedMessage)]) := by
    intro hb
    rw [hj _ hget]
    simp [joinLookedUp, hb, hmem]
  refine ⟨⟨?_, ?_⟩, htrue⟩
  · rintro ⟨m, hm⟩
    by_contra hb
    have hb' : b = false := by simpa using hb
    rw [hj _ hget] at hm
    have h1 : ¬ ((⟨room.users, room.host, b⟩ : Room).locked = true
        ∧ d ∉ (⟨room.users, room.host, b⟩ : Room).users) := by
      simp [hb']
    by_cases h2 : MAX_PARTICIPANTS env ≤ ((⟨room.users, room.host, b⟩ : Room).users.length : Int)
        ∧ d ∉ (⟨room.users, room.host, b⟩ : Room).users
    · simp only [joinLookedUp, if_neg h1, if_pos h2, List.mem_singleton, Prod.mk.injEq,
        Msg.joinError.injEq, reduceCtorEq, false_and, and_false] at hm
    · exact joinLookedUp_pass_no_error env _ d data _ h1 h2 _ hm JoinErrorType.roomLocked m rfl
  · intro hb
    rw [htrue hb]
    exact ⟨roomLockedMessage, List.mem_singleton.mpr rfl⟩

theorem admin_action_effects_witness :
    (adminAction sampleAB "a" ⟨AdminKind.roomLock, "", none, true⟩).1.rooms
      = mapSet sampleAB.rooms "A" ⟨["a", "b"], "a", true⟩ ∧
    (adminAction sampleAB "a" ⟨AdminKind.roomLock, "", none, true⟩).1.userMap
      = sampleAB.userMap ∧
    joinRoom none (adminAction sampleAB "a" ⟨AdminKind.roomLock, "", none, true⟩).1 "c"
        ⟨"A", "Cy", none⟩
      = ((adminAction sampleAB "a" ⟨AdminKind.roomLock, "", none, true⟩).1,
          [("c", Msg.joinError JoinErrorType.roomLocked roomLockedMessage)]) ∧
    (adminAction sampleAB "a" ⟨AdminKind.muteAll, "", none, true⟩).1 = sampleAB ∧
    (adminAction sampleAB "a" ⟨AdminKind.nudgeAll, "", none, true⟩).1 = sampleAB :=
  have h := admin_action_effects sampleAB "a" ⟨"A", "Ann", "Europe/Paris"⟩
    ⟨["a", "b"], "a", false⟩ "" none true (by decide) (by decide) rfl
  ⟨h.1, h.2.1, (h.2.2.1 none "c" ⟨"A", "Cy", none⟩ rfl (by decide)).2 rfl, h.2.2.2.1, h.2.2.2.2⟩

/-! ## Signal relay -/

theorem filter_eq_singleton (l : List String) (t : String) (p : String → Bool)
    (hnd : l.Nodup) (ht : t ∈ l) (hp : ∀ x ∈ l, p x = true ↔ x = t) : l.filter p = [t] := by
  induction l with
  | nil => simp at ht
  | cons a l ih =>
    rw [List.nodup_cons] at hnd
    by_cases hat : a = t
    · subst hat
      have hpa : p a = true := (hp a (List.mem_cons_self _ _)).mpr rfl
      have hrest : l.filter p = [] := by
        rw [List.filter_eq_nil_iff]
        intro x hx hpx
        have hxa : x = a := (hp x (List.mem_cons_of_mem _ hx)).mp hpx
        exact hnd.1 (hxa ▸ hx)
      rw [List.filter_cons_of_pos hpa, hrest]
    · have hpa : ¬ p a = true := fun h => hat ((hp a (List.mem_cons_self _ _)).mp h)
      have htl : t ∈ l := by
        rcases List.mem_cons.mp ht with h | h
        · exact absurd h.symm hat
        · exact h
      rw [List.filter_cons_of_neg hpa]
      exact ih hnd.2 htl (fun x hx => hp x (List.mem_cons_of_mem _ hx))

/-- Recipients of a relayed signal: the connected sockets of the Socket.IO room named by
`to`, the sender left out. -/
theorem signal_recipients (s : State) (c : SocketId) (data : SignalData) (d : Delivery) :
    d ∈ (signal s c data).2 ↔
      d.1 ∈ roomSockets s data.toId ∧ d.1 ≠ c ∧ d.2 = Msg.signal c data.signal := by
  simp only [signal]
  exact mem_socketTo s c data.toId _ d

/-- C16, as stated, fails.  First input: `"a"` addresses a signal to its own id, and nothing
is delivered, since `socket.to` leaves the sender out.  Second input: `"b"` has entered a
room whose id is the socket id `"a"`; a signal that `"c"` addresses to `"a"` is delivered to
`"a"` and to `"b"`. -/
theorem signal_not_exactly_one :
    ("a" ∈ sampleAB.sockets ∧ signal sampleAB "a" ⟨"a", sampleOffer⟩ = (sampleAB, [])) ∧
    ("a" ∈ sampleTap.sockets ∧
      (signal sampleTap "c" ⟨"a", sampleOffer⟩).2
        = [("a", Msg.signal "c" sampleOffer), ("b", Msg.signal "c" sampleOffer)]) := by
  refine ⟨⟨by decide, ?_⟩, by decide, by decide⟩
  have h : (signal sampleAB "a" ⟨"a", sampleOffer⟩).2 = [] := by decide
  exact Prod.ext rfl h

/-- C16 (relay), amended: for every `signal` event sent by connection `c` whose `to` is the
id of a connected socket other than `c`, when no connected socket has entered a Socket.IO
room named `to`, the server delivers exactly one message, to the socket `to`, whose `from`
field is `c` and whose `signal` field is the submitted payload, whatever it is, and the
state (so `rooms` and `userMap`) is unchanged.  In every state the recipients are the
connected sockets of the Socket.IO room `to` other than the sender. -/
theorem signal_relay (s : State) (c : SocketId) (data : SignalData)
    (hnd : s.sockets.Nodup) (hto : data.toId ∈ s.sockets) (hne : data.toId ≠ c)
    (hroom : ∀ x ∈ s.sockets, data.toId ∉ s.sioRooms x) :
    signal s c data = (s, [(data.toId, Msg.signal c data.signal)]) ∧
    (∀ d, d ∈ (signal s c data).2 ↔
      d.1 ∈ roomSockets s data.toId ∧ d.1 ≠ c ∧ d.2 = Msg.signal c data.signal) := by
  refine ⟨?_, signal_recipients s c data⟩
  have h1 : roomSockets s data.toId = [data.toId] := by
    apply filter_eq_singleton _ _ _ hnd hto
    intro x hx
    simp [inRoom, hroom x hx]
  simp [signal, socketTo, h1, hne]

theorem signal_relay_witness :
    signal sampleAB "c" ⟨"a", sampleOffer⟩ = (sampleAB, [("a", Msg.signal "c" sampleOffer)]) :=
  (signal_relay sampleAB "c" ⟨"a", sampleOffer⟩ (by decide) (by decide) (by decide)
    (by decide)).1

/-- C17, as stated, fails: `"A"` is the id of no connected socket, yet a signal that `"c"`
addresses to `"A"` is delivered to `"a"` and `"b"`, the sockets that entered the Socket.IO
room `"A"` when they joined that room. -/
theorem signal_to_room_id_is_broadcast :
    "A" ∉ sampleAB.sockets ∧
    (signal sampleAB "c" ⟨"A", sampleOffer⟩).2
      = [("a", Msg.signal "c" sampleOffer), ("b", Msg.signal "c" sampleOffer)] := by
  decide

/-- C17 (relay-miss), amended: a `signal` event whose `to` is the id of no connected socket
and the name of no Socket.IO room that a connected socket other than the sender has
entered delivers no message to anyone, the sender included (so no error either), and
returns the state it was given. -/
theorem signal_relay_miss (s : State) (c : SocketId) (data : SignalData)
    (hto : data.toId ∉ s.sockets)
    (hroom : ∀ x ∈ s.sockets, x ≠ c → data.toId ∉ s.sioRooms x) :
    signal s c data = (s, []) := by
  have h1 : (roomSockets s data.toId).filter (fun x => x ≠ c) = [] := by
    rw [List.filter_eq_nil_iff]
    intro x hx
    simp only [roomSockets, List.mem_filter, inRoom, Bool.or_eq_true, decide_eq_true_eq] at hx
    simp only [decide_eq_true_eq, not_not]
    by_contra hxc
    rcases hx.2 with h | h
    · exact hto (h ▸ hx.1)
    · exact hroom x hx.1 hxc h
  unfold signal socketTo
  rw [h1]
  rfl

theorem signal_relay_miss_witness :
    signal sampleAB "a" ⟨"gone", sampleOffer⟩ = (sampleAB, []) :=
  signal_relay_miss sampleAB "a" ⟨"gone", sampleOffer⟩ (by decide) (by decide)

/-! ## Departure broadcast and kick -/

/-- Messages of a `disconnect` that empties the room: none. -/
theorem disconnect_out_last (s : State) (c : SocketId) (user : User) (room : Room)
    (hu : s.userMap c = some user) (hroom : s.rooms user.roomId = some room)
    (hz : setDelete room.users c = []) : (disconnect s c).2 = [] := by
  have hn : newHostOf { room with users := setDelete room.users c } c = none := by
    simp [newHostOf, hz]
  rw [hz] at hn
  unfold disconnect
  simp only [detach_rooms, detach_userMap, hu, hroom, afterLeave_users, hz, hn,
    List.length_nil, if_true]

/-- Messages of a `disconnect` of a member that is not the host, others remaining:
`user-left` to the Socket.IO room, and no `new-host`. -/
theorem disconnect_out_member (s : State) (c : SocketId) (user : User) (room : Room)
    (hu : s.userMap c = some user) (hroom : s.rooms user.roomId = some room)
    (hhost : room.host ≠ c) (hz : setDelete room.users c ≠ []) :
    (disconnect s c).2 = socketTo (detach s c) c user.roomId (Msg.userLeft c user.nickname) := by
  have hn : newHostOf { room with users := setDelete room.users c } c = none := by
    simp [newHostOf, hhost]
  have hlen : (setDelete room.users c).length ≠ 0 := fun h => hz (List.length_eq_zero.mp h)
  unfold disconnect
  simp only [detach_rooms, detach_userMap, hu, hroom, afterLeave_users, hn, hlen, if_false,
    List.nil_append]

/-- A kick request of the host: the target, if connected, receives `kicked` and its
`disconnect` handler runs at once. -/
theorem kickUser_host (s : State) (c : SocketId) (user : User) (room : Room)
    (t : SocketId) (hu : s.userMap c = some user) (hroom : s.rooms user.roomId = some room)
    (hhost : room.host = c) (ht : t ∈ s.sockets) :
    kickUser s c t =
      ((disconnect s t).1,
        (t, Msg.kicked "Вы были исключены из комнаты хостом" user.nickname)
          :: (disconnect s t).2) := by
  simp [kickUser, hu, hroom, hhost, kickTarget, ht]

/-- C11 fails on this input: socket `"g"` joins room `"A"`, where `"a"` is, and then room
`"B"`.  When `"g"` disconnects, only room `"B"` is cleaned: nothing is delivered to `"a"`,
and `"g"` stays in the member set of `"A"`.  When later `"c"` joins `"A"` and disconnects,
`user-left` reaches `"a"` only, although `"g"` is still a remaining member. -/
theorem departure_not_broadcast :
    members (run none empty sampleTwoRooms) "A" = ["a", "g"] ∧
    "a" ∈ (run none empty sampleTwoRooms).sockets ∧
    (step none (run none empty sampleTwoRooms) (Event.disconnect "g")).2 = [] ∧
    members (step none (run none empty sampleTwoRooms) (Event.disconnect "g")).1 "A"
      = ["a", "g"] ∧
    members (run none empty (sampleTwoRooms ++
        [Event.disconnect "g", Event.connection "c", Event.joinRoom "c" ⟨"A", "Cy", none⟩]))
      "A" = ["a", "g", "c"] ∧
    (step none (run none empty (sampleTwoRooms ++
        [Event.disconnect "g", Event.connection "c", Event.joinRoom "c" ⟨"A", "Cy", none⟩]))
      (Event.disconnect "c")).2 = [("a", Msg.userLeft "c" "Cy")] := by
  decide

/-- C13 fails on this input: socket `"g"` joins room `"A"`, whose host is `"a"`, and then
room `"B"`.  When `"a"` kicks `"g"`, the target receives `kicked` and is disconnected, but
its `disconnect` handler cleans room `"B"` only: `"g"` is still in the member set of `"A"`
afterwards, and `"a"` receives no `user-left`. -/
theorem kicked_member_stays :
    (run none empty sampleTwoRooms).rooms "A" = some ⟨["a", "g"], "a", false⟩ ∧
    "g" ∈ (run none empty sampleTwoRooms).sockets ∧
    (step none (run none empty sampleTwoRooms) (Event.kickUser "a" "g")).2
      = [("g", Msg.kicked "Вы были исключены из комнаты хостом" "Ann")] ∧
    "g" ∉ (step none (run none empty sampleTwoRooms) (Event.kickUser "a" "g")).1.sockets ∧
    (step none (run none empty sampleTwoRooms) (Event.kickUser "a" "g")).1.userMap "g" = none ∧
    (step none (run none empty sampleTwoRooms) (Event.kickUser "a" "g")).1.rooms "A"
      = some ⟨["a", "g"], "a", false⟩ := by
  decide

/-! ## Client: inbound candidates and answers -/

theorem clientRun_append (w : Client) (xs ys : List ClientEvent) :
    clientRun w (xs ++ ys) = clientRun (clientRun w xs) ys := by
  simp [clientRun, List.foldl_append]

theorem clientRun_cons (w : Client) (e : ClientEvent) (es : List ClientEvent) :
    clientRun w (e :: es) = clientRun (clientStep w e).1 es := rfl

/-- A candidate that arrives while the connection has no remote description changes
nothing: `addIceCandidate` is rejected and the `catch` block only logs. -/
theorem onSignal_candidate_early (w : Client) (x : SocketId) (i : Nat) (p : Peer)
    (c sdp : String) (hget : objGet w.peers x = some i) (hconn : w.conns[i]? = some p)
    (hrd : p.remoteDescription = none) :
    onSignal w x (candidateSignal c) sdp = (w, []) := by
  unfold onSignal
  simp [hget, hconn, candidateSignal, Peer.addIceCandidate, hrd]

/-- A candidate that arrives once the connection has a remote description is added. -/
theorem onSignal_candidate_late (w : Client) (x : SocketId) (i : Nat) (p : Peer)
    (c sdp : String) (d : Signal) (hget : objGet w.peers x = some i)
    (hconn : w.conns[i]? = some p) (hopen : p.signalingState ≠ SignalingState.closed)
    (hrd : p.remoteDescription = some d) (hc : c ≠ "") :
    onSignal w x (candidateSignal c) sdp =
      ({ w with conns := (w.conns.set i
            ({ p with remoteCandidates := p.remoteCandidates ++ [candidateSignal c] })) }, []) := by
  unfold onSignal
  simp [hget, hconn, candidateSignal, Peer.addIceCandidate, hrd, hopen, truthy, hc]

/-- An offer that reaches a connection in the `stable` state is applied and answered. -/
theorem onSignal_offer_stable (w : Client) (x : SocketId) (i : Nat) (p : Peer)
    (offer : Signal) (sdp : String) (hget : objGet w.peers x = some i)
    (hconn : w.conns[i]? = some p) (hst : p.signalingState = SignalingState.stable)
    (hoffer : offer.type = some "offer") :
    onSignal w x offer sdp =
      ({ w with conns := (w.conns.set i
            ({ p with signalingState := SignalingState.stable, remoteDescription := some offer })) },
        [⟨i, ⟨x, { type := some "answer", sdp := some sdp, candidate := none }⟩⟩]) := by
  unfold onSignal
  simp [hget, hconn, hoffer, Peer.setRemoteDescription, hst, Peer.createAnswer,
    Peer.setLocalDescription]

theorem run_candidates_early (x : SocketId) (sdp : String) (early : List String) :
    ∀ (w : Client) (i : Nat) (p : Peer), objGet w.peers x = some i → w.conns[i]? = some p →
      p.remoteDescription = none →
      clientRun w (early.map (fun c => ClientEvent.signal x (candidateSignal c) sdp)) = w := by
  induction early with
  | nil => intro w i p _ _ _; rfl
  | cons c cs ih =>
    intro w i p hget hconn hrd
    rw [List.map_cons, clientRun_cons]
    have hstep : clientStep w (ClientEvent.signal x (candidateSignal c) sdp) = (w, []) :=
      onSignal_candidate_early w x i p c sdp hget hconn hrd
    rw [hstep]
    exact ih w i p hget hconn hrd

theorem run_candidates_late (x : SocketId) (sdp : String) (late : List String) :
    ∀ (w : Client) (i : Nat) (p : Peer) (d : Signal), objGet w.peers x = some i →
      w.conns[i]? = some p → p.signalingState ≠ SignalingState.closed →
      p.remoteDescription = some d → (∀ c ∈ late, c ≠ "") →
      (clientRun w (late.map (fun c => ClientEvent.signal x (candidateSignal c) sdp))).conns[i]?
        = some { p with remoteCandidates := p.remoteCandidates ++ late.map candidateSignal } := by
  induction late with
  | nil =>
    intro w i p d _ hconn _ _ _
    simpa [clientRun] using hconn
  | cons c cs ih =>
    intro w i p d hget hconn hopen hrd hne
    rw [List.map_cons, clientRun_cons]
    have hstep : clientStep w (ClientEvent.signal x (candidateSignal c) sdp)
        = ({ w with conns := (w.conns.set i
              ({ p with remoteCandidates := p.remoteCandidates ++ [candidateSignal c] })) }, []) :=
      onSignal_candidate_late w x i p c sdp d hget hconn hopen hrd
        (hne c (List.mem_cons_self _ _))
    rw [hstep]
    have hlt : i < w.conns.length := by
      by_contra hge
      rw [List.getElem?_eq_none (not_lt.mp hge)] at hconn
      cases hconn
    have hnew : ({ w with conns := (w.conns.set i
          ({ p with remoteCandidates := p.remoteCandidates ++ [candidateSignal c] })) }
          : Client).conns[i]?
        = some { p with remoteCandidates := p.remoteCandidates ++ [candidateSignal c] } :=
      List.getElem?_set_self hlt
    have key := ih
      { w with conns := (w.conns.set i
          ({ p with remoteCandidates := p.remoteCandidates ++ [candidateSignal c] })) }
      i ({ p with remoteCandidates := p.remoteCandidates ++ [candidateSignal c] }) d
      hget hnew hopen hrd (fun c' hc' => hne c' (List.mem_cons_of_mem _ hc'))
    rw [key]
    simp [List.append_assoc]

/-- C18, as stated, fails: the candidate `"c1"` reaches a fresh connection before the
offer; after the offer and a second candidate `"c2"` have been handled, the connection has
the offer as remote description and `"c2"` as its only remote candidate: `"c1"` was
handed to `addIceCandidate` on arrival, rejected, and never applied. -/
theorem early_candidate_lost :
    (clientRun sampleResponder
        [ClientEvent.signal "x" (candidateSignal "c1") "",
         ClientEvent.signal "x" sampleOffer "v=0 answer",
         ClientEvent.signal "x" (candidateSignal "c2") ""]).conns
      = [{ remoteId := "x", isInitiator := false, signalingState := SignalingState.stable,
           remoteDescription := some sampleOffer,
           remoteCandidates := [candidateSignal "c2"] }] := by
  decide

/-- An answer is accepted by the browser exactly in the state `have-local-offer`. -/
theorem setRemoteDescription_answer (p : Peer) (d : Signal) (hans : d.type = some "answer") :
    p.setRemoteDescription d =
      if p.signalingState = SignalingState.haveLocalOffer then
        some { p with signalingState := SignalingState.stable, remoteDescription := some d }
      else none := by
  unfold Peer.setRemoteDescription
  rw [hans]
  simp only [reduceCtorEq, if_false, Option.some.injEq, String.reduceEq, if_true]
  split
  · next h => rw [if_pos h]
  · next h => rw [if_neg h]

/-- The two outcomes of an inbound answer: it is applied to the connection stored for
the sender, which had a local offer outstanding, or nothing changes at all. -/
theorem onSignal_answer_cases (w : Client) (sender : SocketId) (signal : Signal)
    (sdp : String) (hans : signal.type = some "answer") :
    (∃ i p, objGet w.peers sender = some i ∧ w.conns[i]? = some p ∧
        p.signalingState = SignalingState.haveLocalOffer ∧
        onSignal w sender signal sdp =
          ({ w with conns := (w.conns.set i
              ({ p with signalingState := SignalingState.stable
                        remoteDescription := some signal })) }, [])) ∨
    (onSignal w sender signal sdp = (w, []) ∧
      ∀ i p, objGet w.peers sender = some i → w.conns[i]? = some p →
        p.signalingState ≠ SignalingState.haveLocalOffer) := by
  have hno : ¬ (signal.type = some "offer") := by rw [hans]; decide
  cases hget : objGet w.peers sender with
  | none =>
    right
    refine ⟨?_, fun i p h => by cases h⟩
    unfold onSignal
    rw [hget]
  | some i =>
    cases hconn : w.conns[i]? with
    | none =>
      right
      refine ⟨?_, ?_⟩
      · unfold onSignal
        rw [hget]
        simp only [hconn]
      · intro i' p h hp
        cases h
        rw [hconn] at hp
        cases hp
    | some p =>
      by_cases hst : p.signalingState = SignalingState.haveLocalOffer
      · left
        refine ⟨i, p, rfl, hconn, hst, ?_⟩
        unfold onSignal
        rw [hget]
        simp only [hconn, if_neg hno, if_pos hans, setRemoteDescription_answer p signal hans,
          if_pos hst]
      · right
        refine ⟨?_, ?_⟩
        · unfold onSignal
          rw [hget]
          simp only [hconn, if_neg hno, if_pos hans, setRemoteDescription_answer p signal hans,
            if_neg hst]
        · intro i' p' h hp
          cases h
          rw [hconn] at hp
          cases hp
          exact hst

/-- C19 (stale answer): an inbound answer sends nothing, leaves `this.peers` as it is and
closes or removes no connection.  It becomes the remote description of the connection
stored for its sender exactly when that connection is in the state `have-local-offer` (a
local offer is outstanding), which then turns `stable`; in every other case, also when no
connection is stored for the sender, every connection is left exactly as it was: the
browser rejects the answer and the `catch` block only logs. -/
theorem stale_answer (w : Client) (sender : SocketId) (signal : Signal) (sdp : String)
    (hans : signal.type = some "answer") :
    (onSignal w sender signal sdp).2 = [] ∧
    (onSignal w sender signal sdp).1.peers = w.peers ∧
    (onSignal w sender signal sdp).1.conns.length = w.conns.length ∧
    ∀ (j : Nat) (q : Peer), w.conns[j]? = some q →
      (onSignal w sender signal sdp).1.conns[j]? =
        some (if objGet w.peers sender = some j
                  ∧ q.signalingState = SignalingState.haveLocalOffer then
                { q with signalingState := SignalingState.stable
                         remoteDescription := some signal }
              else q) := by
  rcases onSignal_answer_cases w sender signal sdp hans with
    ⟨i, p, hget, hconn, hst, heq⟩ | ⟨heq, hno⟩
  · rw [heq]
    have hlt : i < w.conns.length := by
      by_contra hge
      rw [List.getElem?_eq_none (not_lt.mp hge)] at hconn
      cases hconn
    refine ⟨rfl, rfl, List.length_set _ _ _, ?_⟩
    intro j q hq
    show (w.conns.set i _)[j]? = _
    by_cases hji : i = j
    · subst hji
      rw [hconn] at hq
      cases hq
      rw [List.getElem?_set_self hlt, if_pos ⟨hget, hst⟩]
    · rw [List.getElem?_set_ne hji, hq, if_neg]
      rintro ⟨h1, _⟩
      rw [hget] at h1
      cases h1
      exact hji rfl
  · rw [heq]
    refine ⟨rfl, rfl, rfl, ?_⟩
    intro j q hq
    rw [hq, if_neg]
    rintro ⟨h1, h2⟩
    exact hno j q h1 hq h2

theorem stale_answer_witness :
    (onSignal sampleResponder "x" sampleAnswer "").2 = [] ∧
    (onSignal sampleResponder "x" sampleAnswer "").1.peers = sampleResponder.peers ∧
    (onSignal sampleResponder "x" sampleAnswer "").1.conns[0]?
      = some ⟨"x", false, SignalingState.stable, none, []⟩ ∧
    (onSignal sampleOfferer "x" sampleAnswer "").1.conns[0]?
      = some ⟨"x", true, SignalingState.stable, some sampleAnswer, []⟩ :=
  ⟨(stale_answer sampleResponder "x" sampleAnswer "" rfl).1,
    (stale_answer sampleResponder "x" sampleAnswer "" rfl).2.1,
    by decide, by decide⟩

/-! ## Client: who sends offers -/

theorem keepsRoles_refl (cs : List Peer) : KeepsRoles cs cs :=
  fun _ p h => ⟨p, h, rfl, rfl⟩

theorem keepsRoles_trans {a b c : List Peer} (h1 : KeepsRoles a b) (h2 : KeepsRoles b c) :
    KeepsRoles a c := by
  intro i p hp
  obtain ⟨p1, hp1, hi1, hr1⟩ := h1 i p hp
  obtain ⟨p2, hp2, hi2, hr2⟩ := h2 i p1 hp1
  exact ⟨p2, hp2, hi2.trans hi1, hr2.trans hr1⟩

theorem keepsRoles_set (cs : List Peer) (i : Nat) (p p1 : Peer) (hp : cs[i]? = some p)
    (hi : p1.isInitiator = p.isInitiator) (hr : p1.remoteId = p.remoteId) :
    KeepsRoles cs (cs.set i p1) := by
  intro j q hq
  have hlt : i < cs.length := by
    by_contra hge
    rw [List.getElem?_eq_none (not_lt.mp hge)] at hp
    cases hp
  by_cases hji : i = j
  · subst hji
    rw [hp] at hq
    cases hq
    exact ⟨p1, List.getElem?_set_self hlt, hi, hr⟩
  · exact ⟨q, by rw [List.getElem?_set_ne hji, hq], rfl, rfl⟩

theorem keepsRoles_append (cs extra : List Peer) : KeepsRoles cs (cs ++ extra) := by
  intro i p hp
  have hlt : i < cs.length := by
    by_contra hge
    rw [List.getElem?_eq_none (not_lt.mp hge)] at hp
    cases hp
  exact ⟨p, by rw [List.getElem?_append_left hlt, hp], rfl, rfl⟩

theorem keepsRoles_updateConn_close (cs : List Peer) (i : Nat) :
    KeepsRoles cs (updateConn cs i Peer.close) := by
  unfold updateConn
  cases hp : cs[i]? with
  | none => exact keepsRoles_refl cs
  | some p => exact keepsRoles_set cs i p p.close hp rfl rfl

theorem setRemoteDescription_role (p p1 : Peer) (d : Signal)
    (h : p.setRemoteDescription d = some p1) :
    p1.isInitiator = p.isInitiator ∧ p1.remoteId = p.remoteId := by
  unfold Peer.setRemoteDescription at h
  split at h
  · split at h
    · cases h
    · cases h; exact ⟨rfl, rfl⟩
  · split at h
    · split at h
      · cases h; exact ⟨rfl, rfl⟩
      · cases h
    · cases h

theorem setLocalDescription_role (p p1 : Peer) (d : Signal)
    (h : p.setLocalDescription d = some p1) :
    p1.isInitiator = p.isInitiator ∧ p1.remoteId = p.remoteId := by
  unfold Peer.setLocalDescription at h
  split at h
  · split at h
    · cases h; exact ⟨rfl, rfl⟩
    · cases h; exact ⟨rfl, rfl⟩
    · cases h
  · split at h
    · split at h
      · cases h; exact ⟨rfl, rfl⟩
      · cases h
    · cases h

theorem addIceCandidate_role (p p1 : Peer) (c : Signal)
    (h : p.addIceCandidate c = some p1) :
    p1.isInitiator = p.isInitiator ∧ p1.remoteId = p.remoteId := by
  unfold Peer.addIceCandidate at h
  split at h
  · cases h
  · split at h
    · cases h
    · cases h; exact ⟨rfl, rfl⟩

theorem createAnswer_type (p : Peer) (sdp : String) (a : Signal)
    (h : p.createAnswer sdp = some a) : a.type = some "answer" := by
  unfold Peer.createAnswer at h
  split at h
  · cases h; rfl
  · cases h

theorem removePeer_keepsRoles (w : Client) (x : SocketId) :
    KeepsRoles w.conns (removePeer w x).conns := by
  unfold removePeer
  cases objGet w.peers x with
  | none => exact keepsRoles_refl _
  | some i => exact keepsRoles_updateConn_close w.conns i

theorem onExistingUsers_keepsRoles (users : List SocketId) :
    ∀ w : Client, KeepsRoles w.conns (onExistingUsers w users).conns := by
  induction users with
  | nil => intro w; exact keepsRoles_refl _
  | cons u us ih =>
    intro w
    exact keepsRoles_trans (keepsRoles_append w.conns _) (ih (createPeerConnection w u true))

theorem cleanup_keepsRoles (w : Client) : KeepsRoles w.conns (cleanup w).conns := by
  have gen : ∀ (entries : List (SocketId × Nat)) (cs : List Peer),
      KeepsRoles cs (entries.foldl (fun cs e => updateConn cs e.2 Peer.close) cs) := by
    intro entries
    induction entries with
    | nil => intro cs; exact keepsRoles_refl cs
    | cons e es ih =>
      intro cs
      exact keepsRoles_trans (keepsRoles_updateConn_close cs e.2) (ih _)
  exact gen w.peers w.conns

/-- What an inbound signal can do: nothing, or replace the connection stored for the
sender by one with the same role; it sends something only for an offer, and then an
answer to the sender. -/
theorem onSignal_cases (w : Client) (sender : SocketId) (signal : Signal) (sdp : String) :
    onSignal w sender signal sdp = (w, []) ∨
    ∃ i p p1, objGet w.peers sender = some i ∧ w.conns[i]? = some p ∧
      p1.isInitiator = p.isInitiator ∧ p1.remoteId = p.remoteId ∧
      (onSignal w sender signal sdp = ({ w with conns := w.conns.set i p1 }, []) ∨
        ∃ answer, signal.type = some "offer" ∧ answer.type = some "answer" ∧
          onSignal w sender signal sdp
            = ({ w with conns := w.conns.set i p1 }, [⟨i, ⟨sender, answer⟩⟩])) := by
  cases hget : objGet w.peers sender with
  | none => left; unfold onSignal; rw [hget]
  | some i =>
    cases hconn : w.conns[i]? with
    | none => left; unfold onSignal; rw [hget]; simp only [hconn]
    | some p =>
      by_cases hoff : signal.type = some "offer"
      · cases hsrd : p.setRemoteDescription signal with
        | none => left; unfold onSignal; rw [hget]; simp only [hconn, if_pos hoff, hsrd]
        | some p1 =>
          have hr1 := setRemoteDescription_role p p1 signal hsrd
          cases hca : p1.createAnswer sdp with
          | none =>
            right
            refine ⟨i, p, p1, rfl, hconn, hr1.1, hr1.2, Or.inl ?_⟩
            unfold onSignal; rw [hget]; simp only [hconn, if_pos hoff, hsrd, hca]
          | some answer =>
            cases hsld : p1.setLocalDescription answer with
            | none =>
              right
              refine ⟨i, p, p1, rfl, hconn, hr1.1, hr1.2, Or.inl ?_⟩
              unfold onSignal; rw [hget]; simp only [hconn, if_pos hoff, hsrd, hca, hsld]
            | some p2 =>
              have hr2 := setLocalDescription_role p1 p2 answer hsld
              right
              refine ⟨i, p, p2, rfl, hconn, hr2.1.trans hr1.1, hr2.2.trans hr1.2,
                Or.inr ⟨answer, hoff, createAnswer_type p1 sdp answer hca, ?_⟩⟩
              unfold onSignal; rw [hget]; simp only [hconn, if_pos hoff, hsrd, hca, hsld]
      · by_cases hans : signal.type = some "answer"
        · cases hsrd : p.setRemoteDescription signal with
          | none =>
            left; unfold onSignal; rw [hget]
            simp only [hconn, if_neg hoff, if_pos hans, hsrd]
          | some p1 =>
            have hr1 := setRemoteDescription_role p p1 signal hsrd
            right
            refine ⟨i, p, p1, rfl, hconn, hr1.1, hr1.2, Or.inl ?_⟩
            unfold onSignal; rw [hget]
            simp only [hconn, if_neg hoff, if_pos hans, hsrd]
        · by_cases hcand : truthy signal.candidate = true
          · cases hadd : p.addIceCandidate signal with
            | none =>
              left; unfold onSignal; rw [hget]
              simp only [hconn, if_neg hoff, if_neg hans, if_pos hcand, hadd]
            | some p1 =>
              have hr1 := addIceCandidate_role p p1 signal hadd
              right
              refine ⟨i, p, p1, rfl, hconn, hr1.1, hr1.2, Or.inl ?_⟩
              unfold onSignal; rw [hget]
              simp only [hconn, if_neg hoff, if_neg hans, if_pos hcand, hadd]
          · left; unfold onSignal; rw [hget]
            simp only [hconn, if_neg hoff, if_neg hans, if_neg hcand]

theorem onnegotiationneeded_cases (w : Client) (i : Nat) (sdp : String) :
    onnegotiationneeded w i sdp = (w, []) ∨
    ∃ p p1 offer, w.conns[i]? = some p ∧ p.isInitiator = true ∧
      p1.isInitiator = p.isInitiator ∧ p1.remoteId = p.remoteId ∧
      onnegotiationneeded w i sdp
        = ({ w with conns := w.conns.set i p1 }, [⟨i, ⟨p.remoteId, offer⟩⟩]) := by
  cases hconn : w.conns[i]? with
  | none => left; unfold onnegotiationneeded; simp only [hconn]
  | some p =>
    by_cases hinit : p.isInitiator = true
    · cases hco : p.createOffer sdp with
      | none => left; unfold onnegotiationneeded; simp only [hconn, if_pos hinit, hco]
      | some offer =>
        cases hsld : p.setLocalDescription offer with
        | none =>
          left; unfold onnegotiationneeded; simp only [hconn, if_pos hinit, hco, hsld]
        | some p1 =>
          have hr := setLocalDescription_role p p1 offer hsld
          right
          refine ⟨p, p1, offer, rfl, hinit, hr.1, hr.2, ?_⟩
          unfold onnegotiationneeded
          simp only [hconn, if_pos hinit, hco, hsld]
    · left; unfold onnegotiationneeded; simp only [hconn, if_neg hinit]

theorem onicecandidate_state (w : Client) (i : Nat) (candidate : Option String) :
    (onicecandidate w i candidate).1 = w := by
  unfold onicecandidate
  split
  · rfl
  · split <;> rfl

/-- No event changes the remote id or the `isInitiator` of a connection that exists. -/
theorem clientStep_keepsRoles (w : Client) (ev : ClientEvent) :
    KeepsRoles w.conns (clientStep w ev).1.conns := by
  cases ev with
  | existingUsers users => exact onExistingUsers_keepsRoles users w
  | userJoined socketId => exact keepsRoles_append w.conns _
  | userLeft socketId => exact removePeer_keepsRoles w socketId
  | signal sender signal sdp =>
    show KeepsRoles w.conns (onSignal w sender signal sdp).1.conns
    rcases onSignal_cases w sender signal sdp with h | ⟨i, p, p1, _, hconn, hi, hr, h | ⟨_, _, _, h⟩⟩
    · rw [h]; exact keepsRoles_refl _
    · rw [h]; exact keepsRoles_set w.conns i p p1 hconn hi hr
    · rw [h]; exact keepsRoles_set w.conns i p p1 hconn hi hr
  | negotiationNeeded i sdp =>
    show KeepsRoles w.conns (onnegotiationneeded w i sdp).1.conns
    rcases onnegotiationneeded_cases w i sdp with h | ⟨p, p1, offer, hconn, _, hi, hr, h⟩
    · rw [h]; exact keepsRoles_refl _
    · rw [h]; exact keepsRoles_set w.conns i p p1 hconn hi hr
  | iceCandidate i candidate =>
    show KeepsRoles w.conns (onicecandidate w i candidate).1.conns
    rw [onicecandidate_state]
    exact keepsRoles_refl _
  | connectionStateChange i connectionState =>
    show KeepsRoles w.conns (onconnectionstatechange w i connectionState).1.conns
    unfold onconnectionstatechange
    split
    · exact keepsRoles_refl _
    · split
      · exact removePeer_keepsRoles w _
      · exact keepsRoles_refl _
  | cleanup => exact cleanup_keepsRoles w

/-- Every signal a client sends comes from an existing connection and is of one of three
kinds: an offer sent by the `negotiationneeded` callback of an initiator, an answer sent
in reply to an inbound offer, or a local candidate. -/
theorem clientStep_emit (w : Client) (ev : ClientEvent) (e : Emit)
    (he : e ∈ (clientStep w ev).2) :
    ∃ p, w.conns[e.conn]? = some p ∧
      ((p.isInitiator = true ∧ ∃ sdp, ev = ClientEvent.negotiationNeeded e.conn sdp) ∨
       (∃ sender sig sdp, ev = ClientEvent.signal sender sig sdp ∧ sig.type = some "offer" ∧
          e.data.signal.type = some "answer" ∧ e.data.toId = sender) ∨
       (∃ c, ev = ClientEvent.iceCandidate e.conn (some c) ∧
          e.data.signal = candidateSignal c ∧ e.data.toId = p.remoteId)) := by
  cases ev with
  | existingUsers users => simp [clientStep] at he
  | userJoined socketId => simp [clientStep] at he
  | userLeft socketId => simp [clientStep] at he
  | cleanup => simp [clientStep] at he
  | signal sender signal sdp =>
    have he' : e ∈ (onSignal w sender signal sdp).2 := he
    rcases onSignal_cases w sender signal sdp with
      h | ⟨i, p, p1, _, hconn, _, _, h | ⟨answer, hoff, hans, h⟩⟩
    · rw [h] at he'; simp at he'
    · rw [h] at he'; simp at he'
    · rw [h] at he'
      rw [List.mem_singleton] at he'
      subst he'
      exact ⟨p, hconn, Or.inr (Or.inl ⟨sender, signal, sdp, rfl, hoff, hans, rfl⟩)⟩
  | negotiationNeeded i sdp =>
    have he' : e ∈ (onnegotiationneeded w i sdp).2 := he
    rcases onnegotiationneeded_cases w i sdp with h | ⟨p, p1, offer, hconn, hinit, _, _, h⟩
    · rw [h] at he'; simp at he'
    · rw [h] at he'
      rw [List.mem_singleton] at he'
      subst he'
      exact ⟨p, hconn, Or.inl ⟨hinit, sdp, rfl⟩⟩
  | iceCandidate i candidate =>
    have he' : e ∈ (onicecandidate w i candidate).2 := he
    unfold onicecandidate at he'
    cases hconn : w.conns[i]? with
    | none => simp [hconn] at he'
    | some p =>
      cases candidate with
      | none => simp [hconn] at he'
      | some c =>
        simp only [hconn, List.mem_singleton] at he'
        subst he'
        exact ⟨p, hconn, Or.inr (Or.inr ⟨c, rfl, rfl, rfl⟩)⟩
  | connectionStateChange i connectionState =>
    have he' : e ∈ (onconnectionstatechange w i connectionState).2 := he
    unfold onconnectionstatechange at he'
    cases hconn : w.conns[i]? with
    | none => simp [hconn] at he'
    | some p =>
      simp only [hconn] at he'
      split at he' <;> simp at he'

/-- The connection that `createPeerConnection` makes. -/
theorem createPeerConnection_conn (w : Client) (socketId : SocketId) (isInitiator : Bool) :
    (createPeerConnection w socketId isInitiator).conns[w.conns.length]?
      = some ⟨socketId, isInitiator, SignalingState.stable, none, []⟩ := by
  simp [createPeerConnection]

/-- C20 (glare freedom): a connection created with `isInitiator = false` never sends an
offer.  Under every sequence of client events (server messages, inbound signals, and the
`negotiationneeded`, `icecandidate` and `connectionstatechange` callbacks of any
connection), every signal such a connection sends is either an answer, sent to the sender
of an inbound offer while that offer is handled, or a local candidate handed over by its
own `icecandidate` callback. -/
theorem responder_never_offers (events : List ClientEvent) (w : Client) (i : Nat) (p : Peer)
    (hp : w.conns[i]? = some p) (hresp : p.isInitiator = false)
    (t : ClientEvent × Emit) (ht : t ∈ clientTrace w events) (hi : t.2.conn = i) :
    t.2.data.signal.type ≠ some "offer" ∧
    ((∃ sender sig sdp, t.1 = ClientEvent.signal sender sig sdp ∧ sig.type = some "offer" ∧
        t.2.data.signal.type = some "answer" ∧ t.2.data.toId = sender) ∨
     (∃ c, t.1 = ClientEvent.iceCandidate i (some c) ∧
        t.2.data.signal = candidateSignal c)) := by
  induction events generalizing w p with
  | nil => simp [clientTrace] at ht
  | cons ev es ih =>
    simp only [clientTrace, List.mem_append, List.mem_map] at ht
    rcases ht with ⟨e, he, rfl⟩ | ht
    · obtain ⟨p0, hp0, hkind⟩ := clientStep_emit w ev e he
      simp only at hi
      rw [hi, hp] at hp0
      cases hp0
      rcases hkind with ⟨hinit, _⟩ | ⟨sender, sig, sdp, hev, hoff, hans, hto⟩ | ⟨c, hev, hsig, _⟩
      · rw [hresp] at hinit
        cases hinit
      · refine ⟨?_, Or.inl ⟨sender, sig, sdp, hev, hoff, hans, hto⟩⟩
        show e.data.signal.type ≠ some "offer"
        rw [hans]
        decide
      · refine ⟨?_, Or.inr ⟨c, hi ▸ hev, hsig⟩⟩
        show e.data.signal.type ≠ some "offer"
        rw [hsig]
        simp [candidateSignal]
    · obtain ⟨p', hp', hi', _⟩ := clientStep_keepsRoles w ev i p hp
      exact ih (clientStep w ev).1 p' hp' (hi'.trans hresp) ht

theorem responder_never_offers_witness :
    sampleResponder.conns[0]? = some ⟨"x", false, SignalingState.stable, none, []⟩ ∧
    (⟨some "answer", some "v=0 answer", none⟩ : Signal).type ≠ some "offer" :=
  ⟨by decide,
    (responder_never_offers
      [ClientEvent.signal "x" sampleOffer "v=0 answer", ClientEvent.negotiationNeeded 0 "v=0",
       ClientEvent.iceCandidate 0 (some "candidate:1")]
      sampleResponder 0 ⟨"x", false, SignalingState.stable, none, []⟩ (by decide) rfl
      (ClientEvent.signal "x" sampleOffer "v=0 answer",
        ⟨0, ⟨"x", ⟨some "answer", some "v=0 answer", none⟩⟩⟩)
      (by decide) rfl).1⟩


/-! ## End-to-end scenario -/

/-- C23 (end-to-end scenario, `MAX_PARTICIPANTS = 2`, room `"ABC12"`): Alice joins and is
host of a room with one member, her `room-info` saying `isHost = true`; Bob joins, his
`room-info` says `isHost = false` and Alice receives `user-joined` for Bob; Carol's join
is answered with `join-error` of type `room-full` and the room still holds exactly Alice
and Bob; Alice disconnects, Bob receives `new-host` with `hostId` Bob (and `user-left`),
the room has one member and host Bob; Bob disconnects and the room is gone from the
registry. -/
theorem end_to_end_scenario :
    outputs (some 2) empty scenario =
      [[],
       [("alice", Msg.existingUsers []),
        ("alice", Msg.roomInfo "ABC12" "alice" true false [⟨"alice", "Alice", "Europe/Riga"⟩])],
       [],
       [("bob", Msg.existingUsers ["alice"]),
        ("alice", Msg.userJoined "bob" "Bob" "Asia/Tokyo"),
        ("bob", Msg.roomInfo "ABC12" "alice" false false
          [⟨"alice", "Alice", "Europe/Riga"⟩, ⟨"bob", "Bob", "Asia/Tokyo"⟩])],
       [],
       [("carol", Msg.joinError JoinErrorType.roomFull (roomFullMessage 2))],
       [("bob", Msg.newHost "bob" "Bob"), ("bob", Msg.userLeft "alice" "Alice")],
       []] ∧
    (run (some 2) empty (scenario.take 2)).rooms "ABC12" = some ⟨["alice"], "alice", false⟩ ∧
    (run (some 2) empty (scenario.take 4)).rooms "ABC12"
      = some ⟨["alice", "bob"], "alice", false⟩ ∧
    (run (some 2) empty (scenario.take 6)).rooms "ABC12"
      = some ⟨["alice", "bob"], "alice", false⟩ ∧
    (run (some 2) empty (scenario.take 6)).userMap "carol" = none ∧
    (run (some 2) empty (scenario.take 7)).rooms "ABC12" = some ⟨["bob"], "bob", false⟩ ∧
    (run (some 2) empty scenario).rooms "ABC12" = none := by
  decide


/-! ## Ghost members, repeated joins and foreign kicks -/

/-- C28 fails on this input: socket `"a"` joins room `"A"`, then room `"B"`, and
disconnects.  The `disconnect` handler cleans room `"B"` only: `"a"` is no longer
connected and has no user-map entry, yet it is still a member of room `"A"` and its host;
a socket `"b"` that joins `"A"` afterwards is told that the host is `"a"`. -/
theorem ghost_member_after_disconnect :
    "a" ∉ sampleGhost.sockets ∧ sampleGhost.userMap "a" = none ∧
    sampleGhost.rooms "B" = none ∧
    sampleGhost.rooms "A" = some ⟨["a"], "a", false⟩ ∧
    (joinRoom none sampleGhost "b" ⟨"A", "Bob", none⟩).2 =
      [("b", Msg.existingUsers ["a"]),
       ("b", Msg.roomInfo "A" "a" false false
         [⟨"a", "Unknown", "UTC"⟩, ⟨"b", "Bob", "UTC"⟩])] := by
  decide

/-- C27 fails on this input: `"a"` and `"b"` are the members of room `"A"` and `"a"` sends
`join-room` for `"A"` again.  The snapshot is taken before `room.users.add`, so the
`existing-users` list sent to `"a"` contains `"a"` itself, and `"b"`, which got `"a"` in
its own snapshot, receives `user-joined` for `"a"`. -/
theorem rejoin_snapshot_names_joiner :
    members sampleAB "A" = ["a", "b"] ∧
    (joinRoom none sampleAB "a" ⟨"A", "Ann", none⟩).2 =
      [("a", Msg.existingUsers ["a", "b"]),
       ("b", Msg.userJoined "a" "Ann" "UTC"),
       ("a", Msg.roomInfo "A" "a" true false
         [⟨"a", "Ann", "UTC"⟩, ⟨"b", "Bob", "UTC"⟩])] ∧
    (onExistingUsers emptyClient ["a", "b"]).peers = [("a", 0), ("b", 1)] := by
  decide

/-- C26 fails on this input: `"a"` is the host of room `"A"`, and `"c"` is the host of
room `"B"`, where `"d"` is too.  A kick by `"a"` naming `"c"` is carried out, by
`kick-user` and by `admin-action` alike: `"c"` receives `kicked` and is disconnected, and
room `"B"` loses its member `"c"` and gets the new host `"d"`. -/
theorem kick_reaches_other_room :
    sampleTwoHosts.rooms "A" = some ⟨["a"], "a", false⟩ ∧
    sampleTwoHosts.rooms "B" = some ⟨["c", "d"], "c", false⟩ ∧
    "c" ∈ sampleTwoHosts.sockets ∧
    (kickUser sampleTwoHosts "a" "c").2 =
      [("c", Msg.kicked "Вы были исключены из комнаты хостом" "Ann"),
       ("d", Msg.newHost "d" "Dee"), ("d", Msg.userLeft "c" "Cy")] ∧
    "c" ∉ (kickUser sampleTwoHosts "a" "c").1.sockets ∧
    (kickUser sampleTwoHosts "a" "c").1.rooms "B" = some ⟨["d"], "d", false⟩ ∧
    (adminAction sampleTwoHosts "a" ⟨AdminKind.kick, "c", none, false⟩).2 =
      [("c", Msg.kicked "Вы были исключены из комнаты администратором" "Ann"),
       ("d", Msg.newHost "d" "Dee"), ("d", Msg.userLeft "c" "Cy")] ∧
    (adminAction sampleTwoHosts "a" ⟨AdminKind.kick, "c", none, false⟩).1.rooms "B"
      = some ⟨["d"], "d", false⟩ := by
  decide


/-! ## Client: removing a peer -/

theorem objGet_cons (e : String × Nat) (rest : List (String × Nat)) (k : String) :
    objGet (e :: rest) k = if e.1 = k then some e.2 else objGet rest k := rfl

theorem objDelete_cons (e : String × Nat) (rest : List (String × Nat)) (k : String) :
    objDelete (e :: rest) k = if e.1 = k then objDelete rest k else e :: objDelete rest k := by
  by_cases h : e.1 = k <;> simp [objDelete, List.filter_cons, h]

theorem objGet_objDelete_same (o : List (String × Nat)) (k : String) :
    objGet (objDelete o k) k = none := by
  induction o with
  | nil => rfl
  | cons e rest ih =>
    rw [objDelete_cons]
    by_cases h : e.1 = k
    · rw [if_pos h]; exact ih
    · rw [if_neg h, objGet_cons, if_neg h]; exact ih

theorem objGet_objDelete_other (o : List (String × Nat)) (k y : String) (hy : y ≠ k) :
    objGet (objDelete o k) y = objGet o y := by
  induction o with
  | nil => rfl
  | cons e rest ih =>
    rw [objDelete_cons, objGet_cons]
    by_cases h : e.1 = k
    · have hne : ¬ e.1 = y := fun hxy => hy (hxy.symm.trans h)
      rw [if_pos h, if_neg hne]; exact ih
    · rw [if_neg h, objGet_cons]
      by_cases h2 : e.1 = y
      · rw [if_pos h2, if_pos h2]
      · rw [if_neg h2, if_neg h2]; exact ih

theorem objDelete_of_objGet_none (o : List (String × Nat)) (k : String)
    (h : objGet o k = none) : objDelete o k = o := by
  induction o with
  | nil => rfl
  | cons e rest ih =>
    rw [objGet_cons] at h
    by_cases hk : e.1 = k
    · rw [if_pos hk] at h; exact Option.noConfusion h
    · rw [if_neg hk] at h
      rw [objDelete_cons, if_neg hk, ih h]

/-- The `peers` object after `removePeer`: the entry of the id is deleted. -/
theorem removePeer_peers (w : Client) (x : SocketId) :
    (removePeer w x).peers = objDelete w.peers x := by
  unfold removePeer
  cases h : objGet w.peers x with
  | none => exact (objDelete_of_objGet_none w.peers x h).symm
  | some i => rfl

theorem updateConn_getElem_self (cs : List Peer) (i : Nat) (p : Peer) (f : Peer → Peer)
    (hp : cs[i]? = some p) : (updateConn cs i f)[i]? = some (f p) := by
  have hlt : i < cs.length := by
    by_contra hge
    rw [List.getElem?_eq_none (Nat.le_of_not_lt hge)] at hp
    exact Option.noConfusion hp
  simp [updateConn, hp, List.getElem?_set_self, hlt]

theorem updateConn_getElem_other (cs : List Peer) (i j : Nat) (f : Peer → Peer)
    (hj : j ≠ i) : (updateConn cs i f)[j]? = cs[j]? := by
  unfold updateConn
  cases hp : cs[i]? with
  | none => rfl
  | some p => simp [List.getElem?_set_ne (Ne.symm hj)]

/-- C24 (peer close is idempotent): `removePeer(id)` deletes the entry of `id` from the
peers map and leaves the entry of every other id as it was; when an entry was stored, the
connection it names is closed and no other connection changes; when none was stored,
nothing changes; a second `removePeer(id)` gives the state the first one gave (same peers
map, nothing further closed); and the `user-left` handler is exactly `removePeer`, sending
nothing. -/
theorem remove_peer_idempotent (w : Client) (x : SocketId) :
    (removePeer w x).peers = objDelete w.peers x ∧
    objGet (removePeer w x).peers x = none ∧
    (∀ y, y ≠ x → objGet (removePeer w x).peers y = objGet w.peers y) ∧
    (∀ i, objGet w.peers x = some i →
      (∀ p, w.conns[i]? = some p → (removePeer w x).conns[i]? = some p.close) ∧
      (∀ j, j ≠ i → (removePeer w x).conns[j]? = w.conns[j]?)) ∧
    (objGet w.peers x = none → removePeer w x = w) ∧
    removePeer (removePeer w x) x = removePeer w x ∧
    clientStep w (ClientEvent.userLeft x) = (removePeer w x, []) := by
  have hpeers := removePeer_peers w x
  have hgone : objGet (removePeer w x).peers x = none := by
    rw [hpeers]; exact objGet_objDelete_same w.peers x
  refine ⟨hpeers, hgone, ?_, ?_, ?_, ?_, rfl⟩
  · intro y hy
    rw [hpeers]; exact objGet_objDelete_other w.peers x y hy
  · intro i hi
    have hc : (removePeer w x).conns = updateConn w.conns i Peer.close := by
      simp [removePeer, hi]
    refine ⟨fun p hp => ?_, fun j hj => ?_⟩
    · rw [hc]; exact updateConn_getElem_self w.conns i p Peer.close hp
    · rw [hc]; exact updateConn_getElem_other w.conns i j Peer.close hj
  · intro hnone
    simp [removePeer, hnone]
  · generalize removePeer w x = w1 at hgone
    simp [removePeer, hgone]

theorem remove_peer_idempotent_witness :
    (removePeer sampleOfferer "x").peers = [] ∧
    (removePeer sampleOfferer "x").conns =
      [⟨"x", true, SignalingState.closed, none, []⟩] ∧
    removePeer (removePeer sampleOfferer "x") "x" = removePeer sampleOfferer "x" :=
  ⟨(remove_peer_idempotent sampleOfferer "x").1, by decide,
    (remove_peer_idempotent sampleOfferer "x").2.2.2.2.2.1⟩

/-! ## Client: connections that are replaced -/

/-- C30 fails on this input: two `user-joined` messages for `"x"` (the server sends one
for every admitted `join-room`, a repeated one included) or two `existing-users`
snapshots that name `"x"` (a re-join after a reconnect).  `createPeerConnection`
overwrites `this.peers["x"]` without closing the connection stored there: the first
connection is in the peers map no more and is not closed, and `cleanup` afterwards closes
the second connection only. -/
theorem replaced_connection_not_closed :
    clientRun emptyClient [ClientEvent.userJoined "x", ClientEvent.userJoined "x"] =
      { conns := [⟨"x", false, SignalingState.stable, none, []⟩,
                  ⟨"x", false, SignalingState.stable, none, []⟩],
        peers := [("x", 1)] } ∧
    clientRun emptyClient
        [ClientEvent.existingUsers ["x"], ClientEvent.existingUsers ["x"],
         ClientEvent.cleanup] =
      { conns := [⟨"x", true, SignalingState.stable, none, []⟩,
                  ⟨"x", true, SignalingState.closed, none, []⟩],
        peers := [] } := by
  decide

/-! ## Client: room lock toggle -/

/-- C25 fails on this input: `"a"` is the host of the unlocked room `"A"` and invokes
`toggleRoomLock` twice, each request being acknowledged by `room-status`.  The field
`roomLocked` is never assigned, so `!this.roomLocked` is `true` both times: the second
request asks for `locked = true` again and the room stays locked. -/
theorem toggle_always_locks :
    sampleAB.rooms "A" = some ⟨["a", "b"], "a", false⟩ ∧
    sampleHostApp.isHost = true ∧
    toggleRoomLock sampleHostApp = [⟨AdminKind.roomLock, "", none, true⟩] ∧
    (adminAction sampleAB "a" ⟨AdminKind.roomLock, "", none, true⟩).2 =
      [("a", Msg.roomStatus true "Ann"), ("b", Msg.roomStatus true "Ann")] ∧
    sampleLocked.rooms "A" = some ⟨["a", "b"], "a", true⟩ ∧
    toggleRoomLock (onRoomStatus sampleHostApp true "Ann")
      = [⟨AdminKind.roomLock, "", none, true⟩] ∧
    (adminAction sampleLocked "a" ⟨AdminKind.roomLock, "", none, true⟩).1.rooms "A"
      = some ⟨["a", "b"], "a", true⟩ ∧
    toggleRoomLock { sampleHostApp with isHost := false } = [] := by
  decide


/-! ## Client: reconnection -/

theorem objSet_cons (e : String × Nat) (rest : List (String × Nat)) (k : String) (v : Nat) :
    objSet (e :: rest) k v = if e.1 = k then (k, v) :: rest else e :: objSet rest k v := rfl

theorem objGet_objSet_same (o : List (String × Nat)) (k : String) (v : Nat) :
    objGet (objSet o k v) k = some v := by
  induction o with
  | nil => simp [objSet, objGet]
  | cons e rest ih =>
    rw [objSet_cons]
    by_cases h : e.1 = k
    · rw [if_pos h, objGet_cons, if_pos rfl]
    · rw [if_neg h, objGet_cons, if_neg h]; exact ih

theorem objGet_objSet_other (o : List (String × Nat)) (k y : String) (v : Nat) (hy : y ≠ k) :
    objGet (objSet o k v) y = objGet o y := by
  induction o with
  | nil => simp [objSet, objGet, Ne.symm hy]
  | cons e rest ih =>
    rw [objSet_cons, objGet_cons]
    by_cases h : e.1 = k
    · have hne : ¬ e.1 = y := fun hxy => hy (hxy.symm.trans h)
      rw [if_pos h, if_neg hne, objGet_cons, if_neg (Ne.symm hy)]
    · rw [if_neg h, objGet_cons]
      by_cases h2 : e.1 = y
      · rw [if_pos h2, if_pos h2]
      · rw [if_neg h2, if_neg h2]; exact ih

theorem onExistingUsers_cons (w : Client) (u : SocketId) (us : List SocketId) :
    onExistingUsers w (u :: us) = onExistingUsers (createPeerConnection w u true) us := rfl

/-- The connections after an `existing-users` snapshot: the earlier ones, untouched, then
one new initiator connection for each element of the snapshot. -/
theorem onExistingUsers_conns (users : List SocketId) :
    ∀ w : Client, (onExistingUsers w users).conns =
      w.conns ++ users.map (fun x => ⟨x, true, SignalingState.stable, none, []⟩) := by
  induction users with
  | nil => intro w; simp [onExistingUsers]
  | cons u us ih =>
    intro w
    rw [onExistingUsers_cons, ih]
    simp [createPeerConnection]

/-- An `existing-users` snapshot leaves the entry of every id it does not name. -/
theorem onExistingUsers_peers_other (users : List SocketId) :
    ∀ (w : Client) (x : SocketId), x ∉ users →
      objGet (onExistingUsers w users).peers x = objGet w.peers x := by
  induction users with
  | nil => intro w x _; rfl
  | cons u us ih =>
    intro w x hx
    rw [onExistingUsers_cons, ih _ x (fun h => hx (List.mem_cons_of_mem u h))]
    exact objGet_objSet_other w.peers u x w.conns.length
      (fun h => hx (h ▸ List.mem_cons_self x us))

/-- After an `existing-users` snapshot every id it names has an entry, and the entry is a
connection made for that id while the snapshot was processed, as initiator. -/
theorem onExistingUsers_peers_mem (users : List SocketId) :
    ∀ (w : Client) (x : SocketId), x ∈ users →
      ∃ i, objGet (onExistingUsers w users).peers x = some i ∧ w.conns.length ≤ i ∧
        (onExistingUsers w users).conns[i]?
          = some ⟨x, true, SignalingState.stable, none, []⟩ := by
  induction users with
  | nil => intro w x hx; exact absurd hx (List.not_mem_nil x)
  | cons u us ih =>
    intro w x hx
    by_cases hxus : x ∈ us
    · obtain ⟨i, h1, h2, h3⟩ := ih (createPeerConnection w u true) x hxus
      refine ⟨i, h1, ?_, h3⟩
      have : (createPeerConnection w u true).conns.length = w.conns.length + 1 := by
        simp [createPeerConnection]
      omega
    · have hxu : x = u := by
        rcases List.mem_cons.mp hx with h | h
        · exact h
        · exact absurd h hxus
      subst hxu
      refine ⟨w.conns.length, ?_, Nat.le_refl _, ?_⟩
      · rw [onExistingUsers_cons, onExistingUsers_peers_other us _ x hxus]
        exact objGet_objSet_same w.peers x w.conns.length
      · rw [onExistingUsers_conns, List.map_cons,
          List.getElem?_append_right (Nat.le_refl _), Nat.sub_self]
        exact List.getElem?_cons_zero

/-- C22 as stated fails on this input: the manager holds connections toward `"x"` and
`"y"` when the transport reconnects.  The `reconnect` handler re-submits `join-room` and
touches no connection; after the fresh snapshot `["x"]` the peers map still holds the
connection toward `"y"` from before the reconnect, and neither old connection is
closed. -/
theorem reconnect_keeps_old_peers :
    sampleApp.rtc =
      { conns := [⟨"x", true, SignalingState.stable, none, []⟩,
                  ⟨"y", true, SignalingState.stable, none, []⟩],
        peers := [("x", 0), ("y", 1)] } ∧
    onReconnect sampleApp = (sampleApp, [⟨"A", "Ann", none⟩]) ∧
    onExistingUsers (onReconnect sampleApp).1.rtc ["x"] =
      { conns := [⟨"x", true, SignalingState.stable, none, []⟩,
                  ⟨"y", true, SignalingState.stable, none, []⟩,
                  ⟨"x", true, SignalingState.stable, none, []⟩],
        peers := [("x", 2), ("y", 1)] } := by
  decide

/-- C22, amended: on a reconnect while `roomId` and `nickname` are set (non-empty), the
client re-submits `join-room` with that room id and nickname (and no timezone) and
changes nothing else, the peers map included; after the fresh `existing-users` snapshot is
processed, every peer of the snapshot has one entry in the peers map, a connection made
after the reconnect with `isInitiator = true`, and every id outside the snapshot has the
entry it had before the reconnect. -/
theorem reconnect_rejoin (a : App) (r n : String) (users : List SocketId)
    (hr : a.roomId = some r) (hn : a.nickname = some n) (hr0 : r ≠ "") (hn0 : n ≠ "") :
    onReconnect a = (a, [⟨r, n, none⟩]) ∧
    (∀ x ∈ users, ∃ i, objGet (onExistingUsers (onReconnect a).1.rtc users).peers x = some i ∧
      a.rtc.conns.length ≤ i ∧
      (onExistingUsers (onReconnect a).1.rtc users).conns[i]?
        = some ⟨x, true, SignalingState.stable, none, []⟩) ∧
    (∀ x, x ∉ users →
      objGet (onExistingUsers (onReconnect a).1.rtc users).peers x = objGet a.rtc.peers x) := by
  have h : onReconnect a = (a, [⟨r, n, none⟩]) := by
    simp [onReconnect, hr, hn, hr0, hn0]
  rw [h]
  exact ⟨rfl, fun x hx => onExistingUsers_peers_mem users a.rtc x hx,
    fun x hx => onExistingUsers_peers_other users a.rtc x hx⟩

theorem reconnect_rejoin_witness :
    onReconnect sampleApp = (sampleApp, [⟨"A", "Ann", none⟩]) ∧
    (∀ x ∈ ["x"], ∃ i,
      objGet (onExistingUsers (onReconnect sampleApp).1.rtc ["x"]).peers x = some i ∧
      sampleApp.rtc.conns.length ≤ i ∧
      (onExistingUsers (onReconnect sampleApp).1.rtc ["x"]).conns[i]?
        = some ⟨x, true, SignalingState.stable, none, []⟩) ∧
    (∀ x, x ∉ ["x"] →
      objGet (onExistingUsers (onReconnect sampleApp).1.rtc ["x"]).peers x
        = objGet sampleApp.rtc.peers x) :=
  reconnect_rejoin sampleApp "A" "Ann" ["x"] rfl rfl (by decide) (by decide)


/-! ## User-map consistency -/

theorem consistent_empty : Consistent empty := by
  intro c user h
  exact Option.noConfusion h

/-- Putting a room with no members under an id the registry lacks keeps consistency. -/
theorem consistent_create (s : State) (r : RoomId) (room : Room) (hs : Consistent s)
    (hnone : s.rooms r = none) : Consistent { s with rooms := mapSet s.rooms r room } := by
  intro c user hu
  obtain ⟨room1, h1, h2⟩ := hs c user hu
  refine ⟨room1, ?_, h2⟩
  have hne : user.roomId ≠ r := fun h => by
    rw [h, hnone] at h1; exact Option.noConfusion h1
  show mapSet s.rooms r room user.roomId = some room1
  rw [mapSet_other _ _ _ _ hne]; exact h1

theorem joinLookedUp_consistent (env : Option Int) (s : State) (c : SocketId)
    (data : JoinData) (room : Room) (hs : Consistent s)
    (hroom : s.rooms data.roomId = some room) :
    Consistent (joinLookedUp env s c data room).1 := by
  unfold joinLookedUp
  split
  · exact hs
  · split
    · exact hs
    · intro x user hu
      simp only at hu ⊢
      by_cases hx : x = c
      · subst hx
        rw [mapSet_same] at hu
        have hus : user = ⟨data.roomId, data.nickname, optOr data.timezone "UTC"⟩ :=
          (Option.some.inj hu).symm
        subst hus
        refine ⟨{ room with users := setAdd room.users x }, mapSet_same _ _ _, ?_⟩
        exact (mem_setAdd room.users x x).mpr (Or.inr rfl)
      · rw [mapSet_other _ _ _ _ hx] at hu
        obtain ⟨room1, h1, h2⟩ := hs x user hu
        by_cases hr : user.roomId = data.roomId
        · rw [hr] at h1 ⊢
          rw [hroom] at h1
          have : room1 = room := (Option.some.inj h1).symm
          subst this
          exact ⟨_, mapSet_same _ _ _, (mem_setAdd room1.users c x).mpr (Or.inl h2)⟩
        · exact ⟨room1, by rw [mapSet_other _ _ _ _ hr]; exact h1, h2⟩

theorem joinRoom_consistent (env : Option Int) (s : State) (c : SocketId) (data : JoinData)
    (hs : Consistent s) : Consistent (joinRoom env s c data).1 := by
  unfold joinRoom
  cases hroom : s.rooms data.roomId with
  | some room => exact joinLookedUp_consistent env s c data room hs hroom
  | none =>
    exact joinLookedUp_consistent env _ c data _
      (consistent_create s data.roomId _ hs hroom) (mapSet_same _ _ _)

theorem disconnect_consistent (s : State) (c : SocketId) (hs : Consistent s) :
    Consistent (disconnect s c).1 := by
  intro x user hu
  rw [disconnect_userMap] at hu
  have hxc : x ≠ c := by
    intro h
    rw [h] at hu
    simp [mapDelete] at hu
  have hu0 : s.userMap x = some user := by
    simpa [mapDelete, hxc] using hu
  obtain ⟨room1, h1, h2⟩ := hs x user hu0
  rw [disconnect_rooms]
  cases huc : s.userMap c with
  | none => exact ⟨room1, h1, h2⟩
  | some userc =>
    simp only
    cases hrc : s.rooms userc.roomId with
    | none => exact ⟨room1, h1, h2⟩
    | some roomc =>
      simp only
      by_cases hr : user.roomId = userc.roomId
      · rw [hr, hrc] at h1
        have : room1 = roomc := (Option.some.inj h1).symm
        subst this
        have hmem : x ∈ setDelete room1.users c := (mem_setDelete room1.users c x).mpr ⟨h2, hxc⟩
        have hne : setDelete room1.users c ≠ [] := List.ne_nil_of_mem hmem
        rw [if_neg hne, hr]
        refine ⟨afterLeave room1 c, mapSet_same _ _ _, ?_⟩
        rw [afterLeave_users]; exact hmem
      · refine ⟨room1, ?_, h2⟩
        split
        · simp only [mapDelete, hr, if_false]; exact h1
        · rw [mapSet_other _ _ _ _ hr]; exact h1

theorem kickTarget_consistent (s : State) (t : SocketId) (reason nick : String)
    (hs : Consistent s) : Consistent (kickTarget s t reason nick).1 := by
  unfold kickTarget
  split
  · exact disconnect_consistent s t hs
  · exact hs

theorem kickUser_consistent (s : State) (c t : SocketId) (hs : Consistent s) :
    Consistent (kickUser s c t).1 := by
  unfold kickUser
  cases hu : s.userMap c with
  | none => exact hs
  | some user =>
    simp only
    cases hroom : s.rooms user.roomId with
    | none => exact hs
    | some room =>
      simp only
      split
      · exact hs
      · exact kickTarget_consistent s t _ _ hs

theorem adminAction_consistent (s : State) (c : SocketId) (data : AdminData)
    (hs : Consistent s) : Consistent (adminAction s c data).1 := by
  unfold adminAction
  cases hu : s.userMap c with
  | none => exact hs
  | some user =>
    simp only
    cases hroom : s.rooms user.roomId with
    | none => exact hs
    | some room =>
      simp only
      split
      · exact hs
      · cases data.action with
        | kick => exact kickTarget_consistent s _ _ _ hs
        | muteAll => exact hs
        | roomLock =>
          intro x ux hux
          obtain ⟨room1, h1, h2⟩ := hs x ux hux
          by_cases hr : ux.roomId = user.roomId
          · rw [hr, hroom] at h1
            have : room1 = room := (Option.some.inj h1).symm
            subst this
            exact ⟨{ room1 with locked := data.locked }, by
              show mapSet s.rooms user.roomId _ ux.roomId = _
              rw [hr]; exact mapSet_same _ _ _, h2⟩
          · exact ⟨room1, by
              show mapSet s.rooms user.roomId _ ux.roomId = _
              rw [mapSet_other _ _ _ _ hr]; exact h1, h2⟩
        | nudgeAll => exact hs
        | other name => exact hs

theorem step_consistent (env : Option Int) (s : State) (e : Event) (hs : Consistent s) :
    Consistent (step env s e).1 := by
  cases e with
  | connection c =>
    simp only [step]
    split
    · exact hs
    · exact hs
  | joinRoom c data =>
    simp only [step]
    split
    · exact joinRoom_consistent env s c data hs
    · exact hs
  | signal c data =>
    simp only [step]
    split
    · exact hs
    · exact hs
  | chatMessage c message now =>
    simp only [step, chatMessage]
    split
    · split <;> exact hs
    · exact hs
  | playSound c sound =>
    simp only [step, playSound]
    split
    · split <;> exact hs
    · exact hs
  | userTyping c roomId =>
    simp only [step, userTyping]
    split
    · split
      · split <;> exact hs
      · exact hs
    · exact hs
  | userStopTyping c roomId =>
    simp only [step, userStopTyping]
    split
    · split
      · split <;> exact hs
      · exact hs
    · exact hs
  | kickUser c targetId =>
    simp only [step]
    split
    · exact kickUser_consistent s c targetId hs
    · exact hs
  | adminAction c data =>
    simp only [step]
    split
    · exact adminAction_consistent s c data hs
    · exact hs
  | disconnect c =>
    simp only [step]
    split
    · exact disconnect_consistent s c hs
    · exact hs


/-- The handler of `kick-user` once both lookups have succeeded. -/
theorem kickUser_of_room (s : State) (c t : SocketId) (user : User) (room : Room)
    (hu : s.userMap c = some user) (hroom : s.rooms user.roomId = some room) :
    kickUser s c t =
      if room.host ≠ c then (s, [(c, Msg.error "У вас нет прав для этого действия")])
      else kickTarget s t "Вы были исключены из комнаты хостом" user.nickname := by
  simp only [kickUser, hu, hroom]

/-- The handler of `admin-action` once both lookups have succeeded. -/
theorem adminAction_of_room (s : State) (c : SocketId) (data : AdminData) (user : User)
    (room : Room) (hu : s.userMap c = some user) (hroom : s.rooms user.roomId = some room) :
    adminAction s c data =
      if room.host ≠ c then (s, [(c, Msg.error "У вас нет прав администратора")])
      else
        match data.action with
        | AdminKind.kick =>
          kickTarget s data.targetId
            (optOr data.reason "Вы были исключены из комнаты администратором") user.nickname
        | AdminKind.muteAll => (s, socketTo s c user.roomId (Msg.adminMuteAll user.nickname))
        | AdminKind.roomLock =>
          ({ s with rooms := mapSet s.rooms user.roomId { room with locked := data.locked } },
            ioTo s user.roomId (Msg.roomStatus data.locked user.nickname))
        | AdminKind.nudgeAll => (s, socketTo s c user.roomId (Msg.nudge user.nickname))
        | AdminKind.other _ => (s, [(c, Msg.error "Неизвестное админ-действие")]) := by
  cases hd : data.action <;> simp only [adminAction, hu, hroom, hd]

/-- C29 (user-map consistency): in every state reachable from the empty registry, for
every value of `MAX_PARTICIPANTS`, a user-map entry of connection `c` names a room that is
in the registry and has `c` in its member set; hence `kick-user` and `admin-action` from
`c` get past the lookup of the requester's room: each is the host check followed by the
action, on that room. -/
theorem user_map_consistency (env : Option Int) (events : List Event) (c : SocketId)
    (user : User) (hu : (run env empty events).userMap c = some user) :
    ∃ room, (run env empty events).rooms user.roomId = some room ∧ c ∈ room.users ∧
      (∀ t, kickUser (run env empty events) c t =
        if room.host ≠ c then
          (run env empty events, [(c, Msg.error "У вас нет прав для этого действия")])
        else
          kickTarget (run env empty events) t "Вы были исключены из комнаты хостом"
            user.nickname) ∧
      (∀ data, adminAction (run env empty events) c data =
        if room.host ≠ c then
          (run env empty events, [(c, Msg.error "У вас нет прав администратора")])
        else
          match data.action with
          | AdminKind.kick =>
            kickTarget (run env empty events) data.targetId
              (optOr data.reason "Вы были исключены из комнаты администратором")
              user.nickname
          | AdminKind.muteAll =>
            (run env empty events,
              socketTo (run env empty events) c user.roomId (Msg.adminMuteAll user.nickname))
          | AdminKind.roomLock =>
            ({ run env empty events with
                rooms := mapSet (run env empty events).rooms user.roomId
                  { room with locked := data.locked } },
              ioTo (run env empty events) user.roomId
                (Msg.roomStatus data.locked user.nickname))
          | AdminKind.nudgeAll =>
            (run env empty events,
              socketTo (run env empty events) c user.roomId (Msg.nudge user.nickname))
          | AdminKind.other _ =>
            (run env empty events, [(c, Msg.error "Неизвестное админ-действие")])) := by
  have hcons : Consistent (run env empty events) :=
    run_induction env Consistent (fun s e hs => step_consistent env s e hs) events empty
      consistent_empty
  obtain ⟨room, hroom, hmem⟩ := hcons c user hu
  exact ⟨room, hroom, hmem, fun t => kickUser_of_room _ c t user room hu hroom,
    fun data => adminAction_of_room _ c data user room hu hroom⟩

theorem user_map_consistency_witness :
    ∃ room, (run none empty sampleJoins).rooms "A" = some room ∧ "b" ∈ room.users ∧
      kickUser (run none empty sampleJoins) "b" "a" =
        (run none empty sampleJoins, [("b", Msg.error "У вас нет прав для этого действия")]) :=
  Exists.elim
    (user_map_consistency none sampleJoins "b" ⟨"A", "Bob", "UTC"⟩ (by decide))
    (fun room h => ⟨room, h.1, h.2.1, by
      have hk := h.2.2.1 "a"
      have hhost : room.host ≠ "b" := by
        have hr : (run none empty sampleJoins).rooms "A" = some ⟨["a", "b", "c"], "a", false⟩ := by
          decide
        have h1 := h.1
        simp only at h1
        rw [hr] at h1
        rw [← Option.some.inj h1]
        decide
      rw [if_pos hhost] at hk
      exact hk⟩)


/-! ## Connected members are in the Socket.IO room of their room -/

theorem run_append_singleton (env : Option Int) (s : State) (l : List Event) (e : Event) :
    run env s (l ++ [e]) = (step env (run env s l) e).1 := by
  simp [run, List.foldl_append]

theorem live_empty : Live empty [] :=
  ⟨fun x hx => by simp [empty] at hx, fun r room x h _ => by simp [empty] at h⟩

theorem live_mono (s : State) (seen extra : List SocketId) (h : Live s seen) :
    Live s (seen ++ extra) :=
  ⟨fun x hx => List.mem_append_left _ (h.1 x hx),
    fun r room x hr hx => ⟨List.mem_append_left _ (h.2 r room x hr hx).1, (h.2 r room x hr hx).2⟩⟩

theorem live_create (s : State) (seen : List SocketId) (r : RoomId) (c : SocketId)
    (h : Live s seen) : Live { s with rooms := mapSet s.rooms r ⟨[], c, false⟩ } seen := by
  refine ⟨h.1, ?_⟩
  intro r1 room x hr hx
  by_cases hrr : r1 = r
  · subst hrr
    simp only [mapSet_same] at hr
    rw [← Option.some.inj hr] at hx
    exact absurd hx (List.not_mem_nil x)
  · simp only [mapSet_other _ _ _ _ hrr] at hr
    exact h.2 r1 room x hr hx

theorem live_joinLookedUp (env : Option Int) (s : State) (seen : List SocketId)
    (c : SocketId) (data : JoinData) (room : Room) (h : Live s seen) (hc : c ∈ s.sockets)
    (hroom : s.rooms data.roomId = some room) :
    Live (joinLookedUp env s c data room).1 seen := by
  unfold joinLookedUp
  split
  · exact h
  · split
    · exact h
    · refine ⟨h.1, ?_⟩
      intro r room1 x hr hx
      simp only at hr ⊢
      by_cases hrr : r = data.roomId
      · subst hrr
        rw [mapSet_same] at hr
        rw [← Option.some.inj hr] at hx
        simp only at hx
        by_cases hxc : x = c
        · subst hxc
          refine ⟨h.1 x hc, fun _ => ?_⟩
          rw [if_pos rfl]
          exact (mem_setAdd _ _ _).mpr (Or.inr rfl)
        · have hx0 : x ∈ room.users := by
            rcases (mem_setAdd room.users c x).mp hx with h1 | h1
            · exact h1
            · exact absurd h1 hxc
          refine ⟨(h.2 _ room x hroom hx0).1, fun hs => ?_⟩
          rw [if_neg hxc]
          exact (h.2 _ room x hroom hx0).2 hs
      · rw [mapSet_other _ _ _ _ hrr] at hr
        refine ⟨(h.2 r room1 x hr hx).1, fun hs => ?_⟩
        by_cases hxc : x = c
        · subst hxc
          rw [if_pos rfl]
          exact (mem_setAdd _ _ _).mpr (Or.inl ((h.2 r room1 x hr hx).2 hs))
        · rw [if_neg hxc]
          exact (h.2 r room1 x hr hx).2 hs

theorem live_joinRoom (env : Option Int) (s : State) (seen : List SocketId) (c : SocketId)
    (data : JoinData) (h : Live s seen) (hc : c ∈ s.sockets) :
    Live (joinRoom env s c data).1 seen := by
  unfold joinRoom
  cases hroom : s.rooms data.roomId with
  | some room => exact live_joinLookedUp env s seen c data room h hc hroom
  | none =>
    exact live_joinLookedUp env _ seen c data _ (live_create s seen data.roomId c h) hc
      (mapSet_same _ _ _)

theorem disconnect_sockets (s : State) (c : SocketId) :
    (disconnect s c).1.sockets = s.sockets.filter (fun x => x ≠ c) := by
  unfold disconnect
  simp only [detach_rooms, detach_userMap]
  cases hu : s.userMap c with
  | none => rfl
  | some user =>
    simp only
    cases hroom : s.rooms user.roomId with
    | none => rfl
    | some room =>
      simp only
      split <;> rfl

theorem disconnect_sioRooms (s : State) (c : SocketId) :
    (disconnect s c).1.sioRooms = fun x => if x = c then [] else s.sioRooms x := by
  unfold disconnect
  simp only [detach_rooms, detach_userMap]
  cases hu : s.userMap c with
  | none => rfl
  | some user =>
    simp only
    cases hroom : s.rooms user.roomId with
    | none => rfl
    | some room =>
      simp only
      split <;> rfl

/-- A `disconnect` adds no member to any room. -/
theorem disconnect_users_subset (s : State) (c : SocketId) (r : RoomId) (room1 : Room)
    (hr : (disconnect s c).1.rooms r = some room1) :
    ∃ room, s.rooms r = some room ∧ ∀ x ∈ room1.users, x ∈ room.users := by
  rw [disconnect_rooms] at hr
  cases hu : s.userMap c with
  | none =>
    rw [hu] at hr
    exact ⟨room1, hr, fun x hx => hx⟩
  | some user =>
    rw [hu] at hr
    simp only at hr
    cases hroom : s.rooms user.roomId with
    | none =>
      rw [hroom] at hr
      exact ⟨room1, hr, fun x hx => hx⟩
    | some room =>
      rw [hroom] at hr
      simp only at hr
      by_cases hrr : r = user.roomId
      · subst hrr
        split at hr
        · simp [mapDelete] at hr
        · rw [mapSet_same] at hr
          refine ⟨room, hroom, fun x hx => ?_⟩
          rw [← Option.some.inj hr, afterLeave_users] at hx
          exact ((mem_setDelete room.users c x).mp hx).1
      · split at hr
        · simp only [mapDelete, hrr, if_false] at hr
          exact ⟨room1, hr, fun x hx => hx⟩
        · rw [mapSet_other _ _ _ _ hrr] at hr
          exact ⟨room1, hr, fun x hx => hx⟩

theorem live_disconnect (s : State) (seen : List SocketId) (c : SocketId) (h : Live s seen) :
    Live (disconnect s c).1 seen := by
  refine ⟨fun x hx => ?_, fun r room1 x hr hx => ?_⟩
  · rw [disconnect_sockets] at hx
    exact h.1 x (List.mem_filter.mp hx).1
  · obtain ⟨room, hroom, hsub⟩ := disconnect_users_subset s c r room1 hr
    refine ⟨(h.2 r room x hroom (hsub x hx)).1, fun hs => ?_⟩
    rw [disconnect_sockets] at hs
    have hs2 := List.mem_filter.mp hs
    have hxc : x ≠ c := by simpa using hs2.2
    rw [disconnect_sioRooms]
    simp only [if_neg hxc]
    exact (h.2 r room x hroom (hsub x hx)).2 hs2.1

theorem live_kickTarget (s : State) (seen : List SocketId) (t : SocketId)
    (reason nick : String) (h : Live s seen) : Live (kickTarget s t reason nick).1 seen := by
  unfold kickTarget
  split
  · exact live_disconnect s seen t h
  · exact h

theorem live_kickUser (s : State) (seen : List SocketId) (c t : SocketId) (h : Live s seen) :
    Live (kickUser s c t).1 seen := by
  unfold kickUser
  cases hu : s.userMap c with
  | none => exact h
  | some user =>
    simp only
    cases hroom : s.rooms user.roomId with
    | none => exact h
    | some room =>
      simp only
      split
      · exact h
      · exact live_kickTarget s seen t _ _ h

theorem live_adminAction (s : State) (seen : List SocketId) (c : SocketId)
    (data : AdminData) (h : Live s seen) : Live (adminAction s c data).1 seen := by
  unfold adminAction
  cases hu : s.userMap c with
  | none => exact h
  | some user =>
    simp only
    cases hroom : s.rooms user.roomId with
    | none => exact h
    | some room =>
      simp only
      split
      · exact h
      · cases data.action with
        | kick => exact live_kickTarget s seen _ _ _ h
        | muteAll => exact h
        | roomLock =>
          refine ⟨h.1, fun r room1 x hr hx => ?_⟩
          simp only at hr ⊢
          by_cases hrr : r = user.roomId
          · subst hrr
            rw [mapSet_same] at hr
            rw [← Option.some.inj hr] at hx
            exact h.2 _ room x hroom hx
          · rw [mapSet_other _ _ _ _ hrr] at hr
            exact h.2 r room1 x hr hx
        | nudgeAll => exact h
        | other name => exact h

/-- One event keeps `Live`, the id of a `connection` event joining the ids seen, provided
that id was not seen before. -/
theorem live_step (env : Option Int) (s : State) (seen : List SocketId) (e : Event)
    (h : Live s seen) (hfresh : ∀ c, e = Event.connection c → c ∉ seen) :
    Live (step env s e).1 (seen ++ connectionIds [e]) := by
  cases e with
  | connection c =>
    have hc : c ∉ seen := hfresh c rfl
    have hcs : c ∉ s.sockets := fun hx => hc (h.1 c hx)
    simp only [step, if_neg hcs, connectionIds, List.filterMap_cons, List.filterMap_nil]
    refine ⟨fun x hx => ?_, fun r room x hr hx => ?_⟩
    · rcases List.mem_append.mp hx with h1 | h1
      · exact List.mem_append_left _ (h.1 x h1)
      · exact List.mem_append_right _ h1
    · have hxseen := (h.2 r room x hr hx).1
      have hxc : x ≠ c := fun hxc => hc (hxc ▸ hxseen)
      refine ⟨List.mem_append_left _ hxseen, fun hs => ?_⟩
      simp only [if_neg hxc]
      rcases List.mem_append.mp hs with h1 | h1
      · exact (h.2 r room x hr hx).2 h1
      · exact absurd (List.mem_singleton.mp h1) hxc
  | joinRoom c data =>
    have hres : Live (step env s (Event.joinRoom c data)).1 seen := by
      simp only [step]
      split
      · next hc => exact live_joinRoom env s seen c data h hc
      · exact h
    exact live_mono _ seen _ hres
  | signal c data =>
    have hres : Live (step env s (Event.signal c data)).1 seen := by
      simp only [step]
      split <;> exact h
    exact live_mono _ seen _ hres
  | chatMessage c message now =>
    have hres : Live (step env s (Event.chatMessage c message now)).1 seen := by
      simp only [step, chatMessage]
      split
      · split <;> exact h
      · exact h
    exact live_mono _ seen _ hres
  | playSound c sound =>
    have hres : Live (step env s (Event.playSound c sound)).1 seen := by
      simp only [step, playSound]
      split
      · split <;> exact h
      · exact h
    exact live_mono _ seen _ hres
  | userTyping c roomId =>
    have hres : Live (step env s (Event.userTyping c roomId)).1 seen := by
      simp only [step, userTyping]
      split
      · split
        · split <;> exact h
        · exact h
      · exact h
    exact live_mono _ seen _ hres
  | userStopTyping c roomId =>
    have hres : Live (step env s (Event.userStopTyping c roomId)).1 seen := by
      simp only [step, userStopTyping]
      split
      · split
        · split <;> exact h
        · exact h
      · exact h
    exact live_mono _ seen _ hres
  | kickUser c targetId =>
    have hres : Live (step env s (Event.kickUser c targetId)).1 seen := by
      simp only [step]
      split
      · exact live_kickUser s seen c targetId h
      · exact h
    exact live_mono _ seen _ hres
  | adminAction c data =>
    have hres : Live (step env s (Event.adminAction c data)).1 seen := by
      simp only [step]
      split
      · exact live_adminAction s seen c data h
      · exact h
    exact live_mono _ seen _ hres
  | disconnect c =>
    have hres : Live (step env s (Event.disconnect c)).1 seen := by
      simp only [step]
      split
      · exact live_disconnect s seen c h
      · exact h
    exact live_mono _ seen _ hres

theorem connectionIds_append (l1 l2 : List Event) :
    connectionIds (l1 ++ l2) = connectionIds l1 ++ connectionIds l2 := by
  simp [connectionIds, List.filterMap_append]

/-- In every run in which no socket id is connected twice, a connected member of a room is
in the Socket.IO room of that room. -/
theorem live_run (env : Option Int) (events : List Event) (hfresh : FreshIds events) :
    Live (run env empty events) (connectionIds events) := by
  induction events using List.reverseRecOn with
  | nil => exact live_empty
  | append_singleton l e ih =>
    unfold FreshIds at hfresh
    rw [connectionIds_append] at hfresh
    have hl : FreshIds l := (List.nodup_append.mp hfresh).1
    rw [run_append_singleton, connectionIds_append]
    refine live_step env _ _ e (ih hl) ?_
    intro c hc
    subst hc
    have hdisj := (List.nodup_append.mp hfresh).2.2
    intro hmem
    exact hdisj hmem (by simp [connectionIds])


/-! ## Initiator assignment -/

theorem inbox_append (ds1 ds2 : List Delivery) (x : SocketId) :
    inbox (ds1 ++ ds2) x = inbox ds1 x ++ inbox ds2 x := by
  simp [inbox]

theorem inbox_singleton_self (x : SocketId) (m : Msg) : inbox [(x, m)] x = [m] := by
  simp [inbox]

theorem inbox_singleton_other (x y : SocketId) (m : Msg) (h : y ≠ x) :
    inbox [(y, m)] x = [] := by
  simp [inbox, h]

theorem mem_inbox (ds : List Delivery) (x : SocketId) (m : Msg) :
    m ∈ inbox ds x ↔ (x, m) ∈ ds := by
  simp only [inbox, List.mem_map, List.mem_filter, decide_eq_true_eq]
  constructor
  · rintro ⟨d, ⟨hd, hx⟩, hm⟩
    obtain ⟨a, b⟩ := d
    simp only at hx hm
    subst hx; subst hm
    exact hd
  · intro h
    exact ⟨(x, m), ⟨h, rfl⟩, rfl⟩

/-- The sender of `socket.to(r).emit` gets nothing. -/
theorem inbox_socketTo_self (s : State) (c : SocketId) (r : RoomId) (m : Msg) :
    inbox (socketTo s c r m) c = [] := by
  apply List.eq_nil_iff_forall_not_mem.mpr
  intro m1 hm1
  have h := (mem_inbox _ _ _).mp hm1
  exact ((mem_socketTo s c r m (c, m1)).mp h).2.1 rfl

/-- Consecutive `user-joined` messages for one id leave that id with a responder
connection made while they were handled. -/
theorem foldl_userJoined (B : SocketId) (n tz : String) :
    ∀ (ms : List Msg) (w : Client), (∀ m ∈ ms, m = Msg.userJoined B n tz) → ms ≠ [] →
      ∃ j, objGet (ms.foldl onMembership w).peers B = some j ∧ w.conns.length ≤ j ∧
        (ms.foldl onMembership w).conns[j]?
          = some ⟨B, false, SignalingState.stable, none, []⟩ := by
  intro ms
  induction ms with
  | nil => intro w _ h; exact absurd rfl h
  | cons m rest ih =>
    intro w hall _
    have hm : m = Msg.userJoined B n tz := hall m (List.mem_cons_self m rest)
    subst hm
    have hstep : onMembership w (Msg.userJoined B n tz) = createPeerConnection w B false := rfl
    rw [List.foldl_cons, hstep]
    by_cases hrest : rest = []
    · subst hrest
      refine ⟨w.conns.length, objGet_objSet_same w.peers B w.conns.length, Nat.le_refl _, ?_⟩
      show (w.conns ++ [_])[w.conns.length]? = _
      rw [List.getElem?_append_right (Nat.le_refl _), Nat.sub_self]
      exact List.getElem?_cons_zero
    · obtain ⟨j, h1, h2, h3⟩ :=
        ih (createPeerConnection w B false)
          (fun m hm => hall m (List.mem_cons_of_mem _ hm)) hrest
      refine ⟨j, h1, ?_, h3⟩
      have : (createPeerConnection w B false).conns.length = w.conns.length + 1 := by
        simp [createPeerConnection]
      omega

/-- An admitted `join-room` by `B`, not a member, followed by the delivery of its
messages: `B` holds an initiator connection toward every member `A` of the room, and every
member `A` among the connected sockets of the Socket.IO room holds a responder connection
toward `B`. -/
theorem join_assigns_roles (env : Option Int) (s : State) (data : JoinData) (room : Room)
    (A B : SocketId) (clients : SocketId → Client)
    (hroom : s.rooms data.roomId = some room) (hA : A ∈ room.users)
    (hAconn : A ∈ roomSockets s data.roomId) (hB : B ∉ room.users)
    (hlock : room.locked = false)
    (hcap : (room.users.length : Int) < MAX_PARTICIPANTS env) :
    (∃ i, objGet (deliver clients (joinRoom env s B data).2 B).peers A = some i ∧
      (clients B).conns.length ≤ i ∧
      (deliver clients (joinRoom env s B data).2 B).conns[i]?
        = some ⟨A, true, SignalingState.stable, none, []⟩) ∧
    (∃ j, objGet (deliver clients (joinRoom env s B data).2 A).peers B = some j ∧
      (clients A).conns.length ≤ j ∧
      (deliver clients (joinRoom env s B data).2 A).conns[j]?
        = some ⟨B, false, SignalingState.stable, none, []⟩) := by
  have hAB : A ≠ B := fun h => hB (h ▸ hA)
  have h1 : ¬ (room.locked = true ∧ B ∉ room.users) := by
    rw [hlock]; simp
  have h2 : ¬ (MAX_PARTICIPANTS env ≤ (room.users.length : Int) ∧ B ∉ room.users) := by
    intro h; omega
  have hj : joinRoom env s B data = joinLookedUp env s B data room := by
    simp only [joinRoom, hroom]
  rw [hj, joinLookedUp_pass env s B data room h1 h2]
  simp only [deliver, inbox_append]
  constructor
  · rw [inbox_singleton_self, inbox_socketTo_self, inbox_singleton_self]
    simp only [List.append_nil, List.singleton_append, List.foldl_cons, List.foldl_nil]
    exact onExistingUsers_peers_mem room.users (clients B) A hA
  · rw [inbox_singleton_other A B _ (Ne.symm hAB), inbox_singleton_other A B _ (Ne.symm hAB)]
    simp only [List.nil_append, List.append_nil]
    apply foldl_userJoined B data.nickname (optOr data.timezone "UTC")
    · intro m hm
      have h := (mem_inbox _ _ _).mp hm
      exact ((mem_socketTo _ _ _ _ _).mp h).2.2
    · apply List.ne_nil_of_mem
      apply (mem_inbox _ A (Msg.userJoined B data.nickname (optOr data.timezone "UTC"))).mpr
      rw [mem_socketTo]
      exact ⟨(roomSockets_join s B data.roomId _ _ A hAB).mpr hAconn, hAB, rfl⟩

/-- C21 (initiator uniqueness): in every state reached from the empty registry by events
in which no socket id is connected twice, for every room with a connected member `A` and
every admitted `join-room` by a connection `B` that is not a member, once the clients have
handled the messages of the join, `B` holds toward `A` a connection made with
`isInitiator = true` (from `existing-users`) and `A` holds toward `B` a connection made
with `isInitiator = false` (from `user-joined`): exactly `B` is the initiator of the
pair. -/
theorem initiator_uniqueness (env : Option Int) (events : List Event)
    (hfresh : FreshIds events) (data : JoinData) (room : Room) (A B : SocketId)
    (clients : SocketId → Client)
    (hroom : (run env empty events).rooms data.roomId = some room)
    (hA : A ∈ room.users) (hAconn : A ∈ (run env empty events).sockets)
    (hB : B ∉ room.users) (hlock : room.locked = false)
    (hcap : (room.users.length : Int) < MAX_PARTICIPANTS env) :
    (∃ i p, objGet (deliver clients (joinRoom env (run env empty events) B data).2 B).peers A
        = some i ∧
      (clients B).conns.length ≤ i ∧
      (deliver clients (joinRoom env (run env empty events) B data).2 B).conns[i]? = some p ∧
      p.remoteId = A ∧ p.isInitiator = true) ∧
    (∃ j q, objGet (deliver clients (joinRoom env (run env empty events) B data).2 A).peers B
        = some j ∧
      (clients A).conns.length ≤ j ∧
      (deliver clients (joinRoom env (run env empty events) B data).2 A).conns[j]? = some q ∧
      q.remoteId = B ∧ q.isInitiator = false) := by
  have hlive := live_run env events hfresh
  have hsio : A ∈ roomSockets (run env empty events) data.roomId := by
    simp only [roomSockets, List.mem_filter, inRoom, Bool.or_eq_true, decide_eq_true_eq]
    exact ⟨hAconn, Or.inr ((hlive.2 data.roomId room A hroom hA).2 hAconn)⟩
  obtain ⟨⟨i, h1, h2, h3⟩, ⟨j, h4, h5, h6⟩⟩ :=
    join_assigns_roles env (run env empty events) data room A B clients hroom hA hsio hB
      hlock hcap
  exact ⟨⟨i, _, h1, h2, h3, rfl, rfl⟩, ⟨j, _, h4, h5, h6, rfl, rfl⟩⟩

theorem initiator_uniqueness_witness :
    (∃ i p, objGet (deliver (fun _ => emptyClient)
          (joinRoom none (run none empty sampleHostAlone) "b" ⟨"A", "Bob", none⟩).2 "b").peers "a"
        = some i ∧
      ((fun _ => emptyClient) "b" : Client).conns.length ≤ i ∧
      (deliver (fun _ => emptyClient)
          (joinRoom none (run none empty sampleHostAlone) "b" ⟨"A", "Bob", none⟩).2 "b").conns[i]?
        = some p ∧
      p.remoteId = "a" ∧ p.isInitiator = true) ∧
    (∃ j q, objGet (deliver (fun _ => emptyClient)
          (joinRoom none (run none empty sampleHostAlone) "b" ⟨"A", "Bob", none⟩).2 "a").peers "b"
        = some j ∧
      ((fun _ => emptyClient) "a" : Client).conns.length ≤ j ∧
      (deliver (fun _ => emptyClient)
          (joinRoom none (run none empty sampleHostAlone) "b" ⟨"A", "Bob", none⟩).2 "a").conns[j]?
        = some q ∧
      q.remoteId = "b" ∧ q.isInitiator = false) :=
  initiator_uniqueness none sampleHostAlone (by unfold FreshIds; decide) ⟨"A", "Bob", none⟩
    ⟨["a"], "a", false⟩ "a" "b" (fun _ => emptyClient) (by decide) (by decide) (by decide)
    (by decide) rfl (by decide)


/-! ## Last member of a room it did not join last -/

/-- C10 fails on this input: socket `"a"` joins room `"A"`, of which it is the only
member, then room `"B"`, and disconnects.  The `disconnect` handler finds room `"B"` in the
user-map entry and cleans that room only: the user-map entry of `"a"` is removed, but room
`"A"` stays in the registry with member `"a"` and host `"a"`.  A later `join-room` for
`"A"` by `"b"` does not create a fresh room: `"b"` is told that the host is `"a"` and is
not host; and when `"a"` had locked room `"A"`, the join is rejected with `room-locked`. -/
theorem last_member_room_stays :
    members (run none empty sampleSoleMember) "A" = ["a"] ∧
    (step none (run none empty sampleSoleMember) (Event.disconnect "a")).2 = [] ∧
    (step none (run none empty sampleSoleMember) (Event.disconnect "a")).1.userMap "a"
      = none ∧
    (step none (run none empty sampleSoleMember) (Event.disconnect "a")).1.rooms "A"
      = some ⟨["a"], "a", false⟩ ∧
    (joinRoom none (step none (run none empty sampleSoleMember) (Event.disconnect "a")).1
        "b" ⟨"A", "Bob", none⟩).2 =
      [("b", Msg.existingUsers ["a"]),
       ("b", Msg.roomInfo "A" "a" false false
         [⟨"a", "Unknown", "UTC"⟩, ⟨"b", "Bob", "UTC"⟩])] ∧
    (joinRoom none (step none (run none empty sampleSoleMember) (Event.disconnect "a")).1
        "b" ⟨"A", "Bob", none⟩).1.rooms "A" = some ⟨["a", "b"], "a", false⟩ ∧
    members (run none empty sampleSoleMemberLocked) "A" = ["a"] ∧
    (step none (run none empty sampleSoleMemberLocked) (Event.disconnect "a")).1.rooms "A"
      = some ⟨["a"], "a", true⟩ ∧
    (joinRoom none
        (step none (run none empty sampleSoleMemberLocked) (Event.disconnect "a")).1
        "b" ⟨"A", "Bob", none⟩).2 =
      [("b", Msg.joinError JoinErrorType.roomLocked roomLockedMessage)] := by
  decide

/-! ## Client: candidates around the first description -/

/-- An offer that reaches a connection that is not closed is applied and answered,
whatever the signalling state (a pending local offer is rolled back). -/
theorem onSignal_offer_open (w : Client) (x : SocketId) (i : Nat) (p : Peer)
    (offer : Signal) (sdp : String) (hget : objGet w.peers x = some i)
    (hconn : w.conns[i]? = some p) (hopen : p.signalingState ≠ SignalingState.closed)
    (hoffer : offer.type = some "offer") :
    onSignal w x offer sdp =
      ({ w with conns := (w.conns.set i
            ({ p with signalingState := SignalingState.stable, remoteDescription := some offer })) },
        [⟨i, ⟨x, { type := some "answer", sdp := some sdp, candidate := none }⟩⟩]) := by
  unfold onSignal
  cases hs : p.signalingState with
  | closed => exact absurd hs hopen
  | stable =>
    simp [hget, hconn, hoffer, Peer.setRemoteDescription, hs, Peer.createAnswer,
      Peer.setLocalDescription]
  | haveLocalOffer =>
    simp [hget, hconn, hoffer, Peer.setRemoteDescription, hs, Peer.createAnswer,
      Peer.setLocalDescription]
  | haveRemoteOffer =>
    simp [hget, hconn, hoffer, Peer.setRemoteDescription, hs, Peer.createAnswer,
      Peer.setLocalDescription]

/-- An answer that reaches a connection with a local offer outstanding is applied. -/
theorem onSignal_answer_pending (w : Client) (x : SocketId) (i : Nat) (p : Peer)
    (answer : Signal) (sdp : String) (hget : objGet w.peers x = some i)
    (hconn : w.conns[i]? = some p)
    (hst : p.signalingState = SignalingState.haveLocalOffer)
    (hans : answer.type = some "answer") :
    onSignal w x answer sdp =
      ({ w with conns := (w.conns.set i
            ({ p with signalingState := SignalingState.stable
                      remoteDescription := some answer })) }, []) := by
  have hno : ¬ (answer.type = some "offer") := by rw [hans]; decide
  unfold onSignal
  rw [hget]
  simp only [hconn, if_neg hno, if_pos hans, setRemoteDescription_answer p answer hans,
    if_pos hst]

/-- A description that the browser rejects changes nothing. -/
theorem onSignal_description_rejected (w : Client) (x : SocketId) (i : Nat) (p : Peer)
    (d : Signal) (sdp : String) (hget : objGet w.peers x = some i)
    (hconn : w.conns[i]? = some p)
    (hd : d.type = some "offer" ∨ d.type = some "answer")
    (hrej : p.setRemoteDescription d = none) :
    onSignal w x d sdp = (w, []) := by
  unfold onSignal
  rw [hget]
  rcases hd with hoffer | hans
  · simp only [hconn, if_pos hoffer, hrej]
  · have hno : ¬ (d.type = some "offer") := by rw [hans]; decide
    simp only [hconn, if_neg hno, if_pos hans, hrej]

/-- C18 (candidate ordering), amended: there is no queue.  For every connection without a
remote description, in whatever signalling state, and every sequence of inbound signals
from its peer made of candidates `early`, then the first offer or answer, then candidates
`late` (each with a non-empty `candidate` field): the early candidates leave the
connection as it was (none is applied while there is no remote description, and none is
kept); when the description is applied (an offer on a connection that is not closed, an
answer on a connection with a local offer outstanding), it becomes the remote description
and the remote candidates of the connection are then extended by exactly the late
candidates, in arrival order; when the browser rejects the description, the connection
stays as it was and the late candidates are dropped too. -/
theorem candidates_before_description (w : Client) (x : SocketId) (i : Nat) (p : Peer)
    (early late : List String) (d : Signal) (sdp : String)
    (hget : objGet w.peers x = some i) (hconn : w.conns[i]? = some p)
    (hrd : p.remoteDescription = none)
    (hd : d.type = some "offer" ∨ d.type = some "answer") (hlate : ∀ c ∈ late, c ≠ "") :
    clientRun w (early.map (fun c => ClientEvent.signal x (candidateSignal c) sdp)) = w ∧
    (((d.type = some "offer" ∧ p.signalingState ≠ SignalingState.closed) ∨
        (d.type = some "answer" ∧ p.signalingState = SignalingState.haveLocalOffer)) →
      (clientRun w
          (early.map (fun c => ClientEvent.signal x (candidateSignal c) sdp)
            ++ [ClientEvent.signal x d sdp]
            ++ late.map (fun c => ClientEvent.signal x (candidateSignal c) sdp))).conns[i]?
        = some { p with signalingState := SignalingState.stable, remoteDescription := some d,
                        remoteCandidates := p.remoteCandidates ++ late.map candidateSignal }) ∧
    (¬ ((d.type = some "offer" ∧ p.signalingState ≠ SignalingState.closed) ∨
        (d.type = some "answer" ∧ p.signalingState = SignalingState.haveLocalOffer)) →
      clientRun w
          (early.map (fun c => ClientEvent.signal x (candidateSignal c) sdp)
            ++ [ClientEvent.signal x d sdp]
            ++ late.map (fun c => ClientEvent.signal x (candidateSignal c) sdp)) = w) := by
  have hearly := run_candidates_early x sdp early w i p hget hconn hrd
  have hlt : i < w.conns.length := by
    by_contra hge
    rw [List.getElem?_eq_none (not_lt.mp hge)] at hconn
    cases hconn
  have hnew : ({ w with conns := (w.conns.set i
        ({ p with signalingState := SignalingState.stable, remoteDescription := some d })) }
        : Client).conns[i]?
      = some { p with signalingState := SignalingState.stable, remoteDescription := some d } :=
    List.getElem?_set_self hlt
  refine ⟨hearly, ?_, ?_⟩
  · intro hacc
    rw [clientRun_append, clientRun_append, hearly]
    have hstep : clientRun w [ClientEvent.signal x d sdp]
        = { w with conns := (w.conns.set i
              ({ p with signalingState := SignalingState.stable
                        remoteDescription := some d })) } := by
      show (onSignal w x d sdp).1 = _
      rcases hacc with ⟨hoffer, hopen⟩ | ⟨hans, hst⟩
      · rw [onSignal_offer_open w x i p d sdp hget hconn hopen hoffer]
      · rw [onSignal_answer_pending w x i p d sdp hget hconn hst hans]
    rw [hstep]
    exact run_candidates_late x sdp late
      { w with conns := (w.conns.set i
          ({ p with signalingState := SignalingState.stable, remoteDescription := some d })) }
      i ({ p with signalingState := SignalingState.stable, remoteDescription := some d })
      d hget hnew (by simp) rfl hlate
  · intro hrej
    rw [clientRun_append, clientRun_append, hearly]
    have hsrd : p.setRemoteDescription d = none := by
      rcases hd with hoffer | hans
      · have hcl : p.signalingState = SignalingState.closed := by
          by_contra hne
          exact hrej (Or.inl ⟨hoffer, hne⟩)
        simp [Peer.setRemoteDescription, hoffer, hcl]
      · have hne : p.signalingState ≠ SignalingState.haveLocalOffer :=
          fun hst => hrej (Or.inr ⟨hans, hst⟩)
        rw [setRemoteDescription_answer p d hans, if_neg hne]
    have hstep : clientRun w [ClientEvent.signal x d sdp] = w := by
      show (onSignal w x d sdp).1 = _
      rw [onSignal_description_rejected w x i p d sdp hget hconn hd hsrd]
    rw [hstep]
    exact run_candidates_early x sdp late w i p hget hconn hrd

theorem candidates_before_description_witness :
    clientRun sampleOfferer
        (["c1"].map (fun c => ClientEvent.signal "x" (candidateSignal c) "")) = sampleOfferer ∧
    (clientRun sampleOfferer
        (["c1"].map (fun c => ClientEvent.signal "x" (candidateSignal c) "")
          ++ [ClientEvent.signal "x" sampleAnswer ""]
          ++ ["c2", "c3"].map (fun c => ClientEvent.signal "x" (candidateSignal c) ""))).conns[0]?
      = some { remoteId := "x", isInitiator := true, signalingState := SignalingState.stable,
               remoteDescription := some sampleAnswer,
               remoteCandidates := [] ++ ["c2", "c3"].map candidateSignal } :=
  have h := candidates_before_description sampleOfferer "x" 0
    ⟨"x", true, SignalingState.haveLocalOffer, none, []⟩ ["c1"] ["c2", "c3"] sampleAnswer ""
    (by decide) (by decide) rfl (Or.inr rfl) (by decide)
  ⟨h.1, h.2.1 (Or.inr ⟨rfl, rfl⟩)⟩

end NearSnap
